import Mathlib

/-!
BtreeIndex: a shallow embedding of `src/btree.cpp`.

The B+ tree index of `btree.cpp` is embedded as pure functions over an explicit
state record `BTreeIndex`.

* A page of the index file is a value of type `Page`; the `reinterpret_cast`s of
  the source become the views `Page.asLeaf`, `Page.asNonLeaf`, `Page.asMeta`.
  A page that is read under the view it was last written under gives back what
  was written; a freshly allocated page reads as all zero under every view.
  The byte overlay of two different views of one page is not modelled (the
  struct declarations of `btree.h` are not part of the sources): such a read
  gives the all-zero node.
* A pointer into a pinned buffer frame is the page id of that frame.
* The fixed-size arrays of a node are total functions on `Nat`; the fan-outs
  `INTARRAYLEAFSIZE` and `INTARRAYNONLEAFSIZE` (declared in `btree.h`) are
  parameters.
* Keys are `Int` (the code only compares and copies keys); page ids (`PageId`)
  are `Nat`, 0 being the null page.
* C++ exceptions are the `raised` results of `Outcome`; the state returned with
  them is the state at the `throw`.
* The recursive functions `lookupLeaf` and `findStartRecordID` take a fuel
  argument and return `none` when it runs out; so do their callers
  `insertEntry` and `startScan`.
* The buffer pool and the page file are not part of the sources; `readPage`,
  `allocPage` and `unPinPage` follow the contract of the spec, section 6.

The file has the definitions first (data model, node operations, tree
navigator, scan cursor, constructor, observations, invariants), then the lemmas,
then one theorem for each property of the specification that was checked.
-/

namespace badgerdb

/-! ## Data model -/

/-- Attribute types, in the order of the enum (`INTEGER = 0`). -/
inductive Datatype
  | INTEGER
  | DOUBLE
  | STRING
deriving DecidableEq

/-- Scan operators. -/
inductive Operator
  | LT
  | LTE
  | GTE
  | GT
deriving DecidableEq

/-- The exceptions whose headers `btree.cpp` includes. -/
inductive Exc
  | BadIndexInfoException
  | BadOpcodesException
  | BadScanrangeException
  | NoSuchKeyFoundException
  | ScanNotInitializedException
  | IndexScanCompletedException
  | FileNotFoundException
  | EndOfFileException
deriving DecidableEq

/-- Result of a call: a normal return with a value, or a thrown exception. -/
inductive Outcome (α : Type)
  | returned (a : α)
  | raised (e : Exc)
deriving DecidableEq

structure RecordId where
  page_number : Nat
  slot_number : Nat
deriving DecidableEq

/-- The assignment `rid.page_number = 0`, which marks a slot as unused. -/
def RecordId.clearPage (rid : RecordId) : RecordId :=
  { rid with page_number := 0 }

structure RIDKeyPair where
  rid : RecordId
  key : Int
deriving DecidableEq

structure PageKeyPair where
  pageNo : Nat
  key : Int
deriving DecidableEq

structure IndexMetaInfo where
  relationName : String
  attrByteOffset : Int
  attrType : Datatype
  rootPageNo : Nat
deriving DecidableEq

structure LeafNodeInt where
  keyArray : Nat → Int
  ridArray : Nat → RecordId
  rightSibPageNo : Nat

structure NonLeafNodeInt where
  level : Int
  keyArray : Nat → Int
  pageNoArray : Nat → Nat

/-- Contents of one page of the index file. -/
inductive Page
  | blank
  | header (m : IndexMetaInfo)
  | leaf (l : LeafNodeInt)
  | nonLeaf (n : NonLeafNodeInt)

/-- The all-zero leaf image. -/
def zeroLeaf : LeafNodeInt :=
  { keyArray := fun _ => 0, ridArray := fun _ => ⟨0, 0⟩, rightSibPageNo := 0 }

/-- The all-zero non-leaf image. -/
def zeroNonLeaf : NonLeafNodeInt :=
  { level := 0, keyArray := fun _ => 0, pageNoArray := fun _ => 0 }

/-- The all-zero meta image. -/
def zeroMeta : IndexMetaInfo :=
  { relationName := "", attrByteOffset := 0, attrType := Datatype.INTEGER, rootPageNo := 0 }

/-- View of a page as `LeafNodeInt*`. -/
def Page.asLeaf : Page → LeafNodeInt
  | Page.leaf l => l
  | _ => zeroLeaf

/-- View of a page as `NonLeafNodeInt*`. -/
def Page.asNonLeaf : Page → NonLeafNodeInt
  | Page.nonLeaf n => n
  | _ => zeroNonLeaf

/-- View of a page as `IndexMetaInfo*`. -/
def Page.asMeta : Page → IndexMetaInfo
  | Page.header m => m
  | _ => zeroMeta

/-- Array store `a[i] = v`. -/
def setAt {α : Type} (a : Nat → α) (i : Nat) (v : α) : Nat → α :=
  fun j => if j = i then v else a j

/-- The index object together with the file and the buffer pool it works on. -/
structure BTreeIndex where
  /-- file: contents of every page -/
  pages : Nat → Page
  /-- file: the page number the next allocation hands out -/
  nextPageNo : Nat
  /-- file: `getFirstPageNo()` -/
  firstPageNo : Nat
  /-- buffer pool: pin count per page -/
  pinCnt : Nat → Nat
  /-- buffer pool: dirty bit per page -/
  dirty : Nat → Bool
  /-- buffer pool: number of `unPinPage` calls issued on a page with pin count 0 -/
  badUnpins : Nat
  attributeType : Datatype
  attrByteOffset : Int
  leafOccupancy : Nat
  nodeOccupancy : Nat
  headerPageNum : Nat
  rootPageNum : Nat
  is_root_leaf : Bool
  scanExecuting : Bool
  nextEntry : Int
  currentPageNum : Nat
  /-- the frame `currentPageData` points to, named by its page id -/
  currentPageData : Nat
  lowValInt : Int
  highValInt : Int
  lowOp : Operator
  highOp : Operator
  /-- lines written to `std::cout` -/
  stdout : List String

namespace BTreeIndex

/-! ## Buffer pool and file (external collaborators) -/

/-- Modelled from the spec: `BufMgr::readPage` is not under `src/`; by the buffer
pool contract of the spec, section 6.2, it pins the page. -/
def readPage (s : BTreeIndex) (p : Nat) : BTreeIndex :=
  { s with pinCnt := setAt s.pinCnt p (s.pinCnt p + 1) }

/-- Modelled from the spec: `BufMgr::allocPage` is not under `src/`; by the spec,
sections 6.1 and 6.2, it creates a new page of the file (pages are numbered
consecutively), hands back its number and pins it. The new page is all zero. -/
def allocPage (s : BTreeIndex) : BTreeIndex × Nat :=
  ({ s with
      pages := setAt s.pages s.nextPageNo Page.blank
      nextPageNo := s.nextPageNo + 1
      pinCnt := setAt s.pinCnt s.nextPageNo (s.pinCnt s.nextPageNo + 1) },
   s.nextPageNo)

/-- Modelled from the spec: `BufMgr::unPinPage` is not under `src/`; by the spec,
section 6.2, it releases one pin and records the dirty bit. A call on a page
whose pin count is 0 is counted in `badUnpins`. -/
def unPinPage (s : BTreeIndex) (p : Nat) (d : Bool) : BTreeIndex :=
  { s with
      pinCnt := setAt s.pinCnt p (s.pinCnt p - 1)
      dirty := setAt s.dirty p (s.dirty p || d)
      badUnpins := if s.pinCnt p = 0 then s.badUnpins + 1 else s.badUnpins }

/-- `std::cout << line`. -/
def cout (s : BTreeIndex) (line : String) : BTreeIndex :=
  { s with stdout := s.stdout ++ [line] }

/-- Store through a `LeafNodeInt*` that points into page `p`. -/
def writeLeaf (s : BTreeIndex) (p : Nat) (l : LeafNodeInt) : BTreeIndex :=
  { s with pages := setAt s.pages p (Page.leaf l) }

/-- Store through a `NonLeafNodeInt*` that points into page `p`. -/
def writeNonLeaf (s : BTreeIndex) (p : Nat) (n : NonLeafNodeInt) : BTreeIndex :=
  { s with pages := setAt s.pages p (Page.nonLeaf n) }

/-- Store through an `IndexMetaInfo*` that points into page `p`. -/
def writeMeta (s : BTreeIndex) (p : Nat) (m : IndexMetaInfo) : BTreeIndex :=
  { s with pages := setAt s.pages p (Page.header m) }

end BTreeIndex

/-! ## Node operations -/

/-- The search loops of the source,
`for (idx = start; valid(idx) && idx < bound; idx++) if (hit(idx)) break;`
with `n = bound - idx` iterations left; the result is the final `idx`. -/
def searchLoop (valid hit : Nat → Bool) : Nat → Nat → Nat
  | 0, idx => idx
  | n + 1, idx =>
    if valid idx then
      if hit idx then idx else searchLoop valid hit n (idx + 1)
    else idx

/-- Shift loop of `insertEntryInLeaf`:
`for (i = start; i > idx; i--) { rid[i] = rid[i-1]; key[i] = key[i-1]; }`. -/
def shiftLeaf (idx : Nat) : Nat → LeafNodeInt → LeafNodeInt
  | 0, leafNode => leafNode
  | i + 1, leafNode =>
    if i + 1 > idx then
      shiftLeaf idx i
        { leafNode with
            ridArray := setAt leafNode.ridArray (i + 1) (leafNode.ridArray i)
            keyArray := setAt leafNode.keyArray (i + 1) (leafNode.keyArray i) }
    else leafNode

/-- Search loop of `insertEntryInLeaf` (lines 307-311): the slot the entry goes
to. -/
def leafSlot (leafOccupancy : Nat) (leafNode : LeafNodeInt) (key : Int) : Nat :=
  searchLoop (fun i => decide ((leafNode.ridArray i).page_number ≠ 0))
    (fun i => decide (leafNode.keyArray i ≥ key)) leafOccupancy 0

/-- `BTreeIndex::insertEntryInLeaf` (lines 305-322). -/
def insertEntryInLeaf (leafOccupancy : Nat) (leafNode : LeafNodeInt) (entry : RIDKeyPair) :
    LeafNodeInt :=
  let idx := leafSlot leafOccupancy leafNode entry.key
  let leafNode := shiftLeaf idx (leafOccupancy - 1) leafNode
  { leafNode with
      ridArray := setAt leafNode.ridArray idx entry.rid
      keyArray := setAt leafNode.keyArray idx entry.key }

/-- Shift loop of `insertEntryInNonLeaf`:
`for (i = start; i > idx; i--) { key[i] = key[i-1]; pageNo[i+1] = pageNo[i]; }`. -/
def shiftNonLeaf (idx : Nat) : Nat → NonLeafNodeInt → NonLeafNodeInt
  | 0, node => node
  | i + 1, node =>
    if i + 1 > idx then
      shiftNonLeaf idx i
        { node with
            keyArray := setAt node.keyArray (i + 1) (node.keyArray i)
            pageNoArray := setAt node.pageNoArray (i + 2) (node.pageNoArray (i + 1)) }
    else node

/-- Search loop of `insertEntryInNonLeaf` (lines 331-334); it is bounded by
`leafOccupancy`, as in the source. -/
def nonLeafSlot (leafOccupancy : Nat) (nonLeafNode : NonLeafNodeInt) (key : Int) : Nat :=
  searchLoop (fun i => decide (nonLeafNode.pageNoArray i ≠ 0))
    (fun i => decide (nonLeafNode.keyArray i ≥ key)) leafOccupancy 0

/-- `BTreeIndex::insertEntryInNonLeaf` (lines 328-350). The loops are bounded by
`leafOccupancy`, as in the source. In the append branch the source writes
`keyArray[idx-1]`; for `idx = 0` (a node without any child) that is outside the
array, here the subtraction stops at 0. -/
def insertEntryInNonLeaf (leafOccupancy : Nat) (nonLeafNode : NonLeafNodeInt)
    (entry : PageKeyPair) : NonLeafNodeInt :=
  let idx := nonLeafSlot leafOccupancy nonLeafNode entry.key
  let nonLeafNode := shiftNonLeaf idx (leafOccupancy - 1) nonLeafNode
  if nonLeafNode.pageNoArray idx = 0 then
    { nonLeafNode with
        pageNoArray := setAt nonLeafNode.pageNoArray idx entry.pageNo
        keyArray := setAt nonLeafNode.keyArray (idx - 1) entry.key }
  else
    { nonLeafNode with
        pageNoArray := setAt nonLeafNode.pageNoArray (idx + 1) entry.pageNo
        keyArray := setAt nonLeafNode.keyArray idx entry.key }

/-- Lines 165-177 of `lookupLeaf`: the index of the child to descend into. -/
def childSlot (nodeOccupancy : Nat) (currNode : NonLeafNodeInt) (key : Int) : Nat :=
  let idx := searchLoop (fun i => decide (currNode.pageNoArray i ≠ 0))
    (fun i => decide (currNode.keyArray i > key)) nodeOccupancy 0
  if currNode.pageNoArray idx = 0 then (if idx > 0 then idx - 1 else idx) else idx

/-- Move loop of `splitLeafNode` (lines 402-406), `n = leafOccupancy - i`
iterations left; the pair is `(leafNode, newNode)`. -/
def moveLeaf (mid : Nat) : Nat → Nat → LeafNodeInt × LeafNodeInt → LeafNodeInt × LeafNodeInt
  | 0, _, nodes => nodes
  | n + 1, i, (leafNode, newNode) =>
    moveLeaf mid n (i + 1)
      ({ leafNode with
          ridArray := setAt leafNode.ridArray i (leafNode.ridArray i).clearPage },
       { newNode with
          ridArray := setAt newNode.ridArray (i - mid) (leafNode.ridArray i)
          keyArray := setAt newNode.keyArray (i - mid) (leafNode.keyArray i) })

/-- The node part of `BTreeIndex::splitLeafNode` (lines 394-416): `newNode` is the
image of the page just allocated, `PageNo` its number. Returns the two nodes and
the pair handed back through `newPage`. -/
def splitLeafNodes (leafOccupancy : Nat) (leafNode newNode : LeafNodeInt) (PageNo : Nat)
    (entry : RIDKeyPair) : LeafNodeInt × LeafNodeInt × PageKeyPair :=
  let mid := leafOccupancy / 2 + 1
  let newNode := { newNode with rightSibPageNo := leafNode.rightSibPageNo }
  let leafNode := { leafNode with rightSibPageNo := PageNo }
  let moved := moveLeaf mid (leafOccupancy - mid) mid (leafNode, newNode)
  let leafNode := moved.1
  let newNode := moved.2
  if entry.key < newNode.keyArray 0 then
    let leafNode := insertEntryInLeaf leafOccupancy leafNode entry
    (leafNode, newNode, ⟨PageNo, newNode.keyArray 0⟩)
  else
    let newNode := insertEntryInLeaf leafOccupancy newNode entry
    (leafNode, newNode, ⟨PageNo, newNode.keyArray 0⟩)

/-- Move loop of `splitNonLeafNode` (lines 442-445), `n = nodeOccupancy - i`
iterations left. -/
def moveNonLeaf (mid : Nat) (nonLeafNode : NonLeafNodeInt) :
    Nat → Nat → NonLeafNodeInt → NonLeafNodeInt
  | 0, _, newNode => newNode
  | n + 1, i, newNode =>
    moveNonLeaf mid nonLeafNode n (i + 1)
      { newNode with
          keyArray := setAt newNode.keyArray (i - mid) (nonLeafNode.keyArray i)
          pageNoArray := setAt newNode.pageNoArray (i - mid) (nonLeafNode.pageNoArray i) }

/-- The node part of `BTreeIndex::splitNonLeafNode` (lines 435-458). -/
def splitNonLeafNodes (leafOccupancy nodeOccupancy : Nat) (nonLeafNode newNode : NonLeafNodeInt)
    (newPageNo : Nat) (entry : PageKeyPair) :
    NonLeafNodeInt × NonLeafNodeInt × PageKeyPair :=
  let mid := nodeOccupancy / 2 + 1
  let newNode := { newNode with level := nonLeafNode.level }
  let newNode := moveNonLeaf mid nonLeafNode (nodeOccupancy - mid) mid newNode
  let newNode := { newNode with
    pageNoArray := setAt newNode.pageNoArray (nodeOccupancy - mid)
      (nonLeafNode.pageNoArray nodeOccupancy) }
  let nonLeafNode := { nonLeafNode with
    pageNoArray := setAt nonLeafNode.pageNoArray nodeOccupancy 0 }
  if entry.key < newNode.keyArray 0 then
    let nonLeafNode := insertEntryInNonLeaf leafOccupancy nonLeafNode entry
    (nonLeafNode, newNode, ⟨newPageNo, newNode.keyArray 0⟩)
  else
    let newNode := insertEntryInNonLeaf leafOccupancy newNode entry
    (nonLeafNode, newNode, ⟨newPageNo, newNode.keyArray 0⟩)

/-! ## Tree navigator -/

namespace BTreeIndex

/-- `BTreeIndex::makeNewRootNode` (lines 352-378). -/
def makeNewRootNode (s : BTreeIndex) (pid : Nat) (pageKey : PageKeyPair) (setlevel : Bool) :
    BTreeIndex :=
  let (s, newRootPageNo) := s.allocPage
  let newRootNode := (s.pages newRootPageNo).asNonLeaf
  let newRootNode := { newRootNode with level := if setlevel then 1 else 0 }
  let newRootNode := { newRootNode with pageNoArray := setAt newRootNode.pageNoArray 0 pid }
  let newRootNode :=
    { newRootNode with pageNoArray := setAt newRootNode.pageNoArray 1 pageKey.pageNo }
  let newRootNode := { newRootNode with keyArray := setAt newRootNode.keyArray 0 pageKey.key }
  let s := s.writeNonLeaf newRootPageNo newRootNode
  let s := { s with rootPageNum := newRootPageNo }
  let s := { s with is_root_leaf := false }
  let s := s.readPage s.headerPageNum
  let metaPage := (s.pages s.headerPageNum).asMeta
  let s := s.writeMeta s.headerPageNum { metaPage with rootPageNo := s.rootPageNum }
  let s := s.unPinPage newRootPageNo true
  s.unPinPage s.headerPageNum true

/-- `BTreeIndex::splitLeafNode` (lines 385-419); `leafNode` points into page
`leafPage`. -/
def splitLeafNode (s : BTreeIndex) (leafPage : Nat) (entry : RIDKeyPair) :
    BTreeIndex × PageKeyPair :=
  let (s, PageNo) := s.allocPage
  let r := splitLeafNodes s.leafOccupancy (s.pages leafPage).asLeaf (s.pages PageNo).asLeaf
    PageNo entry
  let s := s.writeLeaf leafPage r.1
  let s := s.writeLeaf PageNo r.2.1
  (s.unPinPage PageNo true, r.2.2)

/-- `BTreeIndex::splitNonLeafNode` (lines 426-460); `nonLeafNode` points into page
`nodePage`. -/
def splitNonLeafNode (s : BTreeIndex) (nodePage : Nat) (entry : PageKeyPair) :
    BTreeIndex × PageKeyPair :=
  let (s, newPageNo) := s.allocPage
  let r := splitNonLeafNodes s.leafOccupancy s.nodeOccupancy (s.pages nodePage).asNonLeaf
    (s.pages newPageNo).asNonLeaf newPageNo entry
  let s := s.writeNonLeaf nodePage r.1
  let s := s.writeNonLeaf newPageNo r.2.1
  (s.unPinPage newPageNo true, r.2.2)

/-- Lines 185-205 of `lookupLeaf`: the current node is at level 1, the child
`nextLevelPageNo` is a leaf. `currNode` stays the pointer into page
`currPageNo`. -/
def lookupLeafLevelOne (s : BTreeIndex) (currPageNo nextLevelPageNo : Nat)
    (entry : RIDKeyPair) : BTreeIndex :=
  let s := s.readPage nextLevelPageNo
  let nextLevelLeafNode := (s.pages nextLevelPageNo).asLeaf
  let s :=
    if (nextLevelLeafNode.ridArray (s.leafOccupancy - 1)).page_number = 0 then
      s.writeLeaf nextLevelPageNo (insertEntryInLeaf s.leafOccupancy nextLevelLeafNode entry)
    else
      let (s, newPage) := s.splitLeafNode nextLevelPageNo entry
      if (s.pages currPageNo).asNonLeaf.pageNoArray s.nodeOccupancy = 0 then
        s.writeNonLeaf currPageNo
          (insertEntryInNonLeaf s.leafOccupancy (s.pages currPageNo).asNonLeaf newPage)
      else s
  let s := s.unPinPage nextLevelPageNo true
  s.unPinPage currPageNo true

/-- Lines 214-233 of `lookupLeaf`: back from the recursive call, which handed
back `newInsertedPage`. Returns the state and `insertedPage`. -/
def lookupLeafBackUp (s : BTreeIndex) (currPageNo : Nat)
    (newInsertedPage insertedPage : PageKeyPair) : BTreeIndex × PageKeyPair :=
  let s := s.readPage currPageNo
  let (s, insertedPage) :=
    if newInsertedPage.pageNo ≠ 0 then
      let newPage : PageKeyPair := ⟨newInsertedPage.pageNo, newInsertedPage.key⟩
      if (s.pages currPageNo).asNonLeaf.pageNoArray s.nodeOccupancy = 0 then
        (s.writeNonLeaf currPageNo
          (insertEntryInNonLeaf s.leafOccupancy (s.pages currPageNo).asNonLeaf newPage),
         insertedPage)
      else
        s.splitNonLeafNode currPageNo newPage
    else (s, insertedPage)
  let is_dirty : Bool := decide (newInsertedPage.pageNo ≠ 0)
  (s.unPinPage currPageNo is_dirty, insertedPage)

/-- `BTreeIndex::lookupLeaf` (lines 154-234). The reference parameter
`insertedPage` is passed in and handed back. -/
def lookupLeaf : Nat → BTreeIndex → Nat → RIDKeyPair → PageKeyPair →
    Option (BTreeIndex × PageKeyPair)
  | 0, _, _, _, _ => none
  | fuel + 1, s, currPageNo, entry, insertedPage =>
    let s := s.readPage currPageNo
    let currNode := (s.pages currPageNo).asNonLeaf
    let idx := childSlot s.nodeOccupancy currNode entry.key
    let nextLevelPageNo := currNode.pageNoArray idx
    if currNode.level = 1 then
      some (s.lookupLeafLevelOne currPageNo nextLevelPageNo entry, insertedPage)
    else
      let newInsertedPage : PageKeyPair := ⟨0, 0⟩
      let s := s.unPinPage currPageNo false
      match lookupLeaf fuel s nextLevelPageNo entry newInsertedPage with
      | none => none
      | some (s, newInsertedPage) =>
        some (s.lookupLeafBackUp currPageNo newInsertedPage insertedPage)

/-- `BTreeIndex::insertLeafAtNode` (lines 240-261). -/
def insertLeafAtNode (s : BTreeIndex) (entry : RIDKeyPair) : BTreeIndex :=
  let s := s.readPage s.rootPageNum
  let prevRoot := s.rootPageNum
  let leafNode := (s.pages prevRoot).asLeaf
  let is_root_leaf_full : Bool :=
    decide ((leafNode.ridArray (s.leafOccupancy - 1)).page_number ≠ 0)
  let s :=
    if !is_root_leaf_full then
      s.writeLeaf prevRoot (insertEntryInLeaf s.leafOccupancy leafNode entry)
    else
      let (s, newPage) := s.splitLeafNode prevRoot entry
      s.makeNewRootNode s.rootPageNum newPage true
  s.unPinPage prevRoot true

/-- `BTreeIndex::insertEntry` (lines 268-299); `key` is the integer `*((int*)key)`.
The function has no `throw`; `none` only when the recursion of `lookupLeaf` does
not finish within `fuel` calls. -/
def insertEntry (fuel : Nat) (s : BTreeIndex) (key : Int) (rid : RecordId) :
    Option (BTreeIndex × Outcome Unit) :=
  if s.is_root_leaf then
    if s.attributeType ≠ Datatype.INTEGER then
      some (s.cout "NON INTEGER TYPE INDEX NOT SUPPORTED.", Outcome.returned ())
    else
      let entry : RIDKeyPair := ⟨rid, key⟩
      some (s.insertLeafAtNode entry, Outcome.returned ())
  else
    if s.attributeType ≠ Datatype.INTEGER then
      some (s.cout "NON INTEGER TYPE INDEX NOT SUPPORTED.", Outcome.returned ())
    else
      let entry : RIDKeyPair := ⟨rid, key⟩
      let insertedPage : PageKeyPair := ⟨0, entry.key⟩
      match lookupLeaf fuel s s.rootPageNum entry insertedPage with
      | none => none
      | some (s, insertedPage) =>
        let prevRoot := s.rootPageNum
        let s := s.readPage prevRoot
        let s := if insertedPage.pageNo ≠ 0 then s.makeNewRootNode prevRoot insertedPage false
          else s
        some (s.unPinPage prevRoot true, Outcome.returned ())

/-! ## Scan cursor -/

/-- `BTreeIndex::endScan` (lines 589-608). `currentPageNum = -1` on the unsigned
32-bit `PageId` is `2^32 - 1`. -/
def endScan (s : BTreeIndex) : BTreeIndex × Outcome Unit :=
  if !s.scanExecuting then
    (s, Outcome.raised Exc.ScanNotInitializedException)
  else
    let s := s.unPinPage s.currentPageNum false
    let s := { s with scanExecuting := false }
    let s := { s with nextEntry := -1 }
    let s := { s with currentPageNum := 2 ^ 32 - 1 }
    (s, Outcome.returned ())

/-- Lines 574-580 of `scanNext`: the move to the next page once `nextEntry` has
passed the end of the array. The source calls `allocPage` (not `readPage`),
which overwrites `currentPageNum` with the number of the page just allocated.
`currentPage` is the leaf pointer taken at line 560. -/
def scanNextAdvance (INTARRAYLEAFSIZE : Nat) (s : BTreeIndex) (currentPage : Nat) :
    BTreeIndex :=
  if s.nextEntry ≥ (INTARRAYLEAFSIZE : Int) then
    let s := s.unPinPage s.currentPageNum false
    let s := { s with currentPageNum := (s.pages currentPage).asLeaf.rightSibPageNo }
    let (s, newPageNo) := s.allocPage
    { s with currentPageNum := newPageNo, currentPageData := newPageNo }
  else s

/-- `BTreeIndex::scanNext` (lines 555-581). The result carries `outRid`. An index
`nextEntry < 0` is outside the array; here it reads slot 0. -/
def scanNext (INTARRAYLEAFSIZE : Nat) (s : BTreeIndex) : BTreeIndex × Outcome RecordId :=
  if s.scanExecuting = false then
    (s, Outcome.raised Exc.ScanNotInitializedException)
  else
    let currentPage := s.currentPageData
    if s.highOp = Operator.LT ∧
        (s.pages currentPage).asLeaf.keyArray s.nextEntry.toNat < s.highValInt then
      let outRid := (s.pages currentPage).asLeaf.ridArray s.nextEntry.toNat
      let s := { s with nextEntry := s.nextEntry + 1 }
      (scanNextAdvance INTARRAYLEAFSIZE s currentPage, Outcome.returned outRid)
    else if s.highOp = Operator.LTE ∧
        (s.pages currentPage).asLeaf.keyArray s.nextEntry.toNat ≤ s.highValInt then
      let outRid := (s.pages currentPage).asLeaf.ridArray s.nextEntry.toNat
      let s := { s with nextEntry := s.nextEntry + 1 }
      (scanNextAdvance INTARRAYLEAFSIZE s currentPage, Outcome.returned outRid)
    else
      (s, Outcome.raised Exc.IndexScanCompletedException)

/-- `BTreeIndex::findStartRecordID` (lines 462-504); `rootPage` points into page
`rootPage`. The page is read as a non-leaf node whatever its kind, as in the
source. -/
def findStartRecordID (INTARRAYLEAFSIZE INTARRAYNONLEAFSIZE : Nat) :
    Nat → BTreeIndex → Nat → Option (BTreeIndex × Outcome Unit)
  | 0, _, _ => none
  | fuel + 1, s, rootPage =>
    let node := (s.pages rootPage).asNonLeaf
    if node.level = 0 then
      let found := (List.range (INTARRAYLEAFSIZE - 1)).find? (fun i =>
        decide ((s.lowOp = Operator.GT ∧ s.lowValInt > node.keyArray i) ∨
          (s.lowOp = Operator.GTE ∧ s.lowValInt ≥ node.keyArray i)))
      match found with
      | some i =>
        let s := { s with currentPageNum := node.pageNoArray i }
        let (s, newPageNo) := s.allocPage
        let s := { s with currentPageNum := newPageNo, currentPageData := newPageNo }
        some ({ s with nextEntry := (i : Int) }, Outcome.returned ())
      | none => some (s, Outcome.raised Exc.NoSuchKeyFoundException)
    else
      let i := searchLoop
        (fun i => decide (s.lowOp = Operator.GT ∧ s.lowValInt > node.keyArray i))
        (fun _ => false) (INTARRAYNONLEAFSIZE - 1) 0
      let i := searchLoop
        (fun i => decide (s.lowOp = Operator.GTE ∧ s.lowValInt ≥ node.keyArray i))
        (fun _ => false) (INTARRAYNONLEAFSIZE - 1 - i) i
      let s := s.readPage (node.pageNoArray i)
      findStartRecordID INTARRAYLEAFSIZE INTARRAYNONLEAFSIZE fuel s (node.pageNoArray i)

end BTreeIndex

/-- A `const void*` argument of `startScan`: its address and the integer it
points to. -/
structure VoidPtr where
  addr : Nat
  val : Int
deriving DecidableEq

namespace BTreeIndex

/-- `BTreeIndex::startScan` (lines 510-549). The range check of the source
compares the two pointers. For a Double or String index the bounds go to
`lowValDouble`, `lowValString` and so on, which are not part of the state. -/
def startScan (INTARRAYLEAFSIZE INTARRAYNONLEAFSIZE : Nat) (fuel : Nat) (s : BTreeIndex)
    (lowValParm : VoidPtr) (lowOpParm : Operator) (highValParm : VoidPtr)
    (highOpParm : Operator) : Option (BTreeIndex × Outcome Unit) :=
  let s := if s.scanExecuting = true then (s.endScan).1 else s
  let s := { s with scanExecuting := true }
  if lowOpParm ≠ Operator.GT ∨ lowOpParm ≠ Operator.GTE then
    some (s, Outcome.raised Exc.BadOpcodesException)
  else if highOpParm ≠ Operator.LT ∨ highOpParm ≠ Operator.LTE then
    some (s, Outcome.raised Exc.BadOpcodesException)
  else if highValParm.addr < lowValParm.addr then
    some (s, Outcome.raised Exc.BadScanrangeException)
  else
    let s :=
      if s.attributeType = Datatype.INTEGER then
        { s with lowValInt := lowValParm.val, highValInt := highValParm.val }
      else s
    let s := { s with lowOp := lowOpParm }
    let s := { s with highOp := highOpParm }
    let s := s.readPage s.rootPageNum
    findStartRecordID INTARRAYLEAFSIZE INTARRAYNONLEAFSIZE fuel s s.rootPageNum

/-! ## Index lifecycle -/

/-- An index file as the constructor finds it on disk. -/
structure BlobFile where
  pages : Nat → Page
  nextPageNo : Nat
  firstPageNo : Nat

/-- The empty file that `new BlobFile(indexName, true)` creates; its first page
will be page 1. -/
def BlobFile.empty : BlobFile :=
  { pages := fun _ => Page.blank, nextPageNo := 1, firstPageNo := 1 }

/-- `file = new BlobFile(...)`: from here on the index works on this file. -/
def openFile (s : BTreeIndex) (file : BlobFile) : BTreeIndex :=
  { s with pages := file.pages, nextPageNo := file.nextPageNo, firstPageNo := file.firstPageNo }

/-- Bulk load and later use: `insertEntry` for every `(key, rid)` of a list, in
order. -/
def insertAll (fuel : Nat) : BTreeIndex → List (Int × RecordId) → Option BTreeIndex
  | s, [] => some s
  | s, (key, rid) :: rest =>
    match s.insertEntry fuel key rid with
    | none => none
    | some (s, _) => insertAll fuel s rest

/-- Lines 125-130 of the constructor: "if a root page number is 2, it is a leaf
node". -/
def rootLeafIfPageTwo (s : BTreeIndex) : BTreeIndex :=
  if s.rootPageNum = 2 then { s with is_root_leaf := true } else s

/-- `BTreeIndex::BTreeIndex` (lines 28-134). `this` is the object before the
constructor runs: the members the constructor does not assign keep their values,
and its buffer-pool fields are the pool `bufMgrIn`. `disk` is the index file when
`File::exists(indexName)`, and `relation` lists the `(key, rid)` pairs
`FileScan` yields until `EndOfFileException`. Returns the object and
`outIndexName`. -/
def new (fuel : Nat) (this : BTreeIndex) (relationName : String) (attrByteOffset : Int)
    (attrType : Datatype) (INTARRAYLEAFSIZE INTARRAYNONLEAFSIZE : Nat) (disk : Option BlobFile)
    (relation : List (Int × RecordId)) : Option (BTreeIndex × String) :=
  let indexName := relationName ++ "." ++ toString attrByteOffset
  let s := this.cout ("Index name created: " ++ indexName)
  let s := { s with
    attributeType := attrType
    attrByteOffset := attrByteOffset
    leafOccupancy := INTARRAYLEAFSIZE
    nodeOccupancy := INTARRAYNONLEAFSIZE
    scanExecuting := false
    is_root_leaf := true }
  match disk with
  | none =>
    let s := s.cout "Index file does not exist"
    let s := s.openFile BlobFile.empty
    let (s, headerPageNum) := s.allocPage
    let s := { s with headerPageNum := headerPageNum }
    let (s, rootPageNum) := s.allocPage
    let s := { s with rootPageNum := rootPageNum }
    let s := s.writeMeta s.headerPageNum
      { relationName := relationName, attrByteOffset := attrByteOffset,
        attrType := s.attributeType, rootPageNo := s.rootPageNum }
    let s := s.writeLeaf s.rootPageNum
      { (s.pages s.rootPageNum).asLeaf with rightSibPageNo := 0 }
    let s := s.unPinPage s.rootPageNum true
    let s := s.unPinPage s.headerPageNum true
    match insertAll fuel s relation with
    | none => none
    | some s => some (s.cout "Read relation and creating index file", indexName)
  | some file =>
    let s := s.cout "Index file does exist"
    let s := s.openFile file
    let s := { s with headerPageNum := s.firstPageNo }
    let s := s.readPage s.headerPageNum
    let metaInfo := (s.pages s.headerPageNum).asMeta
    let s := { s with
      attrByteOffset := metaInfo.attrByteOffset
      attributeType := metaInfo.attrType
      rootPageNum := metaInfo.rootPageNo }
    let s := s.readPage s.rootPageNum
    let s := s.rootLeafIfPageTwo
    some (s.unPinPage s.headerPageNum false, indexName)

end BTreeIndex

/-! ## Observations used by the properties -/

/-- The `(key, rid)` pair in slot `i` of a leaf. -/
def entryAt (leaf : LeafNodeInt) (i : Nat) : Int × RecordId :=
  (leaf.keyArray i, leaf.ridArray i)

/-- The populated slots of a leaf: the slots below the fan-out whose rid page
number is not the sentinel 0, in slot order. -/
def populated (L : Nat) (leaf : LeafNodeInt) : List (Int × RecordId) :=
  ((List.range L).filter (fun i => decide ((leaf.ridArray i).page_number ≠ 0))).map (entryAt leaf)

/-- The populated slots of a leaf up to the first sentinel. -/
def populatedInit (L : Nat) (leaf : LeafNodeInt) : List (Int × RecordId) :=
  ((List.range L).takeWhile (fun i => decide ((leaf.ridArray i).page_number ≠ 0))).map
    (entryAt leaf)

/-- The pages met by following `rightSibPageNo` from page `p` until page id 0;
`none` when 0 is not reached within `fuel` steps. -/
def leafChain (pages : Nat → Page) : Nat → Nat → Option (List Nat)
  | 0, p => if p = 0 then some [] else none
  | fuel + 1, p =>
    if p = 0 then some []
    else (leafChain pages fuel (pages p).asLeaf.rightSibPageNo).map (fun ch => p :: ch)

/-- Concatenation of the populated slots of the given leaf pages. -/
def entriesOf (L : Nat) (pages : Nat → Page) : List Nat → List (Int × RecordId)
  | [] => []
  | p :: rest => populated L (pages p).asLeaf ++ entriesOf L pages rest

/-- Concatenation of the populated slots up to the first sentinel of the given
leaf pages. -/
def entriesInitOf (L : Nat) (pages : Nat → Page) : List Nat → List (Int × RecordId)
  | [] => []
  | p :: rest => populatedInit L (pages p).asLeaf ++ entriesInitOf L pages rest

namespace BTreeIndex

/-- The entries in the populated slots of the leaves on the sibling chain that
starts at the initial leaf, page 2. The file has fewer than `nextPageNo` pages,
so a chain that ends takes fewer than `nextPageNo` steps. -/
def chainEntries (s : BTreeIndex) : Option (List (Int × RecordId)) :=
  (leafChain s.pages s.nextPageNo 2).map (entriesOf s.leafOccupancy s.pages)

/-- The keys read off the sibling chain from page 2, each leaf up to its first
sentinel. -/
def chainKeys (s : BTreeIndex) : Option (List Int) :=
  (leafChain s.pages s.nextPageNo 2).map
    (fun ch => (entriesInitOf s.leafOccupancy s.pages ch).map Prod.fst)

/-- An object whose members are all zero, on an empty buffer pool. -/
def zeroObject : BTreeIndex :=
  { pages := fun _ => Page.blank, nextPageNo := 0, firstPageNo := 0, pinCnt := fun _ => 0,
    dirty := fun _ => false, badUnpins := 0, attributeType := Datatype.INTEGER,
    attrByteOffset := 0, leafOccupancy := 0, nodeOccupancy := 0, headerPageNum := 0,
    rootPageNum := 0, is_root_leaf := false, scanExecuting := false, nextEntry := 0,
    currentPageNum := 0, currentPageData := 0, lowValInt := 0, highValInt := 0,
    lowOp := Operator.LT, highOp := Operator.LT, stdout := [] }

/-- The index right after the constructor has created it for a relation without
records. -/
def fresh (this : BTreeIndex) (relationName : String) (attrByteOffset : Int)
    (attrType : Datatype) (INTARRAYLEAFSIZE INTARRAYNONLEAFSIZE : Nat) : Option BTreeIndex :=
  (BTreeIndex.new 0 this relationName attrByteOffset attrType INTARRAYLEAFSIZE
    INTARRAYNONLEAFSIZE none []).map Prod.fst

/-- Entries with keys `lo, lo+1, ...` (`n` of them), the rid of key `k` being
page 1, slot `k - lo`. -/
def ascending (lo : Int) (n : Nat) : List (Int × RecordId) :=
  (List.range n).map (fun (i : Nat) => (lo + (i : Int), (⟨1, i⟩ : RecordId)))

/-- A cursor with a scan active on a leaf that holds keys `0, 1, 2, ...` with
rids `(1, 0), (1, 1), ...`, upper bound `LT 10`, positioned at slot 0. -/
def cursorExample : BTreeIndex :=
  { zeroObject with
      pages := fun _ => Page.leaf
        { keyArray := fun i => (i : Int), ridArray := fun i => ⟨1, i⟩, rightSibPageNo := 0 }
      nextPageNo := 3
      scanExecuting := true
      currentPageNum := 2
      currentPageData := 2
      pinCnt := setAt (fun _ => 0) 2 1
      highOp := Operator.LT
      highValInt := 10 }

/-- An index object whose attribute type is Double. -/
def doubleExample : BTreeIndex :=
  { zeroObject with attributeType := Datatype.DOUBLE, is_root_leaf := true }

/-- A fresh Integer index with fan-outs 3 after the keys 0, 1, 2 have been
inserted: its root is a full leaf. -/
def fullRootExample : BTreeIndex :=
  (((fresh zeroObject "rel" 0 Datatype.INTEGER 3 3).bind
    (fun s => insertAll 1 s (ascending 0 3)))).getD zeroObject

end BTreeIndex

/-! ## Invariants of the insert path -/

/-- The populated slots of `leaf` are exactly the first `k` of its `L` slots. -/
def PopulatedUpTo (L : Nat) (leaf : LeafNodeInt) (k : Nat) : Prop :=
  k ≤ L ∧ ∀ i, i < L → ((leaf.ridArray i).page_number ≠ 0 ↔ i < k)

/-- `chain` lists the pages met from `start` along `rightSibPageNo` up to page
id 0. -/
def Linked (pages : Nat → Page) : List Nat → Nat → Prop
  | [], start => start = 0
  | q :: rest, start => start = q ∧ q ≠ 0 ∧ Linked pages rest (pages q).asLeaf.rightSibPageNo

/-- The chain with page `q` put in right after page `p`. -/
def insertAfter (p q : Nat) : List Nat → List Nat
  | [] => []
  | x :: rest => if x = p then x :: q :: rest else x :: insertAfter p q rest

/-- The sibling chain from page 2 is `chain`; its pages are pages of the file,
each leaf has its populated slots in front, and together they hold `entries`. -/
structure ChainInv (L : Nat) (pages : Nat → Page) (next : Nat) (chain : List Nat)
    (entries : List (Int × RecordId)) : Prop where
  nodup : chain.Nodup
  linked : Linked pages chain 2
  bound : ∀ p ∈ chain, p < next
  leaves : ∀ p ∈ chain, ∃ k, PopulatedUpTo L (pages p).asLeaf k
  perm : (entriesOf L pages chain).Perm entries

/-- The level-1 root: its child slots all point into the sibling chain. -/
def RootOK (pages : Nat → Page) (root : Nat) (chain : List Nat) : Prop :=
  (pages root).asNonLeaf.level = 1 ∧ (pages root).asNonLeaf.pageNoArray 0 ≠ 0 ∧
    ∀ i, (pages root).asNonLeaf.pageNoArray i ≠ 0 → (pages root).asNonLeaf.pageNoArray i ∈ chain

/-- Invariant of the states reached by `insertEntry` from a fresh Integer index
with leaf fan-out `L`; `entries` are the pairs inserted so far. -/
structure Inv (L N : Nat) (s : BTreeIndex) (entries : List (Int × RecordId)) : Prop where
  occ : s.leafOccupancy = L
  nocc : s.nodeOccupancy = N
  int : s.attributeType = Datatype.INTEGER
  hdr : s.headerPageNum < s.nextPageNo
  tree : ∃ chain, ChainInv L s.pages s.nextPageNo chain entries ∧ s.headerPageNum ∉ chain ∧
    (s.is_root_leaf = true → s.rootPageNum ∈ chain) ∧
    (s.is_root_leaf = false →
      s.rootPageNum ∉ chain ∧ s.rootPageNum < s.nextPageNo ∧ RootOK s.pages s.rootPageNum chain)

namespace BTreeIndex

/-- The part of the state the tree lives in: pages, allocation mark, root,
root-is-leaf flag, header page, fan-outs and attribute type. -/
def treeState (s : BTreeIndex) :
    (Nat → Page) × Nat × Nat × Bool × Nat × Nat × Nat × Datatype :=
  (s.pages, s.nextPageNo, s.rootPageNum, s.is_root_leaf, s.headerPageNum, s.leafOccupancy,
    s.nodeOccupancy, s.attributeType)

end BTreeIndex

/-! ## Further observations and examples -/

/-- The array whose first slots hold the elements of `l` and whose other slots
hold `d`. -/
def arrayOf {α : Type} (l : List α) (d : α) : Nat → α :=
  fun i => l.getD i d

/-- The child slots `pageNoArray[0..N]` of a non-leaf node. -/
def childSlots (N : Nat) (node : NonLeafNodeInt) : List Nat :=
  (List.range (N + 1)).map node.pageNoArray

/-- The key slots `keyArray[0..N)` of a non-leaf node. -/
def keySlots (N : Nat) (node : NonLeafNodeInt) : List Int :=
  (List.range N).map node.keyArray

/-- The populated child slots of a non-leaf node: the page ids other than 0 among
`pageNoArray[0..N]`. -/
def populatedChildren (N : Nat) (node : NonLeafNodeInt) : List Nat :=
  (childSlots N node).filter (fun c => decide (c ≠ 0))

/-- The keys in the first `k` slots of a leaf are in non-decreasing order. -/
def KeysAscending (leaf : LeafNodeInt) (k : Nat) : Prop :=
  ∀ b, b < k → ∀ a, a ≤ b → leaf.keyArray a ≤ leaf.keyArray b

instance decidablePopulatedUpTo (L : Nat) (leaf : LeafNodeInt) (k : Nat) :
    Decidable (PopulatedUpTo L leaf k) := by
  unfold PopulatedUpTo
  infer_instance

instance decidableKeysAscending (leaf : LeafNodeInt) (k : Nat) :
    Decidable (KeysAscending leaf k) := by
  unfold KeysAscending
  infer_instance

/-- The list `l'` is `l` with `e` put in at some position. -/
def InsertedInto {α : Type} (e : α) (l l' : List α) : Prop :=
  ∃ i, i ≤ l.length ∧ l' = l.take i ++ e :: l.drop i

/-- The entries in slots `[0, L/2+1)` of a leaf. -/
def lowerEntries (L : Nat) (leaf : LeafNodeInt) : List (Int × RecordId) :=
  (List.range (L / 2 + 1)).map (entryAt leaf)

/-- The entries in slots `[L/2+1, L)` of a leaf. -/
def upperEntries (L : Nat) (leaf : LeafNodeInt) : List (Int × RecordId) :=
  (List.range (L - (L / 2 + 1))).map (fun j => entryAt leaf (L / 2 + 1 + j))

namespace BTreeIndex

/-- A fresh Integer index with fan-outs 3 after the keys `0, 1, ..., n - 1` have
been inserted in ascending order. -/
def ascendingExample (n : Nat) : BTreeIndex :=
  ((fresh zeroObject "rel" 0 Datatype.INTEGER 3 3).bind
    (fun s => insertAll 1 s (ascending 0 n))).getD zeroObject

/-- A scan positioned on slot `nextEntry` of the initial leaf (page 2) of `s`,
with upper bound `LTE highVal`. -/
def cursorOnPageTwo (s : BTreeIndex) (nextEntry : Int) (highVal : Int) : BTreeIndex :=
  { s with
      scanExecuting := true
      currentPageNum := 2
      currentPageData := 2
      nextEntry := nextEntry
      highOp := Operator.LTE
      highValInt := highVal }

/-- The index with the keys 0, 1, 2, 3 (fan-outs 3): page 2 holds the keys 0, 1
and an unused third slot that still carries key 2 from before the split. The
cursor stands on that unused slot. -/
def sparseCursorExample : BTreeIndex :=
  cursorOnPageTwo (ascendingExample 4) 2 10

/-- The index with the keys 0, 1, 2, 3 and then 1 once more (fan-outs 3): page 2
is full with the keys 0, 1, 1 and its right sibling is page 3 with the keys 2, 3.
The cursor stands on the last slot of page 2. -/
def lastSlotCursorExample : BTreeIndex :=
  cursorOnPageTwo
    ((((ascendingExample 4).insertEntry 1 1 ⟨1, 9⟩).map Prod.fst).getD zeroObject) 2 10

/-- A level-1 node with four keys and five children, for fan-outs 3 (leaf) and 5
(non-leaf): it is not full. -/
def wideNodeExample : NonLeafNodeInt :=
  { level := 1, keyArray := arrayOf [10, 20, 30, 40] 0, pageNoArray := arrayOf [2, 3, 4, 5, 6] 0 }

/-- A full non-leaf node for fan-out 3: three keys and four children. -/
def fullNodeExample : NonLeafNodeInt :=
  { level := 0, keyArray := arrayOf [10, 20, 30] 0, pageNoArray := arrayOf [2, 3, 4, 5] 0 }

/-- A fresh Integer index with fan-outs 3 after key 1 has been inserted three
times: its root leaf (page 2) is full and all its keys are equal. -/
def equalKeysExample : BTreeIndex :=
  ((fresh zeroObject "rel" 0 Datatype.INTEGER 3 3).bind
    (fun s => insertAll 1 s [(1, ⟨1, 0⟩), (1, ⟨1, 1⟩), (1, ⟨1, 2⟩)])).getD zeroObject

end BTreeIndex

/-! ## Pin accounting -/

/-- The pins of state `s` are those of `base` plus one pin for every occurrence of
a page in `held`, and `b` calls of `unPinPage` so far hit a page without a pin. -/
def Pins (s : BTreeIndex) (base : Nat → Nat) (held : Multiset Nat) (b : Nat) : Prop :=
  (∀ x, s.pinCnt x = base x + held.count x) ∧ s.badUnpins = b

namespace BTreeIndex

/-- An Integer index with fan-outs 3 whose root (page 4) is a level-0 node over
one level-1 node (page 3) over one leaf (page 2) holding the keys 0 and 1. -/
def deepExample : BTreeIndex :=
  { zeroObject with
      pages := arrayOf
        [Page.blank, Page.header ⟨"rel", 0, Datatype.INTEGER, 4⟩,
          Page.leaf ⟨arrayOf [0, 1] 0, arrayOf [⟨1, 0⟩, ⟨1, 1⟩] ⟨0, 0⟩, 0⟩,
          Page.nonLeaf ⟨1, arrayOf [] 0, arrayOf [2] 0⟩,
          Page.nonLeaf ⟨0, arrayOf [] 0, arrayOf [3] 0⟩] Page.blank
      nextPageNo := 5
      firstPageNo := 1
      leafOccupancy := 3
      nodeOccupancy := 3
      headerPageNum := 1
      rootPageNum := 4 }

end BTreeIndex

/-! ## Height of the tree -/

/-- The tree of `s` has at most two levels: its root is the initial leaf, page 2,
or a non-leaf node whose level is 1 (its children are leaves). -/
def TwoLevels (s : BTreeIndex) : Prop :=
  (s.is_root_leaf = true ∧ s.rootPageNum = 2 ∧ ∃ l, s.pages 2 = Page.leaf l) ∨
    (s.is_root_leaf = false ∧ ∃ n, s.pages s.rootPageNum = Page.nonLeaf n ∧ n.level = 1)

/-- Invariant of the states reached by `insertEntry` from a fresh Integer index,
whatever the fan-outs and the entries: the root is leaf page 2, or a level-1 node
none of whose child slots points back at the root or past the end of the file. -/
structure Shallow (s : BTreeIndex) : Prop where
  int : s.attributeType = Datatype.INTEGER
  hdr : s.headerPageNum < s.nextPageNo
  leafRoot : s.is_root_leaf = true →
    s.rootPageNum = 2 ∧ 2 < s.nextPageNo ∧ s.headerPageNum ≠ 2 ∧ ∃ l, s.pages 2 = Page.leaf l
  nodeRoot : s.is_root_leaf = false →
    s.rootPageNum < s.nextPageNo ∧
      ∃ n, s.pages s.rootPageNum = Page.nonLeaf n ∧ n.level = 1 ∧
        ∀ i, n.pageNoArray i ≠ s.rootPageNum ∧ n.pageNoArray i < s.nextPageNo

/-! ## Lemmas -/

/-! ### Basic facts -/

namespace BTreeIndex

theorem fresh_isSome (this : BTreeIndex) (relationName : String) (attrByteOffset : Int)
    (attrType : Datatype) (L N : Nat) :
    ∃ s, fresh this relationName attrByteOffset attrType L N = some s ∧
      s.is_root_leaf = true ∧ s.attributeType = attrType := by
  refine ⟨_, rfl, rfl, rfl⟩

theorem lowOp_check (op : Operator) : op ≠ Operator.GT ∨ op ≠ Operator.GTE := by
  cases op <;> simp

theorem startScan_eq (L N fuel : Nat) (s : BTreeIndex) (lowValParm : VoidPtr)
    (lowOpParm : Operator) (highValParm : VoidPtr) (highOpParm : Operator) :
    startScan L N fuel s lowValParm lowOpParm highValParm highOpParm =
      some ({ (if s.scanExecuting = true then (s.endScan).1 else s) with scanExecuting := true },
        Outcome.raised Exc.BadOpcodesException) := by
  unfold startScan
  simp only [lowOp_check lowOpParm, if_true]

theorem insertEntry_rootLeaf (fuel : Nat) (s : BTreeIndex) (k : Int) (r : RecordId)
    (hleaf : s.is_root_leaf = true) (hint : s.attributeType = Datatype.INTEGER) :
    s.insertEntry fuel k r = some (s.insertLeafAtNode ⟨r, k⟩, Outcome.returned ()) := by
  simp [insertEntry, hleaf, hint]

@[simp] theorem setAt_same {α : Type} (a : Nat → α) (i : Nat) (v : α) : setAt a i v i = v := by
  simp [setAt]

theorem setAt_ne {α : Type} (a : Nat → α) {i j : Nat} (v : α) (h : j ≠ i) :
    setAt a i v j = a j := by
  simp [setAt, h]

@[simp] theorem asLeaf_leaf (l : LeafNodeInt) : (Page.leaf l).asLeaf = l := rfl

@[simp] theorem asLeaf_blank : Page.blank.asLeaf = zeroLeaf := rfl

@[simp] theorem asNonLeaf_nonLeaf (n : NonLeafNodeInt) : (Page.nonLeaf n).asNonLeaf = n := rfl

@[simp] theorem asNonLeaf_blank : Page.blank.asNonLeaf = zeroNonLeaf := rfl

@[simp] theorem asMeta_header (m : IndexMetaInfo) : (Page.header m).asMeta = m := rfl

theorem splitLeafNodes_pageNo (L : Nat) (leafNode newNode : LeafNodeInt) (PageNo : Nat)
    (entry : RIDKeyPair) : (splitLeafNodes L leafNode newNode PageNo entry).2.2.pageNo = PageNo := by
  unfold splitLeafNodes
  simp only
  split <;> rfl

theorem splitLeafNodes_key (L : Nat) (leafNode newNode : LeafNodeInt) (PageNo : Nat)
    (entry : RIDKeyPair) :
    (splitLeafNodes L leafNode newNode PageNo entry).2.2.key =
      (splitLeafNodes L leafNode newNode PageNo entry).2.1.keyArray 0 := by
  unfold splitLeafNodes
  simp only
  split <;> rfl

end BTreeIndex

/-! ### The search loops -/

theorem searchLoop_ge (valid hit : Nat → Bool) (n start : Nat) :
    start ≤ searchLoop valid hit n start := by
  induction n generalizing start with
  | zero => simp [searchLoop]
  | succ n ih =>
    unfold searchLoop
    split
    · split
      · exact Nat.le_refl _
      · exact Nat.le_trans (Nat.le_succ _) (ih (start + 1))
    · exact Nat.le_refl _

theorem searchLoop_le (valid hit : Nat → Bool) (n start : Nat) :
    searchLoop valid hit n start ≤ start + n := by
  induction n generalizing start with
  | zero => simp [searchLoop]
  | succ n ih =>
    unfold searchLoop
    split
    · split
      · omega
      · have := ih (start + 1); omega
    · omega

theorem searchLoop_below (valid hit : Nat → Bool) (n start j : Nat) (h1 : start ≤ j)
    (h2 : j < searchLoop valid hit n start) : valid j = true ∧ hit j = false := by
  induction n generalizing start with
  | zero => simp [searchLoop] at h2; omega
  | succ n ih =>
    unfold searchLoop at h2
    split at h2
    · rename_i hv
      split at h2
      · omega
      · rename_i hh
        by_cases hj : j = start
        · subst hj; exact ⟨hv, by simpa using hh⟩
        · exact ih (start + 1) (by omega) h2
    · omega

theorem searchLoop_stop (valid hit : Nat → Bool) (n start : Nat)
    (h : searchLoop valid hit n start < start + n) :
    valid (searchLoop valid hit n start) = false ∨ hit (searchLoop valid hit n start) = true := by
  induction n generalizing start with
  | zero => simp [searchLoop] at h
  | succ n ih =>
    unfold searchLoop at h ⊢
    split
    · rename_i hv
      split
      · rename_i hh; exact Or.inr hh
      · rename_i hh
        simp only [hv, hh, if_true] at h
        have h' : searchLoop valid hit n (start + 1) < start + 1 + n := by
          simp at h; omega
        exact ih (start + 1) h'
    · rename_i hv; exact Or.inl (by simpa using hv)

/-! ### Leaf nodes -/

theorem shiftLeaf_keyArray (idx i : Nat) (leaf : LeafNodeInt) (j : Nat) :
    (shiftLeaf idx i leaf).keyArray j =
      if idx < j ∧ j ≤ i then leaf.keyArray (j - 1) else leaf.keyArray j := by
  induction i generalizing leaf with
  | zero =>
    have : ¬ (idx < j ∧ j ≤ 0) := by omega
    rw [if_neg this]; rfl
  | succ i ih =>
    unfold shiftLeaf
    split
    · rw [ih]
      by_cases h1 : idx < j ∧ j ≤ i
      · have : idx < j ∧ j ≤ i + 1 := ⟨h1.1, by omega⟩
        have h3 : j - 1 ≠ i + 1 := by omega
        simp [h1, this, setAt, h3]
      · by_cases h2 : j = i + 1
        · subst h2
          have : idx < i + 1 ∧ i + 1 ≤ i + 1 := ⟨by omega, Nat.le_refl _⟩
          simp [h1, this, setAt]
        · have : ¬ (idx < j ∧ j ≤ i + 1) := by omega
          simp [h1, this, setAt, h2]
    · have : ¬ (idx < j ∧ j ≤ i + 1) := by omega
      simp [this]

theorem shiftLeaf_ridArray (idx i : Nat) (leaf : LeafNodeInt) (j : Nat) :
    (shiftLeaf idx i leaf).ridArray j =
      if idx < j ∧ j ≤ i then leaf.ridArray (j - 1) else leaf.ridArray j := by
  induction i generalizing leaf with
  | zero =>
    have : ¬ (idx < j ∧ j ≤ 0) := by omega
    rw [if_neg this]; rfl
  | succ i ih =>
    unfold shiftLeaf
    split
    · rw [ih]
      by_cases h1 : idx < j ∧ j ≤ i
      · have : idx < j ∧ j ≤ i + 1 := ⟨h1.1, by omega⟩
        have h3 : j - 1 ≠ i + 1 := by omega
        simp [h1, this, setAt, h3]
      · by_cases h2 : j = i + 1
        · subst h2
          have : idx < i + 1 ∧ i + 1 ≤ i + 1 := ⟨by omega, Nat.le_refl _⟩
          simp [h1, this, setAt]
        · have : ¬ (idx < j ∧ j ≤ i + 1) := by omega
          simp [h1, this, setAt, h2]
    · have : ¬ (idx < j ∧ j ≤ i + 1) := by omega
      simp [this]

theorem shiftLeaf_rightSib (idx i : Nat) (leaf : LeafNodeInt) :
    (shiftLeaf idx i leaf).rightSibPageNo = leaf.rightSibPageNo := by
  induction i generalizing leaf with
  | zero => simp [shiftLeaf]
  | succ i ih =>
    unfold shiftLeaf
    split
    · rw [ih]
    · rfl

theorem filter_range_lt (L k : Nat) (h : k ≤ L) :
    (List.range L).filter (fun i => decide (i < k)) = List.range k := by
  induction L with
  | zero =>
    have : k = 0 := by omega
    subst this; rfl
  | succ L ih =>
    by_cases hk : k = L + 1
    · subst hk
      exact List.filter_eq_self.2 (fun a ha => decide_eq_true (List.mem_range.1 ha))
    · have hk' : k ≤ L := by omega
      have hL : ¬ L < k := by omega
      rw [List.range_succ, List.filter_append, ih hk']
      simp [hL]

theorem populated_eq (L k : Nat) (leaf : LeafNodeInt) (h : PopulatedUpTo L leaf k) :
    populated L leaf = (List.range k).map (entryAt leaf) := by
  unfold populated
  have hf : (List.range L).filter (fun i => decide ((leaf.ridArray i).page_number ≠ 0)) =
      (List.range L).filter (fun i => decide (i < k)) := by
    apply List.filter_congr
    intro x hx
    have := h.2 x (List.mem_range.1 hx)
    by_cases hx' : x < k
    · simp [hx', this.2 hx']
    · have h0 : (leaf.ridArray x).page_number = 0 := by
        by_contra hne
        exact hx' (this.1 hne)
      simp [hx', h0]
  rw [hf, filter_range_lt L k h.1]

/-- Inserting one element into a sequence given as a function on indices. -/
theorem map_range_insert_perm {α : Type} (f g : Nat → α) (e : α) (idx : Nat) :
    ∀ k, idx ≤ k →
      (∀ j, j < k + 1 → g j = if j = idx then e else if idx < j then f (j - 1) else f j) →
      ((List.range (k + 1)).map g).Perm (e :: (List.range k).map f) := by
  intro k
  induction k with
  | zero =>
    intro hidx hg
    have : idx = 0 := by omega
    subst this
    have := hg 0 (by omega)
    simp at this
    simp [List.range_succ, this]
  | succ k ih =>
    intro hidx hg
    by_cases hk : idx = k + 1
    · subst hk
      have h1 : (List.range (k + 1)).map g = (List.range (k + 1)).map f := by
        apply List.map_congr_left
        intro j hj
        have hj' := List.mem_range.1 hj
        have := hg j (by omega)
        have h2 : j ≠ k + 1 := by omega
        have h3 : ¬ (k + 1 < j) := by omega
        simpa [h2, h3] using this
      have h2 : g (k + 1) = e := by
        have := hg (k + 1) (by omega)
        simpa using this
      rw [List.range_succ, List.map_append, h1]
      simp only [List.map_cons, List.map_nil, h2]
      exact List.perm_append_singleton _ _
    · have hidx' : idx ≤ k := by omega
      have h1 := ih hidx' (fun j hj => hg j (by omega))
      have h2 : g (k + 1) = f k := by
        have := hg (k + 1) (by omega)
        have h3 : k + 1 ≠ idx := fun h => hk h.symm
        have h4 : idx < k + 1 := by omega
        simpa [h3, h4] using this
      have h5 : (List.range (k + 1 + 1)).map g = (List.range (k + 1)).map g ++ [f k] := by
        rw [List.range_succ, List.map_append]
        simp only [List.map_cons, List.map_nil, h2]
      have h6 : e :: (List.range (k + 1)).map f = (e :: (List.range k).map f) ++ [f k] := by
        rw [List.range_succ, List.map_append]
        rfl
      rw [h5, h6]
      exact (List.Perm.append_right [f k] h1)

theorem insertEntryInLeaf_rightSib (L : Nat) (leaf : LeafNodeInt) (entry : RIDKeyPair) :
    (insertEntryInLeaf L leaf entry).rightSibPageNo = leaf.rightSibPageNo := by
  simp [insertEntryInLeaf, shiftLeaf_rightSib]

theorem leafSlot_le (L k : Nat) (leaf : LeafNodeInt) (key : Int)
    (h : PopulatedUpTo L leaf k) : leafSlot L leaf key ≤ k := by
  by_contra hlt
  have hlt : k < leafSlot L leaf key := by omega
  have hv := (searchLoop_below _ _ L 0 k (Nat.zero_le _) hlt).1
  have hkL : k < L := by
    have := searchLoop_le (fun i => decide ((leaf.ridArray i).page_number ≠ 0))
      (fun i => decide (leaf.keyArray i ≥ key)) L 0
    unfold leafSlot at hlt
    omega
  have := (h.2 k hkL).1 (by simpa using hv)
  omega

theorem insertEntryInLeaf_entryAt (L : Nat) (leaf : LeafNodeInt) (entry : RIDKeyPair) (j : Nat) :
    entryAt (insertEntryInLeaf L leaf entry) j =
      if j = leafSlot L leaf entry.key then (entry.key, entry.rid)
      else if leafSlot L leaf entry.key < j ∧ j ≤ L - 1 then entryAt leaf (j - 1)
      else entryAt leaf j := by
  unfold entryAt insertEntryInLeaf
  simp only [setAt, shiftLeaf_keyArray, shiftLeaf_ridArray]
  by_cases h1 : j = leafSlot L leaf entry.key
  · simp [h1]
  · simp only [h1, if_false]
    split <;> rfl

theorem insertEntryInLeaf_populated (L k : Nat) (leaf : LeafNodeInt) (entry : RIDKeyPair)
    (h : PopulatedUpTo L leaf k) (hk : k < L) (hrid : entry.rid.page_number ≠ 0) :
    PopulatedUpTo L (insertEntryInLeaf L leaf entry) (k + 1) ∧
      (populated L (insertEntryInLeaf L leaf entry)).Perm
        ((entry.key, entry.rid) :: populated L leaf) := by
  have hidx := leafSlot_le L k leaf entry.key h
  have hpre : PopulatedUpTo L (insertEntryInLeaf L leaf entry) (k + 1) := by
    refine ⟨by omega, fun i hi => ?_⟩
    have he := insertEntryInLeaf_entryAt L leaf entry i
    have hr : (insertEntryInLeaf L leaf entry).ridArray i =
        (entryAt (insertEntryInLeaf L leaf entry) i).2 := rfl
    rw [hr, he]
    by_cases h1 : i = leafSlot L leaf entry.key
    · simp only [h1, if_true]
      constructor
      · intro _; omega
      · intro _; exact hrid
    · simp only [h1, if_false]
      by_cases h2 : leafSlot L leaf entry.key < i ∧ i ≤ L - 1
      · simp only [h2, and_self, if_true]
        have := h.2 (i - 1) (by omega)
        simp only [entryAt]
        constructor
        · intro h3; have := this.1 h3; omega
        · intro h3; exact this.2 (by omega)
      · simp only [h2, if_false]
        have hlt : i < leafSlot L leaf entry.key := by omega
        have := h.2 i hi
        simp only [entryAt]
        constructor
        · intro _; omega
        · intro _; exact this.2 (by omega)
  refine ⟨hpre, ?_⟩
  rw [populated_eq L (k + 1) _ hpre, populated_eq L k _ h]
  apply map_range_insert_perm _ _ _ (leafSlot L leaf entry.key) k hidx
  intro j hj
  rw [insertEntryInLeaf_entryAt]
  by_cases h1 : j = leafSlot L leaf entry.key
  · simp [h1]
  · simp only [h1, if_false]
    by_cases h2 : leafSlot L leaf entry.key < j
    · have : leafSlot L leaf entry.key < j ∧ j ≤ L - 1 := ⟨h2, by omega⟩
      simp [h2, this]
    · have : ¬ (leafSlot L leaf entry.key < j ∧ j ≤ L - 1) := fun h => h2 h.1
      simp [h2, this]

theorem moveLeaf_left_ridArray (mid : Nat) (n i : Nat) (leaf new : LeafNodeInt) (j : Nat) :
    (moveLeaf mid n i (leaf, new)).1.ridArray j =
      if i ≤ j ∧ j < i + n then (leaf.ridArray j).clearPage else leaf.ridArray j := by
  induction n generalizing i leaf new with
  | zero =>
    have h1 : ¬ (i ≤ j ∧ j < i + 0) := by omega
    rw [if_neg h1]; rfl
  | succ n ih =>
    unfold moveLeaf
    rw [ih]
    by_cases h1 : i + 1 ≤ j ∧ j < i + 1 + n
    · have h2 : i ≤ j ∧ j < i + (n + 1) := by omega
      have h3 : j ≠ i := by omega
      rw [if_pos h1, if_pos h2]
      simp only [setAt, if_neg h3]
    · rw [if_neg h1]
      by_cases h3 : j = i
      · have h2 : i ≤ j ∧ j < i + (n + 1) := by omega
        rw [if_pos h2]
        subst h3
        simp only [setAt, if_true]
      · have h2 : ¬ (i ≤ j ∧ j < i + (n + 1)) := by omega
        rw [if_neg h2]
        simp only [setAt, if_neg h3]

theorem moveLeaf_left_keyArray (mid : Nat) (n i : Nat) (leaf new : LeafNodeInt) :
    (moveLeaf mid n i (leaf, new)).1.keyArray = leaf.keyArray := by
  induction n generalizing i leaf new with
  | zero => rfl
  | succ n ih => unfold moveLeaf; rw [ih]

theorem moveLeaf_left_rightSib (mid : Nat) (n i : Nat) (leaf new : LeafNodeInt) :
    (moveLeaf mid n i (leaf, new)).1.rightSibPageNo = leaf.rightSibPageNo := by
  induction n generalizing i leaf new with
  | zero => rfl
  | succ n ih => unfold moveLeaf; rw [ih]

theorem moveLeaf_right_rightSib (mid : Nat) (n i : Nat) (leaf new : LeafNodeInt) :
    (moveLeaf mid n i (leaf, new)).2.rightSibPageNo = new.rightSibPageNo := by
  induction n generalizing i leaf new with
  | zero => rfl
  | succ n ih => unfold moveLeaf; rw [ih]

theorem moveLeaf_right_ridArray (mid : Nat) (n i : Nat) (leaf new : LeafNodeInt) (hi : mid ≤ i)
    (j : Nat) :
    (moveLeaf mid n i (leaf, new)).2.ridArray j =
      if i ≤ j + mid ∧ j + mid < i + n then leaf.ridArray (j + mid) else new.ridArray j := by
  induction n generalizing i leaf new with
  | zero =>
    have h1 : ¬ (i ≤ j + mid ∧ j + mid < i + 0) := by omega
    rw [if_neg h1]; rfl
  | succ n ih =>
    unfold moveLeaf
    rw [ih _ _ _ (by omega)]
    by_cases h1 : i + 1 ≤ j + mid ∧ j + mid < i + 1 + n
    · have h2 : i ≤ j + mid ∧ j + mid < i + (n + 1) := by omega
      have h3 : j + mid ≠ i := by omega
      rw [if_pos h1, if_pos h2]
      simp only [setAt, if_neg h3]
    · rw [if_neg h1]
      by_cases h3 : j = i - mid
      · have h2 : i ≤ j + mid ∧ j + mid < i + (n + 1) := by omega
        have h4 : j + mid = i := by omega
        rw [if_pos h2]
        simp only [setAt, if_pos h3, h4]
      · have h2 : ¬ (i ≤ j + mid ∧ j + mid < i + (n + 1)) := by omega
        rw [if_neg h2]
        simp only [setAt, if_neg h3]

theorem moveLeaf_right_keyArray (mid : Nat) (n i : Nat) (leaf new : LeafNodeInt) (hi : mid ≤ i)
    (j : Nat) :
    (moveLeaf mid n i (leaf, new)).2.keyArray j =
      if i ≤ j + mid ∧ j + mid < i + n then leaf.keyArray (j + mid) else new.keyArray j := by
  induction n generalizing i leaf new with
  | zero =>
    have h1 : ¬ (i ≤ j + mid ∧ j + mid < i + 0) := by omega
    rw [if_neg h1]; rfl
  | succ n ih =>
    unfold moveLeaf
    rw [ih _ _ _ (by omega)]
    by_cases h1 : i + 1 ≤ j + mid ∧ j + mid < i + 1 + n
    · have h2 : i ≤ j + mid ∧ j + mid < i + (n + 1) := by omega
      rw [if_pos h1, if_pos h2]
    · rw [if_neg h1]
      by_cases h3 : j = i - mid
      · have h2 : i ≤ j + mid ∧ j + mid < i + (n + 1) := by omega
        have h4 : j + mid = i := by omega
        rw [if_pos h2]
        simp only [setAt, if_pos h3, h4]
      · have h2 : ¬ (i ≤ j + mid ∧ j + mid < i + (n + 1)) := by omega
        rw [if_neg h2]
        simp only [setAt, if_neg h3]

theorem clearPage_page_number (r : RecordId) : r.clearPage.page_number = 0 := rfl

theorem moved_left_populated (L : Nat) (leaf new : LeafNodeInt) (hfull : PopulatedUpTo L leaf L)
    (mid : Nat) (hmid : mid ≤ L) :
    PopulatedUpTo L (moveLeaf mid (L - mid) mid (leaf, new)).1 mid ∧
    populated L (moveLeaf mid (L - mid) mid (leaf, new)).1 = (List.range mid).map (entryAt leaf) := by
  have hp : PopulatedUpTo L (moveLeaf mid (L - mid) mid (leaf, new)).1 mid := by
    refine ⟨hmid, fun i hi => ?_⟩
    rw [moveLeaf_left_ridArray]
    by_cases h1 : mid ≤ i ∧ i < mid + (L - mid)
    · rw [if_pos h1, clearPage_page_number]
      constructor
      · intro h; exact absurd rfl h
      · intro h; omega
    · rw [if_neg h1]
      have := hfull.2 i hi
      constructor
      · intro _; omega
      · intro _; exact this.2 hi
  refine ⟨hp, ?_⟩
  rw [populated_eq L mid _ hp]
  apply List.map_congr_left
  intro j hj
  have hj' := List.mem_range.1 hj
  have h1 : ¬ (mid ≤ j ∧ j < mid + (L - mid)) := by omega
  unfold entryAt
  rw [moveLeaf_left_keyArray, moveLeaf_left_ridArray, if_neg h1]

theorem moved_right_populated (L : Nat) (leaf new : LeafNodeInt) (hfull : PopulatedUpTo L leaf L)
    (hnew : ∀ j, (new.ridArray j).page_number = 0)
    (mid : Nat) (hmid : mid ≤ L) :
    PopulatedUpTo L (moveLeaf mid (L - mid) mid (leaf, new)).2 (L - mid) ∧
    populated L (moveLeaf mid (L - mid) mid (leaf, new)).2 =
      (List.range (L - mid)).map (fun j => entryAt leaf (mid + j)) := by
  have hp : PopulatedUpTo L (moveLeaf mid (L - mid) mid (leaf, new)).2 (L - mid) := by
    refine ⟨by omega, fun i hi => ?_⟩
    rw [moveLeaf_right_ridArray _ _ _ _ _ (Nat.le_refl _)]
    by_cases h1 : mid ≤ i + mid ∧ i + mid < mid + (L - mid)
    · rw [if_pos h1]
      have := hfull.2 (i + mid) (by omega)
      constructor
      · intro _; omega
      · intro _; exact this.2 (by omega)
    · rw [if_neg h1]
      constructor
      · intro h; exact absurd (hnew i) h
      · intro h; omega
  refine ⟨hp, ?_⟩
  rw [populated_eq L (L - mid) _ hp]
  apply List.map_congr_left
  intro j hj
  have hj' := List.mem_range.1 hj
  have h1 : mid ≤ j + mid ∧ j + mid < mid + (L - mid) := by omega
  unfold entryAt
  rw [moveLeaf_right_keyArray _ _ _ _ _ (Nat.le_refl _), moveLeaf_right_ridArray _ _ _ _ _ (Nat.le_refl _),
    if_pos h1, if_pos h1, Nat.add_comm j mid]

theorem range_split_map {α : Type} (f : Nat → α) (L mid : Nat) (hmid : mid ≤ L) :
    (List.range mid).map f ++ (List.range (L - mid)).map (fun j => f (mid + j)) =
      (List.range L).map f := by
  have h : L = mid + (L - mid) := by omega
  conv_rhs => rw [h, List.range_add, List.map_append, List.map_map]
  rfl

theorem splitLeafNodes_spec (L : Nat) (leaf : LeafNodeInt) (q : Nat) (entry : RIDKeyPair)
    (hL : 3 ≤ L) (hfull : PopulatedUpTo L leaf L) (hrid : entry.rid.page_number ≠ 0) :
    (splitLeafNodes L leaf zeroLeaf q entry).1.rightSibPageNo = q ∧
    (splitLeafNodes L leaf zeroLeaf q entry).2.1.rightSibPageNo = leaf.rightSibPageNo ∧
    (∃ k, PopulatedUpTo L (splitLeafNodes L leaf zeroLeaf q entry).1 k) ∧
    (∃ k, PopulatedUpTo L (splitLeafNodes L leaf zeroLeaf q entry).2.1 k) ∧
    (populated L (splitLeafNodes L leaf zeroLeaf q entry).1 ++
      populated L (splitLeafNodes L leaf zeroLeaf q entry).2.1).Perm
        ((entry.key, entry.rid) :: populated L leaf) := by
  have hmid : L / 2 + 1 ≤ L := by omega
  have hmid1 : L / 2 + 1 < L := by omega
  have hmid2 : L - (L / 2 + 1) < L := by omega
  have hfull' : PopulatedUpTo L { leaf with rightSibPageNo := q } L := hfull
  obtain ⟨l1, l2⟩ := moved_left_populated L { leaf with rightSibPageNo := q }
    { zeroLeaf with rightSibPageNo := leaf.rightSibPageNo } hfull' (L / 2 + 1) hmid
  obtain ⟨r1, r2⟩ := moved_right_populated L { leaf with rightSibPageNo := q }
    { zeroLeaf with rightSibPageNo := leaf.rightSibPageNo } hfull' (fun _ => rfl) (L / 2 + 1) hmid
  have hall : populated L (moveLeaf (L / 2 + 1) (L - (L / 2 + 1)) (L / 2 + 1)
        ({ leaf with rightSibPageNo := q },
          { zeroLeaf with rightSibPageNo := leaf.rightSibPageNo })).1 ++
      populated L (moveLeaf (L / 2 + 1) (L - (L / 2 + 1)) (L / 2 + 1)
        ({ leaf with rightSibPageNo := q },
          { zeroLeaf with rightSibPageNo := leaf.rightSibPageNo })).2 = populated L leaf := by
    rw [l2, r2, populated_eq L L leaf hfull]
    exact range_split_map (entryAt leaf) L (L / 2 + 1) hmid
  unfold splitLeafNodes
  simp only
  split
  · obtain ⟨i1, i2⟩ := insertEntryInLeaf_populated L _ _ entry l1 hmid1 hrid
    refine ⟨?_, ?_, ⟨_, i1⟩, ⟨_, r1⟩, ?_⟩
    · simp only [insertEntryInLeaf_rightSib, moveLeaf_left_rightSib]
    · simp only [moveLeaf_right_rightSib]
    · rw [← hall]
      exact (List.Perm.append_right _ i2)
  · obtain ⟨i1, i2⟩ := insertEntryInLeaf_populated L _ _ entry r1 hmid2 hrid
    refine ⟨?_, ?_, ⟨_, l1⟩, ⟨_, i1⟩, ?_⟩
    · simp only [moveLeaf_left_rightSib]
    · simp only [insertEntryInLeaf_rightSib, moveLeaf_right_rightSib]
    · rw [← hall]
      exact (List.Perm.append_left _ i2).trans List.perm_middle

/-! ### Non-leaf nodes -/

theorem shiftNonLeaf_pageNoArray (idx i : Nat) (node : NonLeafNodeInt) (j : Nat) :
    (shiftNonLeaf idx i node).pageNoArray j =
      if idx + 1 < j ∧ j ≤ i + 1 then node.pageNoArray (j - 1) else node.pageNoArray j := by
  induction i generalizing node with
  | zero =>
    have : ¬ (idx + 1 < j ∧ j ≤ 0 + 1) := by omega
    rw [if_neg this]; rfl
  | succ i ih =>
    unfold shiftNonLeaf
    split
    · rw [ih]
      by_cases h1 : idx + 1 < j ∧ j ≤ i + 1
      · have h2 : idx + 1 < j ∧ j ≤ i + 1 + 1 := ⟨h1.1, by omega⟩
        have h3 : j - 1 ≠ i + 2 := by omega
        rw [if_pos h1, if_pos h2]
        simp only [setAt, if_neg h3]
      · rw [if_neg h1]
        by_cases h3 : j = i + 2
        · subst h3
          have h2 : idx + 1 < i + 2 ∧ i + 2 ≤ i + 1 + 1 := ⟨by omega, Nat.le_refl _⟩
          rw [if_pos h2]
          simp only [setAt, if_true]
          rfl
        · have h2 : ¬ (idx + 1 < j ∧ j ≤ i + 1 + 1) := by omega
          rw [if_neg h2]
          simp only [setAt, if_neg h3]
    · have : ¬ (idx + 1 < j ∧ j ≤ i + 1 + 1) := by omega
      rw [if_neg this]

theorem shiftNonLeaf_keyArray (idx i : Nat) (node : NonLeafNodeInt) (j : Nat) :
    (shiftNonLeaf idx i node).keyArray j =
      if idx < j ∧ j ≤ i then node.keyArray (j - 1) else node.keyArray j := by
  induction i generalizing node with
  | zero =>
    have : ¬ (idx < j ∧ j ≤ 0) := by omega
    rw [if_neg this]; rfl
  | succ i ih =>
    unfold shiftNonLeaf
    split
    · rw [ih]
      by_cases h1 : idx < j ∧ j ≤ i
      · have h2 : idx < j ∧ j ≤ i + 1 := ⟨h1.1, by omega⟩
        have h3 : j - 1 ≠ i + 1 := by omega
        rw [if_pos h1, if_pos h2]
        simp only [setAt, if_neg h3]
      · rw [if_neg h1]
        by_cases h3 : j = i + 1
        · subst h3
          have h2 : idx < i + 1 ∧ i + 1 ≤ i + 1 := ⟨by omega, Nat.le_refl _⟩
          rw [if_pos h2]
          simp only [setAt, if_true]
          rfl
        · have h2 : ¬ (idx < j ∧ j ≤ i + 1) := by omega
          rw [if_neg h2]
          simp only [setAt, if_neg h3]
    · have : ¬ (idx < j ∧ j ≤ i + 1) := by omega
      rw [if_neg this]

theorem shiftNonLeaf_level (idx i : Nat) (node : NonLeafNodeInt) :
    (shiftNonLeaf idx i node).level = node.level := by
  induction i generalizing node with
  | zero => rfl
  | succ i ih =>
    unfold shiftNonLeaf
    split
    · rw [ih]
    · rfl

theorem insertEntryInNonLeaf_level (L : Nat) (node : NonLeafNodeInt) (entry : PageKeyPair) :
    (insertEntryInNonLeaf L node entry).level = node.level := by
  unfold insertEntryInNonLeaf
  simp only
  split <;> simp only [shiftNonLeaf_level]

/-- Every child slot of the node after `insertEntryInNonLeaf` holds the new page
or a child the node had before. -/
theorem insertEntryInNonLeaf_children (L : Nat) (node : NonLeafNodeInt) (entry : PageKeyPair)
    (j : Nat) :
    (insertEntryInNonLeaf L node entry).pageNoArray j = entry.pageNo ∨
      ∃ i, (insertEntryInNonLeaf L node entry).pageNoArray j = node.pageNoArray i := by
  have hs : ∀ idx i j, ∃ i', (shiftNonLeaf idx i node).pageNoArray j = node.pageNoArray i' := by
    intro idx i j
    rw [shiftNonLeaf_pageNoArray]
    split
    · exact ⟨_, rfl⟩
    · exact ⟨_, rfl⟩
  unfold insertEntryInNonLeaf
  simp only
  split
  · simp only [setAt]
    split
    · exact Or.inl rfl
    · exact Or.inr (hs _ _ _)
  · simp only [setAt]
    split
    · exact Or.inl rfl
    · exact Or.inr (hs _ _ _)

theorem insertEntryInNonLeaf_child0 (L : Nat) (node : NonLeafNodeInt) (entry : PageKeyPair)
    (h0 : node.pageNoArray 0 ≠ 0) :
    (insertEntryInNonLeaf L node entry).pageNoArray 0 = node.pageNoArray 0 := by
  have hs : ∀ idx i, (shiftNonLeaf idx i node).pageNoArray 0 = node.pageNoArray 0 := by
    intro idx i
    rw [shiftNonLeaf_pageNoArray]
    have : ¬ (idx + 1 < 0 ∧ 0 ≤ i + 1) := by omega
    rw [if_neg this]
  unfold insertEntryInNonLeaf
  simp only
  split
  · rename_i hz
    simp only [setAt]
    split
    · rename_i hidx
      rw [← hidx, hs] at hz
      exact absurd hz h0
    · exact hs _ _
  · simp only [setAt]
    have : (0 : Nat) ≠ nonLeafSlot L node entry.key + 1 := by omega
    rw [if_neg this]
    exact hs _ _

theorem childSlot_ne_zero (N : Nat) (node : NonLeafNodeInt) (key : Int)
    (h0 : node.pageNoArray 0 ≠ 0) : node.pageNoArray (childSlot N node key) ≠ 0 := by
  unfold childSlot
  simp only
  split
  · rename_i hz
    split
    · rename_i hpos
      have := (searchLoop_below (fun i => decide (node.pageNoArray i ≠ 0))
        (fun i => decide (node.keyArray i > key)) N 0
        (searchLoop (fun i => decide (node.pageNoArray i ≠ 0))
          (fun i => decide (node.keyArray i > key)) N 0 - 1) (Nat.zero_le _) (by omega)).1
      simpa using this
    · rename_i hpos
      have h1 : searchLoop (fun i => decide (node.pageNoArray i ≠ 0))
          (fun i => decide (node.keyArray i > key)) N 0 = 0 := by omega
      rw [h1] at hz
      exact absurd hz h0
  · rename_i hz; exact hz

/-! ### The sibling chain -/

theorem Linked_of_rightSib_eq (pages pages2 : Nat → Page) (chain : List Nat) (start : Nat)
    (h : ∀ q ∈ chain, (pages2 q).asLeaf.rightSibPageNo = (pages q).asLeaf.rightSibPageNo)
    (hl : Linked pages chain start) : Linked pages2 chain start := by
  induction chain generalizing start with
  | nil => exact hl
  | cons x rest ih =>
    obtain ⟨h1, h2, h3⟩ := hl
    refine ⟨h1, h2, ?_⟩
    rw [h x (List.mem_cons_self _ _)]
    exact ih _ (fun q hq => h q (List.mem_cons_of_mem _ hq)) h3

theorem entriesOf_congr (L : Nat) (pages pages2 : Nat → Page) (chain : List Nat)
    (h : ∀ q ∈ chain, pages2 q = pages q) :
    entriesOf L pages2 chain = entriesOf L pages chain := by
  induction chain with
  | nil => rfl
  | cons x rest ih =>
    simp only [entriesOf]
    rw [h x (List.mem_cons_self _ _), ih (fun q hq => h q (List.mem_cons_of_mem _ hq))]

theorem ChainInv.frame {L : Nat} {pages : Nat → Page} {next : Nat} {chain : List Nat}
    {entries : List (Int × RecordId)} (h : ChainInv L pages next chain entries)
    (pages2 : Nat → Page) (next2 : Nat) (hp : ∀ q ∈ chain, pages2 q = pages q)
    (hn : next ≤ next2) : ChainInv L pages2 next2 chain entries where
  nodup := h.nodup
  linked := Linked_of_rightSib_eq pages pages2 chain 2 (fun q hq => by rw [hp q hq]) h.linked
  bound := fun p hp' => Nat.lt_of_lt_of_le (h.bound p hp') hn
  leaves := fun p hp' => by rw [hp p hp']; exact h.leaves p hp'
  perm := by rw [entriesOf_congr L pages pages2 chain hp]; exact h.perm

theorem entriesOf_update (L : Nat) (pages pages2 : Nat → Page) (chain : List Nat) (p : Nat)
    (e : Int × RecordId) (hnd : chain.Nodup) (hp : p ∈ chain)
    (hother : ∀ q ∈ chain, q ≠ p → pages2 q = pages q)
    (hperm : (populated L (pages2 p).asLeaf).Perm (e :: populated L (pages p).asLeaf)) :
    (entriesOf L pages2 chain).Perm (e :: entriesOf L pages chain) := by
  induction chain with
  | nil => cases hp
  | cons x rest ih =>
    have hnd' := List.nodup_cons.1 hnd
    simp only [entriesOf]
    by_cases hx : x = p
    · subst hx
      have hrest : entriesOf L pages2 rest = entriesOf L pages rest :=
        entriesOf_congr L pages pages2 rest (fun q hq =>
          hother q (List.mem_cons_of_mem _ hq) (fun h => hnd'.1 (h ▸ hq)))
      rw [hrest]
      exact List.Perm.append_right _ hperm
    · have hp' : p ∈ rest := by
        rcases List.mem_cons.1 hp with h | h
        · exact absurd h.symm hx
        · exact h
      rw [hother x (List.mem_cons_self _ _) hx]
      have := ih hnd'.2 hp' (fun q hq => hother q (List.mem_cons_of_mem _ hq))
      exact (List.Perm.append_left _ this).trans List.perm_middle

theorem ChainInv.update {L : Nat} {pages : Nat → Page} {next : Nat} {chain : List Nat}
    {entries : List (Int × RecordId)} (h : ChainInv L pages next chain entries)
    (pages2 : Nat → Page) (next2 : Nat) (p : Nat) (e : Int × RecordId) (hp : p ∈ chain)
    (hother : ∀ q ∈ chain, q ≠ p → pages2 q = pages q)
    (hsib : (pages2 p).asLeaf.rightSibPageNo = (pages p).asLeaf.rightSibPageNo)
    (hpop : ∃ k, PopulatedUpTo L (pages2 p).asLeaf k)
    (hperm : (populated L (pages2 p).asLeaf).Perm (e :: populated L (pages p).asLeaf))
    (hn : next ≤ next2) : ChainInv L pages2 next2 chain (e :: entries) where
  nodup := h.nodup
  linked := Linked_of_rightSib_eq pages pages2 chain 2 (fun q hq => by
    by_cases hq' : q = p
    · rw [hq', hsib]
    · rw [hother q hq hq']) h.linked
  bound := fun q hq => Nat.lt_of_lt_of_le (h.bound q hq) hn
  leaves := fun q hq => by
    by_cases hq' : q = p
    · rw [hq']; exact hpop
    · rw [hother q hq hq']; exact h.leaves q hq
  perm := (entriesOf_update L pages pages2 chain p e h.nodup hp hother hperm).trans
    (List.Perm.cons e h.perm)

theorem mem_insertAfter (p q x : Nat) (chain : List Nat) :
    x ∈ insertAfter p q chain → x ∈ chain ∨ x = q := by
  induction chain with
  | nil => intro h; cases h
  | cons y rest ih =>
    unfold insertAfter
    split
    · intro h
      rcases List.mem_cons.1 h with h | h
      · exact Or.inl (h ▸ List.mem_cons_self _ _)
      · rcases List.mem_cons.1 h with h | h
        · exact Or.inr h
        · exact Or.inl (List.mem_cons_of_mem _ h)
    · intro h
      rcases List.mem_cons.1 h with h | h
      · exact Or.inl (h ▸ List.mem_cons_self _ _)
      · rcases ih h with h | h
        · exact Or.inl (List.mem_cons_of_mem _ h)
        · exact Or.inr h

theorem mem_insertAfter_of_mem (p q x : Nat) (chain : List Nat) (h : x ∈ chain) :
    x ∈ insertAfter p q chain := by
  induction chain with
  | nil => cases h
  | cons y rest ih =>
    unfold insertAfter
    split
    · rcases List.mem_cons.1 h with h | h
      · exact h ▸ List.mem_cons_self _ _
      · exact List.mem_cons_of_mem _ (List.mem_cons_of_mem _ h)
    · rcases List.mem_cons.1 h with h | h
      · exact h ▸ List.mem_cons_self _ _
      · exact List.mem_cons_of_mem _ (ih h)

theorem mem_insertAfter_new (p q : Nat) (chain : List Nat) (h : p ∈ chain) :
    q ∈ insertAfter p q chain := by
  induction chain with
  | nil => cases h
  | cons y rest ih =>
    unfold insertAfter
    split
    · exact List.mem_cons_of_mem _ (List.mem_cons_self _ _)
    · rename_i hy
      rcases List.mem_cons.1 h with h | h
      · exact absurd h.symm hy
      · exact List.mem_cons_of_mem _ (ih h)

theorem nodup_insertAfter (p q : Nat) (chain : List Nat) (hnd : chain.Nodup) (hq : q ∉ chain) :
    (insertAfter p q chain).Nodup := by
  induction chain with
  | nil => exact List.nodup_nil
  | cons y rest ih =>
    have hnd' := List.nodup_cons.1 hnd
    have hq1 : q ≠ y := fun h => hq (h ▸ List.mem_cons_self _ _)
    have hq2 : q ∉ rest := fun h => hq (List.mem_cons_of_mem _ h)
    unfold insertAfter
    split
    · refine List.nodup_cons.2 ⟨?_, List.nodup_cons.2 ⟨hq2, hnd'.2⟩⟩
      intro h
      rcases List.mem_cons.1 h with h | h
      · exact hq1 h.symm
      · exact hnd'.1 h
    · refine List.nodup_cons.2 ⟨?_, ih hnd'.2 hq2⟩
      intro h
      rcases mem_insertAfter p q y rest h with h | h
      · exact hnd'.1 h
      · exact hq1 h.symm

theorem Linked_insertAfter (pages pages2 : Nat → Page) (chain : List Nat) (p q start : Nat)
    (hnd : chain.Nodup) (hq0 : q ≠ 0)
    (hother : ∀ x ∈ chain, x ≠ p → pages2 x = pages x)
    (hsibp : (pages2 p).asLeaf.rightSibPageNo = q)
    (hsibq : (pages2 q).asLeaf.rightSibPageNo = (pages p).asLeaf.rightSibPageNo)
    (hl : Linked pages chain start) : Linked pages2 (insertAfter p q chain) start := by
  induction chain generalizing start with
  | nil => exact hl
  | cons x rest ih =>
    have hnd' := List.nodup_cons.1 hnd
    obtain ⟨h1, h2, h3⟩ := hl
    unfold insertAfter
    split
    · rename_i hx
      subst hx
      refine ⟨h1, h2, ?_⟩
      rw [hsibp]
      refine ⟨rfl, hq0, ?_⟩
      rw [hsibq]
      exact Linked_of_rightSib_eq pages pages2 rest _ (fun y hy => by
        rw [hother y (List.mem_cons_of_mem _ hy) (fun h => hnd'.1 (h ▸ hy))]) h3
    · rename_i hx
      refine ⟨h1, h2, ?_⟩
      rw [hother x (List.mem_cons_self _ _) hx]
      exact ih _ hnd'.2 (fun y hy => hother y (List.mem_cons_of_mem _ hy)) h3

theorem entriesOf_insertAfter (L : Nat) (pages pages2 : Nat → Page) (chain : List Nat)
    (p q : Nat) (e : Int × RecordId) (hnd : chain.Nodup) (hp : p ∈ chain)
    (hother : ∀ x ∈ chain, x ≠ p → pages2 x = pages x)
    (hperm : (populated L (pages2 p).asLeaf ++ populated L (pages2 q).asLeaf).Perm
      (e :: populated L (pages p).asLeaf)) :
    (entriesOf L pages2 (insertAfter p q chain)).Perm (e :: entriesOf L pages chain) := by
  induction chain with
  | nil => cases hp
  | cons x rest ih =>
    have hnd' := List.nodup_cons.1 hnd
    unfold insertAfter
    split
    · rename_i hx
      subst hx
      have hrest : entriesOf L pages2 rest = entriesOf L pages rest :=
        entriesOf_congr L pages pages2 rest (fun y hy =>
          hother y (List.mem_cons_of_mem _ hy) (fun h => hnd'.1 (h ▸ hy)))
      simp only [entriesOf]
      rw [hrest, ← List.append_assoc]
      exact List.Perm.append_right _ hperm
    · rename_i hx
      have hp' : p ∈ rest := by
        rcases List.mem_cons.1 hp with h | h
        · exact absurd h.symm hx
        · exact h
      simp only [entriesOf]
      rw [hother x (List.mem_cons_self _ _) hx]
      have := ih hnd'.2 hp' (fun y hy => hother y (List.mem_cons_of_mem _ hy))
      exact (List.Perm.append_left _ this).trans List.perm_middle

theorem ChainInv.split {L : Nat} {pages : Nat → Page} {next : Nat} {chain : List Nat}
    {entries : List (Int × RecordId)} (h : ChainInv L pages next chain entries)
    (pages2 : Nat → Page) (next2 : Nat) (p : Nat) (e : Int × RecordId) (hp : p ∈ chain)
    (hother : ∀ x ∈ chain, x ≠ p → pages2 x = pages x)
    (hsibp : (pages2 p).asLeaf.rightSibPageNo = next)
    (hsibq : (pages2 next).asLeaf.rightSibPageNo = (pages p).asLeaf.rightSibPageNo)
    (hpopp : ∃ k, PopulatedUpTo L (pages2 p).asLeaf k)
    (hpopq : ∃ k, PopulatedUpTo L (pages2 next).asLeaf k)
    (hperm : (populated L (pages2 p).asLeaf ++ populated L (pages2 next).asLeaf).Perm
      (e :: populated L (pages p).asLeaf))
    (hn : next < next2) : ChainInv L pages2 next2 (insertAfter p next chain) (e :: entries) where
  nodup := nodup_insertAfter p next chain h.nodup
    (fun hmem => Nat.lt_irrefl _ (h.bound next hmem))
  linked := Linked_insertAfter pages pages2 chain p next 2 h.nodup
    (by have := h.bound p hp; omega) hother hsibp hsibq h.linked
  bound := fun x hx => by
    rcases mem_insertAfter p next x chain hx with hx | hx
    · exact Nat.lt_trans (h.bound x hx) hn
    · rw [hx]; exact hn
  leaves := fun x hx => by
    rcases mem_insertAfter p next x chain hx with hx | hx
    · by_cases hxp : x = p
      · rw [hxp]; exact hpopp
      · rw [hother x hx hxp]; exact h.leaves x hx
    · rw [hx]; exact hpopq
  perm := (entriesOf_insertAfter L pages pages2 chain p next e h.nodup hp hother hperm).trans
    (List.Perm.cons e h.perm)

/-! ### Effect of the insert path on the tree -/

namespace BTreeIndex

theorem populatedUpTo_full (L k : Nat) (leaf : LeafNodeInt) (h : PopulatedUpTo L leaf k)
    (hL : 1 ≤ L) (hfull : (leaf.ridArray (L - 1)).page_number ≠ 0) : PopulatedUpTo L leaf L := by
  have := (h.2 (L - 1) (by omega)).1 hfull
  have hk : k = L := by have := h.1; omega
  exact hk ▸ h

theorem populatedUpTo_notFull (L k : Nat) (leaf : LeafNodeInt) (h : PopulatedUpTo L leaf k)
    (hL : 1 ≤ L) (hfull : (leaf.ridArray (L - 1)).page_number = 0) : k < L := by
  by_contra hk
  have hk : k = L := by have := h.1; omega
  exact (h.2 (L - 1) (by omega)).2 (by omega) hfull

/-- Effect of `insertLeafAtNode` when the root leaf has room. -/
theorem insertLeafAtNode_room (s : BTreeIndex) (e : RIDKeyPair)
    (h : ((s.pages s.rootPageNum).asLeaf.ridArray (s.leafOccupancy - 1)).page_number = 0) :
    (s.insertLeafAtNode e).pages = setAt s.pages s.rootPageNum
        (Page.leaf (insertEntryInLeaf s.leafOccupancy (s.pages s.rootPageNum).asLeaf e)) ∧
      (s.insertLeafAtNode e).nextPageNo = s.nextPageNo ∧
      (s.insertLeafAtNode e).rootPageNum = s.rootPageNum ∧
      (s.insertLeafAtNode e).is_root_leaf = s.is_root_leaf ∧
      (s.insertLeafAtNode e).headerPageNum = s.headerPageNum ∧
      (s.insertLeafAtNode e).leafOccupancy = s.leafOccupancy ∧
      (s.insertLeafAtNode e).nodeOccupancy = s.nodeOccupancy ∧
      (s.insertLeafAtNode e).attributeType = s.attributeType := by
  simp [insertLeafAtNode, readPage, unPinPage, writeLeaf, h]

/-- Effect of `insertLeafAtNode` when the root leaf is full. -/
theorem insertLeafAtNode_full (s : BTreeIndex) (e : RIDKeyPair)
    (h : ((s.pages s.rootPageNum).asLeaf.ridArray (s.leafOccupancy - 1)).page_number ≠ 0)
    (hroot : s.rootPageNum < s.nextPageNo) (hhdr : s.headerPageNum < s.nextPageNo)
    (hne : s.rootPageNum ≠ s.headerPageNum) :
    (s.insertLeafAtNode e).pages s.rootPageNum = Page.leaf
        (splitLeafNodes s.leafOccupancy (s.pages s.rootPageNum).asLeaf zeroLeaf s.nextPageNo e).1 ∧
      (s.insertLeafAtNode e).pages s.nextPageNo = Page.leaf
        (splitLeafNodes s.leafOccupancy (s.pages s.rootPageNum).asLeaf zeroLeaf s.nextPageNo
          e).2.1 ∧
      ((s.insertLeafAtNode e).pages (s.nextPageNo + 1)).asNonLeaf.level = 1 ∧
      ((s.insertLeafAtNode e).pages (s.nextPageNo + 1)).asNonLeaf.pageNoArray =
        setAt (setAt (fun _ => 0) 0 s.rootPageNum) 1 s.nextPageNo ∧
      (∀ x, x < s.nextPageNo → x ≠ s.rootPageNum → x ≠ s.headerPageNum →
        (s.insertLeafAtNode e).pages x = s.pages x) ∧
      (s.insertLeafAtNode e).nextPageNo = s.nextPageNo + 2 ∧
      (s.insertLeafAtNode e).rootPageNum = s.nextPageNo + 1 ∧
      (s.insertLeafAtNode e).is_root_leaf = false ∧
      (s.insertLeafAtNode e).headerPageNum = s.headerPageNum ∧
      (s.insertLeafAtNode e).leafOccupancy = s.leafOccupancy ∧
      (s.insertLeafAtNode e).nodeOccupancy = s.nodeOccupancy ∧
      (s.insertLeafAtNode e).attributeType = s.attributeType := by
  have h1 : s.rootPageNum ≠ s.nextPageNo := Nat.ne_of_lt hroot
  have h2 : s.headerPageNum ≠ s.nextPageNo := Nat.ne_of_lt hhdr
  have h3 : s.headerPageNum ≠ s.nextPageNo + 1 := by omega
  have h4 : s.nextPageNo ≠ s.nextPageNo + 1 := by omega
  have h5 : s.rootPageNum ≠ s.nextPageNo + 1 := by omega
  have h6 : ∀ x, x < s.nextPageNo → x ≠ s.nextPageNo ∧ x ≠ s.nextPageNo + 1 := by
    intro x hx; omega
  simp +contextual [insertLeafAtNode, splitLeafNode, makeNewRootNode, allocPage, readPage,
    unPinPage, writeLeaf, writeNonLeaf, writeMeta, h, setAt_ne, h1, h2, h3, h4, h5, h1.symm,
    h2.symm, h3.symm, h4.symm, h5.symm, hne, hne.symm, zeroNonLeaf, splitLeafNodes_pageNo, h6]

theorem lookupLeaf_level1 (fuel : Nat) (s : BTreeIndex) (curr : Nat) (e : RIDKeyPair)
    (ip : PageKeyPair) (hlevel : (s.pages curr).asNonLeaf.level = 1) :
    lookupLeaf (fuel + 1) s curr e ip =
      some ((s.readPage curr).lookupLeafLevelOne curr
        ((s.pages curr).asNonLeaf.pageNoArray
          (childSlot s.nodeOccupancy (s.pages curr).asNonLeaf e.key)) e, ip) := by
  simp only [lookupLeaf, readPage, hlevel, if_true]

/-- Effect of the level-1 branch of `lookupLeaf` when the target leaf has room. -/
theorem lookupLeafLevelOne_room (s : BTreeIndex) (curr child : Nat) (e : RIDKeyPair)
    (hroom : ((s.pages child).asLeaf.ridArray (s.leafOccupancy - 1)).page_number = 0) :
    (s.lookupLeafLevelOne curr child e).pages = setAt s.pages child
        (Page.leaf (insertEntryInLeaf s.leafOccupancy (s.pages child).asLeaf e)) ∧
      (s.lookupLeafLevelOne curr child e).nextPageNo = s.nextPageNo ∧
      (s.lookupLeafLevelOne curr child e).rootPageNum = s.rootPageNum ∧
      (s.lookupLeafLevelOne curr child e).is_root_leaf = s.is_root_leaf ∧
      (s.lookupLeafLevelOne curr child e).headerPageNum = s.headerPageNum ∧
      (s.lookupLeafLevelOne curr child e).leafOccupancy = s.leafOccupancy ∧
      (s.lookupLeafLevelOne curr child e).nodeOccupancy = s.nodeOccupancy ∧
      (s.lookupLeafLevelOne curr child e).attributeType = s.attributeType := by
  simp [lookupLeafLevelOne, readPage, unPinPage, writeLeaf, hroom]

/-- Effect of the level-1 branch of `lookupLeaf` when the target leaf is full. -/
theorem lookupLeafLevelOne_full (s : BTreeIndex) (curr child : Nat) (e : RIDKeyPair)
    (hfull : ((s.pages child).asLeaf.ridArray (s.leafOccupancy - 1)).page_number ≠ 0)
    (hchild : child < s.nextPageNo) (hcurr : curr < s.nextPageNo) (hne : child ≠ curr) :
    (s.lookupLeafLevelOne curr child e).pages child = Page.leaf
        (splitLeafNodes s.leafOccupancy (s.pages child).asLeaf zeroLeaf s.nextPageNo e).1 ∧
      (s.lookupLeafLevelOne curr child e).pages s.nextPageNo = Page.leaf
        (splitLeafNodes s.leafOccupancy (s.pages child).asLeaf zeroLeaf s.nextPageNo e).2.1 ∧
      ((s.lookupLeafLevelOne curr child e).pages curr = s.pages curr ∨
        (s.lookupLeafLevelOne curr child e).pages curr = Page.nonLeaf
          (insertEntryInNonLeaf s.leafOccupancy (s.pages curr).asNonLeaf
            (splitLeafNodes s.leafOccupancy (s.pages child).asLeaf zeroLeaf s.nextPageNo
              e).2.2)) ∧
      (∀ x, x < s.nextPageNo → x ≠ child → x ≠ curr →
        (s.lookupLeafLevelOne curr child e).pages x = s.pages x) ∧
      (s.lookupLeafLevelOne curr child e).nextPageNo = s.nextPageNo + 1 ∧
      (s.lookupLeafLevelOne curr child e).rootPageNum = s.rootPageNum ∧
      (s.lookupLeafLevelOne curr child e).is_root_leaf = s.is_root_leaf ∧
      (s.lookupLeafLevelOne curr child e).headerPageNum = s.headerPageNum ∧
      (s.lookupLeafLevelOne curr child e).leafOccupancy = s.leafOccupancy ∧
      (s.lookupLeafLevelOne curr child e).nodeOccupancy = s.nodeOccupancy ∧
      (s.lookupLeafLevelOne curr child e).attributeType = s.attributeType := by
  have h1 : child ≠ s.nextPageNo := Nat.ne_of_lt hchild
  have h2 : curr ≠ s.nextPageNo := Nat.ne_of_lt hcurr
  have h6 : ∀ x, x < s.nextPageNo → x ≠ s.nextPageNo := by
    intro x hx; omega
  by_cases hfullroot : (s.pages curr).asNonLeaf.pageNoArray s.nodeOccupancy = 0
  · simp +contextual [lookupLeafLevelOne, splitLeafNode, allocPage, readPage,
      unPinPage, writeLeaf, writeNonLeaf, hfull, setAt_ne, h1, h2, h1.symm,
      h2.symm, hne, hne.symm, h6, hfullroot]
  · simp +contextual [lookupLeafLevelOne, splitLeafNode, allocPage, readPage,
      unPinPage, writeLeaf, writeNonLeaf, hfull, setAt_ne, h1, h2, h1.symm,
      h2.symm, hne, hne.symm, h6, hfullroot]

end BTreeIndex

/-! ### The invariant along a run of inserts -/

theorem Linked_ne_zero (pages : Nat → Page) (chain : List Nat) (start : Nat)
    (hl : Linked pages chain start) : ∀ p ∈ chain, p ≠ 0 := by
  induction chain generalizing start with
  | nil => intro p hp; cases hp
  | cons x rest ih =>
    obtain ⟨_, h2, h3⟩ := hl
    intro p hp
    rcases List.mem_cons.1 hp with h | h
    · rw [h]; exact h2
    · exact ih _ h3 p h

theorem leafChain_of_linked (pages : Nat → Page) (chain : List Nat) (start fuel : Nat)
    (hl : Linked pages chain start) (hf : chain.length ≤ fuel) :
    leafChain pages fuel start = some chain := by
  induction chain generalizing start fuel with
  | nil =>
    have h0 : start = 0 := hl
    subst h0
    cases fuel <;> simp [leafChain]
  | cons x rest ih =>
    obtain ⟨h1, h2, h3⟩ := hl
    subst h1
    cases fuel with
    | zero => simp at hf
    | succ f =>
      have hf' : rest.length ≤ f := by simpa using hf
      simp only [leafChain, if_neg h2, ih _ f h3 hf']
      rfl

theorem length_le_of_nodup_bound (chain : List Nat) (n : Nat) (hnd : chain.Nodup)
    (hb : ∀ p ∈ chain, p < n) : chain.length ≤ n := by
  have h1 : chain.toFinset ⊆ Finset.range n := by
    intro p hp
    exact Finset.mem_range.2 (hb p (List.mem_toFinset.1 hp))
  have h2 := Finset.card_le_card h1
  rw [List.toFinset_card_of_nodup hnd, Finset.card_range] at h2
  exact h2

namespace BTreeIndex

theorem zeroLeaf_populatedUpTo (L : Nat) (sib : Nat) :
    PopulatedUpTo L { zeroLeaf with rightSibPageNo := sib } 0 := by
  refine ⟨Nat.zero_le _, fun i _ => ?_⟩
  constructor
  · intro h; exact absurd rfl h
  · intro h; omega

/-- The freshly created Integer index satisfies the invariant with no entries. -/
theorem Inv_fresh (this : BTreeIndex) (relationName : String) (attrByteOffset : Int)
    (L N : Nat) :
    ∃ s, fresh this relationName attrByteOffset Datatype.INTEGER L N = some s ∧
      Inv L N s [] := by
  refine ⟨_, rfl, ?_⟩
  refine ⟨rfl, rfl, rfl, ?_, ⟨[2], ⟨?_, ?_, ?_, ?_, ?_⟩, ?_, ?_, ?_⟩⟩
  · simp [unPinPage, writeLeaf, writeMeta, allocPage, openFile, cout, BlobFile.empty]
  · simp
  · refine ⟨rfl, by omega, ?_⟩
    simp [unPinPage, writeLeaf, writeMeta, allocPage, openFile, cout, BlobFile.empty, Linked]
  · intro p hp
    simp at hp
    subst hp
    simp [unPinPage, writeLeaf, writeMeta, allocPage, openFile, cout, BlobFile.empty]
  · intro p hp
    simp at hp
    subst hp
    refine ⟨0, ?_⟩
    simp [unPinPage, writeLeaf, writeMeta, allocPage, openFile, cout, BlobFile.empty, setAt]
    exact zeroLeaf_populatedUpTo L 0
  · simp only [entriesOf]
    rw [populated_eq L 0]
    · simp
    · simp [unPinPage, writeLeaf, writeMeta, allocPage, openFile, cout, BlobFile.empty, setAt]
      exact zeroLeaf_populatedUpTo L 0
  · simp [unPinPage, writeLeaf, writeMeta, allocPage, openFile, cout, BlobFile.empty]
  · intro _
    simp [unPinPage, writeLeaf, writeMeta, allocPage, openFile, cout, BlobFile.empty]
  · intro h
    simp [unPinPage, writeLeaf, writeMeta, allocPage, openFile, cout, BlobFile.empty] at h

/-- One `insertEntry` on a root leaf keeps the invariant. -/
theorem Inv_insertLeafAtNode (L N : Nat) (s : BTreeIndex) (es : List (Int × RecordId))
    (key : Int) (rid : RecordId) (hL : 3 ≤ L) (hrid : rid.page_number ≠ 0)
    (hinv : Inv L N s es) (hleaf : s.is_root_leaf = true) :
    Inv L N (s.insertLeafAtNode ⟨rid, key⟩) ((key, rid) :: es) := by
  obtain ⟨hocc, hnocc, hint, hhdr, chain, hch, hhc, hrl, _⟩ := hinv
  have hroot := hrl hleaf
  obtain ⟨k, hk⟩ := hch.leaves _ hroot
  have hrootlt := hch.bound _ hroot
  have hrh : s.rootPageNum ≠ s.headerPageNum := fun h => hhc (h ▸ hroot)
  by_cases hroom : ((s.pages s.rootPageNum).asLeaf.ridArray (s.leafOccupancy - 1)).page_number = 0
  · obtain ⟨e1, e2, e3, e4, e5, e6, e7, e8⟩ := insertLeafAtNode_room s ⟨rid, key⟩ hroom
    have hkL : k < L := populatedUpTo_notFull L k _ hk (by omega) (hocc ▸ hroom)
    obtain ⟨i1, i2⟩ := insertEntryInLeaf_populated L k _ ⟨rid, key⟩ hk hkL hrid
    refine ⟨e6.trans hocc, e7.trans hnocc, e8.trans hint, by rw [e5, e2]; exact hhdr,
      chain, ?_, by rw [e5]; exact hhc, fun _ => by rw [e3]; exact hroot,
      fun h => by rw [e4, hleaf] at h; cases h⟩
    rw [e1, e2, hocc]
    refine hch.update _ _ s.rootPageNum (key, rid) hroot ?_ ?_ ?_ ?_ (Nat.le_refl _)
    · intro q _ hq
      exact setAt_ne _ _ hq
    · simp [insertEntryInLeaf_rightSib]
    · exact ⟨k + 1, by simpa using i1⟩
    · simpa using i2
  · obtain ⟨e1, e2, e3, e4, e5, e6, e7, e8, e9, e10, e11, e12⟩ :=
      insertLeafAtNode_full s ⟨rid, key⟩ hroom hrootlt hhdr hrh
    have hfull : PopulatedUpTo L (s.pages s.rootPageNum).asLeaf L :=
      populatedUpTo_full L k _ hk (by omega) (hocc ▸ hroom)
    obtain ⟨p1, p2, p3, p4, p5⟩ :=
      splitLeafNodes_spec L (s.pages s.rootPageNum).asLeaf s.nextPageNo ⟨rid, key⟩ hL hfull hrid
    rw [hocc] at e1 e2
    have hnz := Linked_ne_zero _ _ _ hch.linked
    refine ⟨e10.trans hocc, e11.trans hnocc, e12.trans hint, by rw [e9, e6]; omega,
      insertAfter s.rootPageNum s.nextPageNo chain, ?_, ?_, ?_, ?_⟩
    · rw [e6]
      refine hch.split _ _ s.rootPageNum (key, rid) hroot ?_ ?_ ?_ ?_ ?_ ?_ (by omega)
      · intro x hx hxr
        exact e5 x (hch.bound x hx) hxr (fun h => hhc (h ▸ hx))
      · rw [e1]; exact p1
      · rw [e2]; exact p2
      · rw [e1]; exact p3
      · rw [e2]; exact p4
      · rw [e1, e2]; exact p5
    · rw [e9]
      intro hmem
      rcases mem_insertAfter _ _ _ _ hmem with h | h
      · exact hhc h
      · omega
    · intro h; rw [e8] at h; cases h
    · intro _
      rw [e7, e6]
      refine ⟨?_, by omega, e3, ?_, ?_⟩
      · intro hmem
        rcases mem_insertAfter _ _ _ _ hmem with h | h
        · have := hch.bound _ h; omega
        · omega
      · rw [e4]
        simpa [setAt] using hnz _ hroot
      · intro i
        rw [e4]
        by_cases h1 : i = 1
        · subst h1
          intro _
          simp only [setAt_same]
          exact mem_insertAfter_new _ _ _ hroot
        · by_cases h0 : i = 0
          · subst h0
            intro _
            simp only [setAt, if_neg h1, if_true]
            exact mem_insertAfter_of_mem _ _ _ _ hroot
          · simp [setAt, h0, h1]

theorem Inv_congr (L N : Nat) (s s' : BTreeIndex) (es : List (Int × RecordId))
    (h : s'.treeState = s.treeState) (hinv : Inv L N s es) : Inv L N s' es := by
  simp only [treeState, Prod.mk.injEq] at h
  obtain ⟨h1, h2, h3, h4, h5, h6, h7, h8⟩ := h
  obtain ⟨hocc, hnocc, hint, hhdr, chain, hch, hhc, hrl, hrn⟩ := hinv
  refine ⟨h6.trans hocc, h7.trans hnocc, h8.trans hint, by rw [h5, h2]; exact hhdr,
    chain, by rw [h1, h2]; exact hch, by rw [h5]; exact hhc, ?_, ?_⟩
  · rw [h4, h3]; exact hrl
  · rw [h4, h3, h2, h1]; exact hrn

/-- `insertEntry` on an Integer index whose root is a level-1 node: `lookupLeaf`
returns after one call and hands back no promotion, so no new root is made. -/
theorem insertEntry_levelOneRoot (fuel : Nat) (s : BTreeIndex) (key : Int) (rid : RecordId)
    (hleaf : s.is_root_leaf = false) (hint : s.attributeType = Datatype.INTEGER)
    (hlevel : (s.pages s.rootPageNum).asNonLeaf.level = 1) :
    ∃ s', s.insertEntry (fuel + 1) key rid = some (s', Outcome.returned ()) ∧
      s'.treeState = ((s.readPage s.rootPageNum).lookupLeafLevelOne s.rootPageNum
        ((s.pages s.rootPageNum).asNonLeaf.pageNoArray
          (childSlot s.nodeOccupancy (s.pages s.rootPageNum).asNonLeaf key))
        ⟨rid, key⟩).treeState := by
  have h := lookupLeaf_level1 fuel s s.rootPageNum ⟨rid, key⟩ ⟨0, key⟩ hlevel
  unfold insertEntry
  simp only [hleaf, hint, h]
  simp [treeState, readPage, unPinPage]

/-- The level-1 branch of `lookupLeaf` at the root keeps the invariant. -/
theorem Inv_lookupLeafLevelOne (L N : Nat) (s : BTreeIndex) (es : List (Int × RecordId))
    (key : Int) (rid : RecordId) (hL : 3 ≤ L) (hrid : rid.page_number ≠ 0)
    (hinv : Inv L N s es) (hleaf : s.is_root_leaf = false) :
    Inv L N (s.lookupLeafLevelOne s.rootPageNum
      ((s.pages s.rootPageNum).asNonLeaf.pageNoArray
        (childSlot s.nodeOccupancy (s.pages s.rootPageNum).asNonLeaf key)) ⟨rid, key⟩)
      ((key, rid) :: es) := by
  obtain ⟨hocc, hnocc, hint, hhdr, chain, hch, hhc, _, hrn⟩ := hinv
  obtain ⟨hrc, hrootlt, hlevel, hc0, hcs⟩ := hrn hleaf
  have hcne := childSlot_ne_zero s.nodeOccupancy (s.pages s.rootPageNum).asNonLeaf key hc0
  have hcmem := hcs _ hcne
  generalize hchild : (s.pages s.rootPageNum).asNonLeaf.pageNoArray
    (childSlot s.nodeOccupancy (s.pages s.rootPageNum).asNonLeaf key) = child at hcmem hcne ⊢
  obtain ⟨k, hk⟩ := hch.leaves _ hcmem
  have hchildlt := hch.bound _ hcmem
  have hcr : child ≠ s.rootPageNum := fun h => hrc (h ▸ hcmem)
  by_cases hroom : ((s.pages child).asLeaf.ridArray (s.leafOccupancy - 1)).page_number = 0
  · obtain ⟨e1, e2, e3, e4, e5, e6, e7, e8⟩ :=
      lookupLeafLevelOne_room s s.rootPageNum child ⟨rid, key⟩ hroom
    have hkL : k < L := populatedUpTo_notFull L k _ hk (by omega) (hocc ▸ hroom)
    obtain ⟨i1, i2⟩ := insertEntryInLeaf_populated L k _ ⟨rid, key⟩ hk hkL hrid
    refine ⟨e6.trans hocc, e7.trans hnocc, e8.trans hint, by rw [e5, e2]; exact hhdr,
      chain, ?_, by rw [e5]; exact hhc, (fun h => by rw [e4, hleaf] at h; cases h), ?_⟩
    · rw [e1, e2, hocc]
      refine hch.update _ _ child (key, rid) hcmem ?_ ?_ ?_ ?_ (Nat.le_refl _)
      · intro q _ hq
        exact setAt_ne _ _ hq
      · simp [insertEntryInLeaf_rightSib]
      · exact ⟨k + 1, by simpa using i1⟩
      · simpa using i2
    · intro _
      rw [e3, e2, e1]
      refine ⟨hrc, hrootlt, ?_⟩
      unfold RootOK
      rw [setAt_ne _ _ hcr.symm]
      exact ⟨hlevel, hc0, hcs⟩
  · obtain ⟨e1, e2, e3, e4, e5, e6, e7, e8, e9, e10, e11⟩ :=
      lookupLeafLevelOne_full s s.rootPageNum child ⟨rid, key⟩ hroom hchildlt hrootlt hcr
    have hfull : PopulatedUpTo L (s.pages child).asLeaf L :=
      populatedUpTo_full L k _ hk (by omega) (hocc ▸ hroom)
    obtain ⟨p1, p2, p3, p4, p5⟩ :=
      splitLeafNodes_spec L (s.pages child).asLeaf s.nextPageNo ⟨rid, key⟩ hL hfull hrid
    rw [hocc] at e1 e2
    refine ⟨e9.trans hocc, e10.trans hnocc, e11.trans hint, by rw [e8, e5]; omega,
      insertAfter child s.nextPageNo chain, ?_, ?_, ?_, ?_⟩
    · rw [e5]
      refine hch.split _ _ child (key, rid) hcmem ?_ ?_ ?_ ?_ ?_ ?_ (by omega)
      · intro x hx hxc
        exact e4 x (hch.bound x hx) hxc (fun h => hrc (h ▸ hx))
      · rw [e1]; exact p1
      · rw [e2]; exact p2
      · rw [e1]; exact p3
      · rw [e2]; exact p4
      · rw [e1, e2]; exact p5
    · rw [e8]
      intro hmem
      rcases mem_insertAfter _ _ _ _ hmem with h | h
      · exact hhc h
      · omega
    · intro h; rw [e7, hleaf] at h; cases h
    · intro _
      rw [e6, e5]
      refine ⟨?_, by omega, ?_⟩
      · intro hmem
        rcases mem_insertAfter _ _ _ _ hmem with h | h
        · exact hrc h
        · omega
      · unfold RootOK
        rcases e3 with e3 | e3
        · rw [e3]
          exact ⟨hlevel, hc0, fun i hi => mem_insertAfter_of_mem _ _ _ _ (hcs i hi)⟩
        · rw [e3]
          simp only [asNonLeaf_nonLeaf]
          refine ⟨?_, ?_, ?_⟩
          · rw [insertEntryInNonLeaf_level]; exact hlevel
          · rw [insertEntryInNonLeaf_child0 _ _ _ hc0]; exact hc0
          · intro i hi
            rcases insertEntryInNonLeaf_children s.leafOccupancy
              (s.pages s.rootPageNum).asNonLeaf
              (splitLeafNodes s.leafOccupancy (s.pages child).asLeaf zeroLeaf s.nextPageNo
                ⟨rid, key⟩).2.2 i with h | ⟨i', h⟩
            · rw [h, splitLeafNodes_pageNo]
              exact mem_insertAfter_new _ _ _ hcmem
            · rw [h] at hi ⊢
              exact mem_insertAfter_of_mem _ _ _ _ (hcs i' hi)

/-- One `insertEntry` keeps the invariant and returns normally, for every fuel
of at least 1. -/
theorem Inv_insertEntry (L N : Nat) (s : BTreeIndex) (es : List (Int × RecordId))
    (key : Int) (rid : RecordId) (fuel : Nat) (hL : 3 ≤ L) (hrid : rid.page_number ≠ 0)
    (hfuel : 1 ≤ fuel) (hinv : Inv L N s es) :
    ∃ s', s.insertEntry fuel key rid = some (s', Outcome.returned ()) ∧
      Inv L N s' ((key, rid) :: es) := by
  by_cases hleaf : s.is_root_leaf = true
  · exact ⟨_, insertEntry_rootLeaf fuel s key rid hleaf hinv.int,
      Inv_insertLeafAtNode L N s es key rid hL hrid hinv hleaf⟩
  · have hleaf' : s.is_root_leaf = false := by simpa using hleaf
    obtain ⟨f, hf⟩ : ∃ f, fuel = f + 1 := ⟨fuel - 1, by omega⟩
    subst hf
    obtain ⟨chain, _, _, _, hrn⟩ := hinv.tree
    obtain ⟨s', h1, h2⟩ := insertEntry_levelOneRoot f s key rid hleaf' hinv.int (hrn hleaf').2.2.1
    refine ⟨s', h1, Inv_congr L N _ s' _ h2 ?_⟩
    have hinv1 : Inv L N (s.readPage s.rootPageNum) es := Inv_congr L N s _ es rfl hinv
    exact Inv_lookupLeafLevelOne L N (s.readPage s.rootPageNum) es key rid hL hrid hinv1 hleaf'

/-- A run of `insertEntry` calls keeps the invariant. -/
theorem Inv_insertAll (L N : Nat) (fuel : Nat) (hL : 3 ≤ L) (hfuel : 1 ≤ fuel)
    (entries : List (Int × RecordId)) :
    ∀ (s : BTreeIndex) (es : List (Int × RecordId)), Inv L N s es →
      (∀ e ∈ entries, e.2.page_number ≠ 0) →
      ∃ s', insertAll fuel s entries = some s' ∧ Inv L N s' (entries.reverse ++ es) := by
  induction entries with
  | nil =>
    intro s es hinv _
    exact ⟨s, rfl, by simpa using hinv⟩
  | cons e rest ih =>
    intro s es hinv hr
    obtain ⟨key, rid⟩ := e
    obtain ⟨s1, h1, h2⟩ := Inv_insertEntry L N s es key rid fuel hL
      (hr (key, rid) (List.mem_cons_self _ _)) hfuel hinv
    obtain ⟨s2, h3, h4⟩ := ih s1 ((key, rid) :: es) h2
      (fun e he => hr e (List.mem_cons_of_mem _ he))
    refine ⟨s2, ?_, ?_⟩
    · simp only [insertAll, h1]
      exact h3
    · simpa using h4

/-- In a state that satisfies the invariant the sibling chain from page 2 ends
at page id 0 and holds the inserted entries. -/
theorem Inv_chainEntries (L N : Nat) (s : BTreeIndex) (es : List (Int × RecordId))
    (hinv : Inv L N s es) : ∃ found, s.chainEntries = some found ∧ found.Perm es := by
  obtain ⟨hocc, _, _, _, chain, hch, _, _, _⟩ := hinv
  have hlen := length_le_of_nodup_bound chain s.nextPageNo hch.nodup hch.bound
  refine ⟨entriesOf L s.pages chain, ?_, hch.perm⟩
  unfold chainEntries
  rw [leafChain_of_linked s.pages chain 2 s.nextPageNo hch.linked hlen, hocc]
  rfl

end BTreeIndex

/-! ### Exact form of the insertion into a leaf -/

theorem map_range_insert_eq {α : Type} (f g : Nat → α) (e : α) (idx : Nat) :
    ∀ k, idx ≤ k →
      (∀ j, j < k + 1 → g j = if j = idx then e else if idx < j then f (j - 1) else f j) →
      (List.range (k + 1)).map g =
        ((List.range k).map f).take idx ++ e :: ((List.range k).map f).drop idx := by
  intro k
  induction k with
  | zero =>
    intro hidx hg
    have : idx = 0 := by omega
    subst this
    have := hg 0 (by omega)
    simp at this
    simp [List.range_succ, this]
  | succ k ih =>
    intro hidx hg
    have hlen : ((List.range k).map f).length = k := by simp
    by_cases hk : idx = k + 1
    · subst hk
      have h1 : (List.range (k + 1)).map g = (List.range (k + 1)).map f := by
        apply List.map_congr_left
        intro j hj
        have hj' := List.mem_range.1 hj
        have := hg j (by omega)
        have h2 : j ≠ k + 1 := by omega
        have h3 : ¬ (k + 1 < j) := by omega
        simpa [h2, h3] using this
      have h2 : g (k + 1) = e := by
        have := hg (k + 1) (by omega)
        simpa using this
      have hlen' : ((List.range (k + 1)).map f).length = k + 1 := by simp
      rw [List.range_succ, List.map_append, h1]
      simp only [List.map_cons, List.map_nil, h2]
      rw [List.take_of_length_le (by omega), List.drop_eq_nil_of_le (by omega)]
    · have hidx' : idx ≤ k := by omega
      have h1 := ih hidx' (fun j hj => hg j (by omega))
      have h2 : g (k + 1) = f k := by
        have := hg (k + 1) (by omega)
        have h3 : k + 1 ≠ idx := fun h => hk h.symm
        have h4 : idx < k + 1 := by omega
        simpa [h3, h4] using this
      have h5 : (List.range (k + 1 + 1)).map g = (List.range (k + 1)).map g ++ [f k] := by
        rw [List.range_succ, List.map_append]
        simp only [List.map_cons, List.map_nil, h2]
      have h6 : (List.range (k + 1)).map f = (List.range k).map f ++ [f k] := by
        rw [List.range_succ, List.map_append]
        rfl
      rw [h5, h6, h1, List.take_append_of_le_length (by omega),
        List.drop_append_of_le_length (by omega)]
      simp

/-- The slot `insertEntryInLeaf` writes to is the first one whose key is not
below the new key, or the first unused slot. -/
theorem leafSlot_first (L k : Nat) (leaf : LeafNodeInt) (key : Int)
    (h : PopulatedUpTo L leaf k) (hk : k < L) :
    leafSlot L leaf key ≤ k ∧ (∀ j, j < leafSlot L leaf key → leaf.keyArray j < key) ∧
      (leafSlot L leaf key < k → key ≤ leaf.keyArray (leafSlot L leaf key)) := by
  have hle := leafSlot_le L k leaf key h
  refine ⟨hle, ?_, ?_⟩
  · intro j hj
    have := (searchLoop_below _ _ L 0 j (Nat.zero_le _) hj).2
    simpa using this
  · intro hlt
    have hstop : decide ((leaf.ridArray (leafSlot L leaf key)).page_number ≠ 0) = false ∨
        decide (leaf.keyArray (leafSlot L leaf key) ≥ key) = true :=
      searchLoop_stop (fun i => decide ((leaf.ridArray i).page_number ≠ 0))
        (fun i => decide (leaf.keyArray i ≥ key)) L 0 (by
          have : leafSlot L leaf key < 0 + L := by omega
          exact this)
    rcases hstop with hv | hh
    · have hpop := (h.2 (leafSlot L leaf key) (by omega)).2 hlt
      exact absurd hpop (of_decide_eq_false hv)
    · exact of_decide_eq_true hh

/-- `insertEntryInLeaf` on a leaf with room and ascending keys: the entry lands
at the first slot whose key is not below the new key, the entries before keep
their slots, the entries from there on move up by one, and the keys stay
ascending. -/
theorem insertEntryInLeaf_exact (L k : Nat) (leaf : LeafNodeInt) (entry : RIDKeyPair)
    (h : PopulatedUpTo L leaf k) (hk : k < L) (hsorted : KeysAscending leaf k)
    (hrid : entry.rid.page_number ≠ 0) :
    PopulatedUpTo L (insertEntryInLeaf L leaf entry) (k + 1) ∧
      populated L (insertEntryInLeaf L leaf entry) =
        (populated L leaf).take (leafSlot L leaf entry.key) ++
          (entry.key, entry.rid) :: (populated L leaf).drop (leafSlot L leaf entry.key) ∧
      KeysAscending (insertEntryInLeaf L leaf entry) (k + 1) := by
  obtain ⟨hidx, hbelow, hat⟩ := leafSlot_first L k leaf entry.key h hk
  have hpre := (insertEntryInLeaf_populated L k leaf entry h hk hrid).1
  refine ⟨hpre, ?_, ?_⟩
  · rw [populated_eq L (k + 1) _ hpre, populated_eq L k _ h]
    apply map_range_insert_eq _ _ _ (leafSlot L leaf entry.key) k hidx
    intro j hj
    rw [insertEntryInLeaf_entryAt]
    by_cases h1 : j = leafSlot L leaf entry.key
    · simp [h1]
    · simp only [h1, if_false]
      by_cases h2 : leafSlot L leaf entry.key < j
      · have : leafSlot L leaf entry.key < j ∧ j ≤ L - 1 := ⟨h2, by omega⟩
        simp [h2, this]
      · have : ¬ (leafSlot L leaf entry.key < j ∧ j ≤ L - 1) := fun h => h2 h.1
        simp [h2, this]
  · have hkey : ∀ j, j < k + 1 → (insertEntryInLeaf L leaf entry).keyArray j =
        if j = leafSlot L leaf entry.key then entry.key
        else if leafSlot L leaf entry.key < j then leaf.keyArray (j - 1)
        else leaf.keyArray j := by
      intro j hj
      have := congrArg Prod.fst (insertEntryInLeaf_entryAt L leaf entry j)
      simp only [entryAt] at this
      rw [this]
      by_cases h1 : j = leafSlot L leaf entry.key
      · simp [h1]
      · simp only [h1, if_false]
        by_cases h2 : leafSlot L leaf entry.key < j
        · have : leafSlot L leaf entry.key < j ∧ j ≤ L - 1 := ⟨h2, by omega⟩
          simp [h2, this]
        · have : ¬ (leafSlot L leaf entry.key < j ∧ j ≤ L - 1) := fun h => h2 h.1
          simp [h2, this]
    intro b hb a hab
    rw [hkey a (by omega), hkey b hb]
    by_cases hb1 : b = leafSlot L leaf entry.key
    · rw [if_pos hb1]
      by_cases ha1 : a = leafSlot L leaf entry.key
      · rw [if_pos ha1]
      · rw [if_neg ha1, if_neg (by omega)]
        exact Int.le_of_lt (hbelow a (by omega))
    · rw [if_neg hb1]
      by_cases hb2 : leafSlot L leaf entry.key < b
      · rw [if_pos hb2]
        have hik : leafSlot L leaf entry.key < k := by omega
        by_cases ha1 : a = leafSlot L leaf entry.key
        · rw [if_pos ha1]
          exact Int.le_trans (hat hik) (hsorted (b - 1) (by omega) _ (by omega))
        · rw [if_neg ha1]
          by_cases ha2 : leafSlot L leaf entry.key < a
          · rw [if_pos ha2]
            exact hsorted (b - 1) (by omega) _ (by omega)
          · rw [if_neg ha2]
            exact hsorted (b - 1) (by omega) _ (by omega)
      · rw [if_neg hb2]
        rw [if_neg (by omega), if_neg (by omega)]
        exact hsorted b (by omega) a hab

/-! ### Exact form of the leaf split -/

theorem mem_of_insertedInto {α : Type} (e x : α) (l l' : List α) (h : InsertedInto e l l')
    (hx : x ∈ l') : x = e ∨ x ∈ l := by
  obtain ⟨i, _, rfl⟩ := h
  rcases List.mem_append.1 hx with h1 | h1
  · exact Or.inr (List.mem_of_mem_take h1)
  · rcases List.mem_cons.1 h1 with h2 | h2
    · exact Or.inl h2
    · exact Or.inr (List.mem_of_mem_drop h2)

theorem lower_append_upper (L : Nat) (leaf : LeafNodeInt) (hfull : PopulatedUpTo L leaf L)
    (hmid : L / 2 + 1 ≤ L) :
    lowerEntries L leaf ++ upperEntries L leaf = populated L leaf := by
  rw [populated_eq L L leaf hfull]
  exact range_split_map (entryAt leaf) L (L / 2 + 1) hmid

/-- The key handed back by the leaf split is the key in slot `L/2+1` of the leaf
before the split. -/
theorem splitLeafNodes_promoted (L : Nat) (leaf new : LeafNodeInt) (q : Nat)
    (entry : RIDKeyPair) (hL : 3 ≤ L) (hrid : (leaf.ridArray (L / 2 + 1)).page_number ≠ 0) :
    (splitLeafNodes L leaf new q entry).2.2.key = leaf.keyArray (L / 2 + 1) := by
  have hmid : L / 2 + 1 ≤ 0 + (L / 2 + 1) ∧ 0 + (L / 2 + 1) < L / 2 + 1 + (L - (L / 2 + 1)) := by
    omega
  have hk0 : (moveLeaf (L / 2 + 1) (L - (L / 2 + 1)) (L / 2 + 1)
      ({ leaf with rightSibPageNo := q },
        { new with rightSibPageNo := leaf.rightSibPageNo })).2.keyArray 0 =
      leaf.keyArray (L / 2 + 1) := by
    rw [moveLeaf_right_keyArray _ _ _ _ _ (Nat.le_refl _), if_pos hmid]
    simp
  have hr0 : (moveLeaf (L / 2 + 1) (L - (L / 2 + 1)) (L / 2 + 1)
      ({ leaf with rightSibPageNo := q },
        { new with rightSibPageNo := leaf.rightSibPageNo })).2.ridArray 0 =
      leaf.ridArray (L / 2 + 1) := by
    rw [moveLeaf_right_ridArray _ _ _ _ _ (Nat.le_refl _), if_pos hmid]
    simp
  unfold splitLeafNodes
  simp only
  split
  · exact hk0
  · rename_i hge
    generalize hright : (moveLeaf (L / 2 + 1) (L - (L / 2 + 1)) (L / 2 + 1)
      ({ leaf with rightSibPageNo := q },
        { new with rightSibPageNo := leaf.rightSibPageNo })).2 = right at hk0 hr0 hge ⊢
    have he := congrArg Prod.fst (insertEntryInLeaf_entryAt L right entry 0)
    simp only [entryAt] at he
    rw [he]
    by_cases h0 : 0 = leafSlot L right entry.key
    · rw [if_pos h0]
      have hstop : decide ((right.ridArray (leafSlot L right entry.key)).page_number ≠ 0) =
          false ∨ decide (right.keyArray (leafSlot L right entry.key) ≥ entry.key) = true :=
        searchLoop_stop (fun i => decide ((right.ridArray i).page_number ≠ 0))
          (fun i => decide (right.keyArray i ≥ entry.key)) L 0 (by
            have : leafSlot L right entry.key < 0 + L := by omega
            exact this)
      rw [← h0] at hstop
      rcases hstop with hv | hh
      · have := of_decide_eq_false hv
        rw [hr0] at this
        exact absurd hrid this
      · have h1 : entry.key ≤ right.keyArray 0 := of_decide_eq_true hh
        have h2 : right.keyArray 0 ≤ entry.key := Int.not_lt.1 hge
        rw [← hk0]
        exact Int.le_antisymm h1 h2
    · rw [if_neg h0]
      have : ¬ (leafSlot L right entry.key < 0 ∧ 0 ≤ L - 1) := by omega
      rw [if_neg this]
      exact hk0

theorem keysAscending_congr (leaf leaf' : LeafNodeInt) (k : Nat)
    (h : ∀ j, j < k → leaf'.keyArray j = leaf.keyArray j) (hs : KeysAscending leaf k) :
    KeysAscending leaf' k := by
  intro b hb a hab
  rw [h a (by omega), h b hb]
  exact hs b hb a hab

/-- The two leaves after the split of a full leaf with ascending keys. -/
theorem splitLeafNodes_exact (L : Nat) (leaf : LeafNodeInt) (q : Nat) (entry : RIDKeyPair)
    (hL : 3 ≤ L) (hfull : PopulatedUpTo L leaf L) (hsorted : KeysAscending leaf L)
    (hrid : entry.rid.page_number ≠ 0) :
    ((entry.key < leaf.keyArray (L / 2 + 1) ∧
        InsertedInto (entry.key, entry.rid) (lowerEntries L leaf)
          (populated L (splitLeafNodes L leaf zeroLeaf q entry).1) ∧
        populated L (splitLeafNodes L leaf zeroLeaf q entry).2.1 = upperEntries L leaf) ∨
      (leaf.keyArray (L / 2 + 1) ≤ entry.key ∧
        populated L (splitLeafNodes L leaf zeroLeaf q entry).1 = lowerEntries L leaf ∧
        InsertedInto (entry.key, entry.rid) (upperEntries L leaf)
          (populated L (splitLeafNodes L leaf zeroLeaf q entry).2.1))) ∧
    ∃ k1 k2, 1 ≤ k1 ∧ 1 ≤ k2 ∧
      PopulatedUpTo L (splitLeafNodes L leaf zeroLeaf q entry).1 k1 ∧
      KeysAscending (splitLeafNodes L leaf zeroLeaf q entry).1 k1 ∧
      PopulatedUpTo L (splitLeafNodes L leaf zeroLeaf q entry).2.1 k2 ∧
      KeysAscending (splitLeafNodes L leaf zeroLeaf q entry).2.1 k2 := by
  have hmid : L / 2 + 1 ≤ L := by omega
  have hmid1 : L / 2 + 1 < L := by omega
  have hmid2 : L - (L / 2 + 1) < L := by omega
  have hfull' : PopulatedUpTo L { leaf with rightSibPageNo := q } L := hfull
  obtain ⟨l1, l2⟩ := moved_left_populated L { leaf with rightSibPageNo := q }
    { zeroLeaf with rightSibPageNo := leaf.rightSibPageNo } hfull' (L / 2 + 1) hmid
  obtain ⟨r1, r2⟩ := moved_right_populated L { leaf with rightSibPageNo := q }
    { zeroLeaf with rightSibPageNo := leaf.rightSibPageNo } hfull' (fun _ => rfl) (L / 2 + 1) hmid
  have hk0 : (moveLeaf (L / 2 + 1) (L - (L / 2 + 1)) (L / 2 + 1)
      ({ leaf with rightSibPageNo := q },
        { zeroLeaf with rightSibPageNo := leaf.rightSibPageNo })).2.keyArray 0 =
      leaf.keyArray (L / 2 + 1) := by
    rw [moveLeaf_right_keyArray _ _ _ _ _ (Nat.le_refl _), if_pos (by omega)]
    simp
  have ls : KeysAscending (moveLeaf (L / 2 + 1) (L - (L / 2 + 1)) (L / 2 + 1)
      ({ leaf with rightSibPageNo := q },
        { zeroLeaf with rightSibPageNo := leaf.rightSibPageNo })).1 (L / 2 + 1) := by
    rw [KeysAscending, moveLeaf_left_keyArray]
    intro b hb a hab
    exact hsorted b (by omega) a hab
  have rs : KeysAscending (moveLeaf (L / 2 + 1) (L - (L / 2 + 1)) (L / 2 + 1)
      ({ leaf with rightSibPageNo := q },
        { zeroLeaf with rightSibPageNo := leaf.rightSibPageNo })).2 (L - (L / 2 + 1)) := by
    intro b hb a hab
    rw [moveLeaf_right_keyArray _ _ _ _ _ (Nat.le_refl _), if_pos (by omega),
      moveLeaf_right_keyArray _ _ _ _ _ (Nat.le_refl _), if_pos (by omega)]
    exact hsorted (b + (L / 2 + 1)) (by omega) _ (by omega)
  have hlow : (List.range (L / 2 + 1)).map (entryAt { leaf with rightSibPageNo := q }) =
      lowerEntries L leaf := rfl
  have hup : (List.range (L - (L / 2 + 1))).map
      (fun j => entryAt { leaf with rightSibPageNo := q } (L / 2 + 1 + j)) =
      upperEntries L leaf := rfl
  rw [hlow] at l2
  rw [hup] at r2
  unfold splitLeafNodes
  simp only
  split
  · rename_i hlt
    rw [hk0] at hlt
    obtain ⟨i1, i2, i3⟩ := insertEntryInLeaf_exact L _ _ entry l1 hmid1 ls hrid
    have hle := leafSlot_le L _ _ entry.key l1
    rw [l2] at i2
    have hlen : (lowerEntries L leaf).length = L / 2 + 1 := by simp [lowerEntries]
    exact ⟨Or.inl ⟨hlt, ⟨_, hlen ▸ hle, i2⟩, r2⟩, L / 2 + 1 + 1, L - (L / 2 + 1), by omega,
      by omega, i1, i3, r1, rs⟩
  · rename_i hge
    rw [hk0] at hge
    obtain ⟨i1, i2, i3⟩ := insertEntryInLeaf_exact L _ _ entry r1 hmid2 rs hrid
    have hle := leafSlot_le L _ _ entry.key r1
    rw [r2] at i2
    have hlen : (upperEntries L leaf).length = L - (L / 2 + 1) := by simp [upperEntries]
    exact ⟨Or.inr ⟨Int.not_lt.1 hge, l2, ⟨_, hlen ▸ hle, i2⟩⟩, L / 2 + 1, L - (L / 2 + 1) + 1,
      by omega, by omega, l1, ls, i1, i3⟩

namespace BTreeIndex

/-- Effect of `splitLeafNode` on the pages: the old leaf and the page just
allocated hold the two nodes `splitLeafNodes` computes from the old leaf and an
all-zero image. -/
theorem splitLeafNode_effect (s : BTreeIndex) (p : Nat) (entry : RIDKeyPair)
    (hp : p < s.nextPageNo) :
    ((s.splitLeafNode p entry).1.pages p).asLeaf =
        (splitLeafNodes s.leafOccupancy (s.pages p).asLeaf zeroLeaf s.nextPageNo entry).1 ∧
      ((s.splitLeafNode p entry).1.pages s.nextPageNo).asLeaf =
        (splitLeafNodes s.leafOccupancy (s.pages p).asLeaf zeroLeaf s.nextPageNo entry).2.1 ∧
      (s.splitLeafNode p entry).2 =
        (splitLeafNodes s.leafOccupancy (s.pages p).asLeaf zeroLeaf s.nextPageNo entry).2.2 ∧
      (s.splitLeafNode p entry).1.nextPageNo = s.nextPageNo + 1 ∧
      ∀ x, x ≠ p → x ≠ s.nextPageNo → (s.splitLeafNode p entry).1.pages x = s.pages x := by
  have h1 : p ≠ s.nextPageNo := Nat.ne_of_lt hp
  simp +contextual [splitLeafNode, allocPage, unPinPage, writeLeaf, setAt_ne, h1, h1.symm]

end BTreeIndex

theorem perm_of_insertedInto {α : Type} (e : α) (l l' : List α) (h : InsertedInto e l l') :
    l'.Perm (e :: l) := by
  obtain ⟨i, _, rfl⟩ := h
  have h1 : (l.take i ++ e :: l.drop i).Perm (e :: (l.take i ++ l.drop i)) :=
    List.perm_middle
  rwa [List.take_append_drop] at h1

theorem mem_lowerEntries (L : Nat) (leaf : LeafNodeInt) (x : Int × RecordId)
    (hx : x ∈ lowerEntries L leaf) : ∃ j, j < L / 2 + 1 ∧ x.1 = leaf.keyArray j := by
  simp only [lowerEntries, List.mem_map, List.mem_range] at hx
  obtain ⟨j, hj, rfl⟩ := hx
  exact ⟨j, hj, rfl⟩

theorem mem_upperEntries (L : Nat) (leaf : LeafNodeInt) (x : Int × RecordId)
    (hx : x ∈ upperEntries L leaf) :
    ∃ j, L / 2 + 1 ≤ j ∧ j < L ∧ x.1 = leaf.keyArray j := by
  simp only [upperEntries, List.mem_map, List.mem_range] at hx
  obtain ⟨j, hj, rfl⟩ := hx
  exact ⟨L / 2 + 1 + j, by omega, by omega, rfl⟩

/-- Keys on the two sides of a leaf split, relative to the key in slot `L/2+1`
of the leaf before the split. -/
theorem separator_of_split (L : Nat) (leaf : LeafNodeInt) (q : Nat) (entry : RIDKeyPair)
    (hL : 3 ≤ L) (hfull : PopulatedUpTo L leaf L) (hsorted : KeysAscending leaf L)
    (hrid : entry.rid.page_number ≠ 0) :
    (∀ x ∈ populated L (splitLeafNodes L leaf zeroLeaf q entry).1,
        x.1 ≤ leaf.keyArray (L / 2 + 1)) ∧
      (leaf.keyArray (L / 2) < leaf.keyArray (L / 2 + 1) →
        ∀ x ∈ populated L (splitLeafNodes L leaf zeroLeaf q entry).1,
          x.1 < leaf.keyArray (L / 2 + 1)) ∧
      (∀ x ∈ populated L (splitLeafNodes L leaf zeroLeaf q entry).2.1,
        leaf.keyArray (L / 2 + 1) ≤ x.1) := by
  have hlow : ∀ x ∈ lowerEntries L leaf, x.1 ≤ leaf.keyArray (L / 2) := by
    intro x hx
    obtain ⟨j, hj, e⟩ := mem_lowerEntries L leaf x hx
    rw [e]
    exact hsorted (L / 2) (by omega) j (by omega)
  have hstep : leaf.keyArray (L / 2) ≤ leaf.keyArray (L / 2 + 1) :=
    hsorted (L / 2 + 1) (by omega) (L / 2) (by omega)
  have hup : ∀ x ∈ upperEntries L leaf, leaf.keyArray (L / 2 + 1) ≤ x.1 := by
    intro x hx
    obtain ⟨j, hj1, hj2, e⟩ := mem_upperEntries L leaf x hx
    rw [e]
    exact hsorted j hj2 (L / 2 + 1) hj1
  rcases (splitLeafNodes_exact L leaf q entry hL hfull hsorted hrid).1 with
    ⟨hlt, hins, hr⟩ | ⟨hge, hl, hins⟩
  · refine ⟨?_, ?_, ?_⟩
    · intro x hx
      rcases mem_of_insertedInto _ x _ _ hins hx with rfl | h
      · exact Int.le_of_lt hlt
      · exact Int.le_trans (hlow x h) hstep
    · intro hstrict x hx
      rcases mem_of_insertedInto _ x _ _ hins hx with rfl | h
      · exact hlt
      · exact Int.lt_of_le_of_lt (hlow x h) hstrict
    · intro x hx
      rw [hr] at hx
      exact hup x hx
  · refine ⟨?_, ?_, ?_⟩
    · intro x hx
      rw [hl] at hx
      exact Int.le_trans (hlow x hx) hstep
    · intro hstrict x hx
      rw [hl] at hx
      exact Int.lt_of_le_of_lt (hlow x hx) hstrict
    · intro x hx
      rcases mem_of_insertedInto _ x _ _ hins hx with rfl | h
      · exact hge
      · exact hup x h

/-! ### Pin accounting along the insert path -/

namespace BTreeIndex

theorem Pins_of_eq (s t : BTreeIndex) (base : Nat → Nat) (held : Multiset Nat) (b : Nat)
    (h1 : t.pinCnt = s.pinCnt) (h2 : t.badUnpins = s.badUnpins) (h : Pins s base held b) :
    Pins t base held b := by
  obtain ⟨hp, hb⟩ := h
  exact ⟨fun x => by rw [h1]; exact hp x, by rw [h2]; exact hb⟩

theorem Pins_readPage (s : BTreeIndex) (p : Nat) (base : Nat → Nat) (held : Multiset Nat)
    (b : Nat) (h : Pins s base held b) : Pins (s.readPage p) base (p ::ₘ held) b := by
  obtain ⟨hp, hb⟩ := h
  refine ⟨fun x => ?_, hb⟩
  by_cases hx : x = p
  · subst hx
    simp [readPage, hp x]
    omega
  · simp [readPage, setAt_ne, hx, hp x, Multiset.count_cons_of_ne hx]

theorem Pins_allocPage (s : BTreeIndex) (base : Nat → Nat) (held : Multiset Nat)
    (b : Nat) (h : Pins s base held b) : Pins s.allocPage.1 base (s.nextPageNo ::ₘ held) b := by
  obtain ⟨hp, hb⟩ := h
  refine ⟨fun x => ?_, hb⟩
  by_cases hx : x = s.nextPageNo
  · subst hx
    simp [allocPage, hp s.nextPageNo]
    omega
  · simp [allocPage, setAt_ne, hx, hp x, Multiset.count_cons_of_ne hx]

theorem Pins_unPinPage (s : BTreeIndex) (p : Nat) (d : Bool) (base : Nat → Nat)
    (held : Multiset Nat) (b : Nat) (h : Pins s base (p ::ₘ held) b) :
    Pins (s.unPinPage p d) base held b := by
  obtain ⟨hp, hb⟩ := h
  have hpos : s.pinCnt p ≠ 0 := by
    have := hp p
    simp at this
    omega
  refine ⟨fun x => ?_, ?_⟩
  · by_cases hx : x = p
    · subst hx
      have := hp x
      simp at this
      simp [unPinPage, this]
    · simp [unPinPage, setAt_ne, hx, hp x, Multiset.count_cons_of_ne hx]
  · simp [unPinPage, hpos, hb]

theorem Pins_writeLeaf (s : BTreeIndex) (p : Nat) (l : LeafNodeInt) (base : Nat → Nat)
    (held : Multiset Nat) (b : Nat) (h : Pins s base held b) :
    Pins (s.writeLeaf p l) base held b := h

theorem Pins_writeNonLeaf (s : BTreeIndex) (p : Nat) (n : NonLeafNodeInt) (base : Nat → Nat)
    (held : Multiset Nat) (b : Nat) (h : Pins s base held b) :
    Pins (s.writeNonLeaf p n) base held b := h

theorem Pins_writeMeta (s : BTreeIndex) (p : Nat) (m : IndexMetaInfo) (base : Nat → Nat)
    (held : Multiset Nat) (b : Nat) (h : Pins s base held b) :
    Pins (s.writeMeta p m) base held b := h

theorem Pins_splitLeafNode (s : BTreeIndex) (p : Nat) (entry : RIDKeyPair) (base : Nat → Nat)
    (held : Multiset Nat) (b : Nat) (h : Pins s base held b) :
    Pins (s.splitLeafNode p entry).1 base held b := by
  unfold splitLeafNode
  exact Pins_unPinPage _ _ _ _ _ _
    (Pins_writeLeaf _ _ _ _ _ _ (Pins_writeLeaf _ _ _ _ _ _ (Pins_allocPage s base held b h)))

theorem Pins_splitNonLeafNode (s : BTreeIndex) (p : Nat) (entry : PageKeyPair)
    (base : Nat → Nat) (held : Multiset Nat) (b : Nat) (h : Pins s base held b) :
    Pins (s.splitNonLeafNode p entry).1 base held b := by
  unfold splitNonLeafNode
  exact Pins_unPinPage _ _ _ _ _ _
    (Pins_writeNonLeaf _ _ _ _ _ _
      (Pins_writeNonLeaf _ _ _ _ _ _ (Pins_allocPage s base held b h)))

theorem Pins_makeNewRootNode (s : BTreeIndex) (pid : Nat) (pageKey : PageKeyPair)
    (setlevel : Bool) (base : Nat → Nat) (held : Multiset Nat) (b : Nat)
    (h : Pins s base held b) : Pins (s.makeNewRootNode pid pageKey setlevel) base held b := by
  have h1 := Pins_readPage _ s.headerPageNum _ _ _ (Pins_allocPage s base held b h)
  rw [Multiset.cons_swap] at h1
  have h2 := Pins_unPinPage _ s.headerPageNum true _ _ _
    (Pins_unPinPage _ s.nextPageNo true _ _ _ h1)
  refine Pins_of_eq _ _ _ _ _ ?_ ?_ h2
  · simp only [makeNewRootNode, allocPage, readPage, unPinPage, writeNonLeaf, writeMeta]
  · simp only [makeNewRootNode, allocPage, readPage, unPinPage, writeNonLeaf, writeMeta]

theorem Pins_lookupLeafLevelOne (s : BTreeIndex) (curr child : Nat) (entry : RIDKeyPair)
    (base : Nat → Nat) (held : Multiset Nat) (b : Nat) (h : Pins s base (curr ::ₘ held) b) :
    Pins (s.lookupLeafLevelOne curr child entry) base held b := by
  unfold lookupLeafLevelOne
  have h1 := Pins_readPage s child base _ b h
  refine Pins_unPinPage _ _ _ _ _ _ (Pins_unPinPage _ _ _ _ _ _ ?_)
  simp only
  split
  · exact h1
  · have h2 := Pins_splitLeafNode (s.readPage child) child entry base _ b h1
    split
    · exact h2
    · exact h2

theorem Pins_lookupLeafBackUp (s : BTreeIndex) (curr : Nat) (nip ip : PageKeyPair)
    (base : Nat → Nat) (held : Multiset Nat) (b : Nat) (h : Pins s base held b) :
    Pins (s.lookupLeafBackUp curr nip ip).1 base held b := by
  unfold lookupLeafBackUp
  have h1 := Pins_readPage s curr base _ b h
  refine Pins_unPinPage _ _ _ _ _ _ ?_
  simp only
  split
  · split
    · exact h1
    · exact Pins_splitNonLeafNode _ _ _ _ _ _ h1
  · exact h1

theorem Pins_lookupLeaf (base : Nat → Nat) (held : Multiset Nat) (b : Nat) (fuel : Nat) :
    ∀ (s : BTreeIndex) (curr : Nat) (entry : RIDKeyPair) (ip : PageKeyPair)
      (r : BTreeIndex × PageKeyPair),
      lookupLeaf fuel s curr entry ip = some r → Pins s base held b → Pins r.1 base held b := by
  induction fuel with
  | zero =>
    intro s curr entry ip r hr
    simp [lookupLeaf] at hr
  | succ fuel ih =>
    intro s curr entry ip r hr h
    have h1 := Pins_readPage s curr base held b h
    unfold lookupLeaf at hr
    simp only at hr
    split at hr
    · obtain rfl := Option.some.inj hr
      exact Pins_lookupLeafLevelOne _ _ _ _ _ _ _ h1
    · have h2 := Pins_unPinPage _ curr false _ _ _ h1
      split at hr
      · exact absurd hr (by simp)
      · rename_i s' nip heq
        obtain rfl := Option.some.inj hr
        exact Pins_lookupLeafBackUp _ _ _ _ _ _ _ (ih _ _ _ _ _ heq h2)

theorem Pins_insertLeafAtNode (s : BTreeIndex) (entry : RIDKeyPair) (base : Nat → Nat)
    (held : Multiset Nat) (b : Nat) (h : Pins s base held b) :
    Pins (s.insertLeafAtNode entry) base held b := by
  unfold insertLeafAtNode
  have h1 := Pins_readPage s s.rootPageNum base held b h
  refine Pins_unPinPage _ _ _ _ _ _ ?_
  simp only
  split
  · exact h1
  · exact Pins_makeNewRootNode _ _ _ _ _ _ _ (Pins_splitLeafNode _ _ _ _ _ _ h1)

theorem Pins_insertEntry (fuel : Nat) (s : BTreeIndex) (key : Int) (rid : RecordId)
    (r : BTreeIndex × Outcome Unit) (base : Nat → Nat) (held : Multiset Nat) (b : Nat)
    (hr : s.insertEntry fuel key rid = some r) (h : Pins s base held b) :
    Pins r.1 base held b := by
  unfold insertEntry at hr
  split at hr
  · split at hr
    · obtain rfl := Option.some.inj hr
      exact h
    · obtain rfl := Option.some.inj hr
      exact Pins_insertLeafAtNode _ _ _ _ _ h
  · split at hr
    · obtain rfl := Option.some.inj hr
      exact h
    · simp only at hr
      split at hr
      · exact absurd hr (by simp)
      · rename_i s' ip heq
        obtain rfl := Option.some.inj hr
        have h1 := Pins_lookupLeaf base held b fuel _ _ _ _ _ heq h
        have h2 := Pins_readPage s' s'.rootPageNum base held b h1
        refine Pins_unPinPage _ _ _ _ _ _ ?_
        split
        · exact Pins_makeNewRootNode _ _ _ _ _ _ _ h2
        · exact h2

end BTreeIndex

/-! ### The tree stays at two levels -/

namespace BTreeIndex

theorem Shallow_congr (s s' : BTreeIndex) (h : s'.treeState = s.treeState) (hs : Shallow s) :
    Shallow s' := by
  simp only [treeState, Prod.mk.injEq] at h
  obtain ⟨h1, h2, h3, h4, h5, _, _, h8⟩ := h
  obtain ⟨hint, hhdr, hl, hn⟩ := hs
  refine ⟨h8.trans hint, by rw [h5, h2]; exact hhdr, ?_, ?_⟩
  · rw [h4, h3, h2, h5, h1]; exact hl
  · rw [h4, h3, h2, h1]; exact hn

theorem Shallow_fresh (this : BTreeIndex) (relationName : String) (attrByteOffset : Int)
    (L N : Nat) :
    ∃ s, fresh this relationName attrByteOffset Datatype.INTEGER L N = some s ∧ Shallow s := by
  refine ⟨_, rfl, rfl, ?_, ?_, ?_⟩
  · simp [unPinPage, writeLeaf, writeMeta, allocPage, openFile, cout, BlobFile.empty]
  · intro _
    simp [unPinPage, writeLeaf, writeMeta, allocPage, openFile, cout, BlobFile.empty]
  · intro h
    simp [unPinPage, writeLeaf, writeMeta, allocPage, openFile, cout, BlobFile.empty] at h

theorem Shallow_insertLeafAtNode (s : BTreeIndex) (e : RIDKeyPair) (hs : Shallow s)
    (hleaf : s.is_root_leaf = true) : Shallow (s.insertLeafAtNode e) := by
  obtain ⟨hint, hhdr, hl, _⟩ := hs
  obtain ⟨hroot, h2, hh2, l, hl2⟩ := hl hleaf
  by_cases hfull : ((s.pages s.rootPageNum).asLeaf.ridArray (s.leafOccupancy - 1)).page_number = 0
  · obtain ⟨e1, e2, e3, e4, e5, _, _, e8⟩ := insertLeafAtNode_room s e hfull
    refine ⟨e8.trans hint, by rw [e5, e2]; exact hhdr, ?_, ?_⟩
    · intro _
      rw [e3, e2, e5, e1, hroot]
      exact ⟨rfl, h2, hh2, _, setAt_same _ _ _⟩
    · intro h
      rw [e4, hleaf] at h
      exact absurd h (by simp)
  · obtain ⟨_, _, e3, e4, _, e6, e7, e8, e9, _, _, e12⟩ :=
      insertLeafAtNode_full s e hfull (by omega) hhdr (by omega)
    refine ⟨e12.trans hint, by rw [e9, e6]; omega, ?_, ?_⟩
    · intro h
      rw [e8] at h
      exact absurd h (by simp)
    · intro _
      rw [e7, e6]
      refine ⟨by omega, ((s.insertLeafAtNode e).pages (s.nextPageNo + 1)).asNonLeaf, ?_, e3, ?_⟩
      · have := e3
        cases hp : (s.insertLeafAtNode e).pages (s.nextPageNo + 1) with
        | nonLeaf n => rfl
        | blank => rw [hp] at this; simp [Page.asNonLeaf, zeroNonLeaf] at this
        | header m => rw [hp] at this; simp [Page.asNonLeaf, zeroNonLeaf] at this
        | leaf m => rw [hp] at this; simp [Page.asNonLeaf, zeroNonLeaf] at this
      · intro i
        rw [e4]
        simp only [setAt]
        split
        · omega
        · split
          · omega
          · omega

theorem Shallow_lookupLeafLevelOne (s : BTreeIndex) (key : Int) (rid : RecordId)
    (hs : Shallow s) (hleaf : s.is_root_leaf = false) :
    Shallow (s.lookupLeafLevelOne s.rootPageNum
      ((s.pages s.rootPageNum).asNonLeaf.pageNoArray
        (childSlot s.nodeOccupancy (s.pages s.rootPageNum).asNonLeaf key)) ⟨rid, key⟩) := by
  obtain ⟨hint, hhdr, _, hn⟩ := hs
  obtain ⟨hroot, n, hp, hlevel, hch⟩ := hn hleaf
  have hn' : (s.pages s.rootPageNum).asNonLeaf = n := by rw [hp]; rfl
  rw [hn']
  generalize hc : n.pageNoArray (childSlot s.nodeOccupancy n key) = child
  have hcne : child ≠ s.rootPageNum := hc ▸ (hch _).1
  have hclt : child < s.nextPageNo := hc ▸ (hch _).2
  by_cases hfull : ((s.pages child).asLeaf.ridArray (s.leafOccupancy - 1)).page_number = 0
  · obtain ⟨e1, e2, e3, e4, e5, _, _, e8⟩ :=
      lookupLeafLevelOne_room s s.rootPageNum child ⟨rid, key⟩ hfull
    refine ⟨e8.trans hint, by rw [e5, e2]; exact hhdr, ?_, ?_⟩
    · intro h
      rw [e4, hleaf] at h
      exact absurd h (by simp)
    · intro _
      rw [e3, e2, e1, setAt_ne _ _ (Ne.symm hcne)]
      exact ⟨hroot, n, hp, hlevel, hch⟩
  · obtain ⟨_, _, e3, _, e5, e6, e7, e8, _, _, e11⟩ :=
      lookupLeafLevelOne_full s s.rootPageNum child ⟨rid, key⟩ hfull hclt hroot hcne
    refine ⟨e11.trans hint, by rw [e8, e5]; omega, ?_, ?_⟩
    · intro h
      rw [e7, hleaf] at h
      exact absurd h (by simp)
    · intro _
      rw [e6, e5]
      refine ⟨by omega, ?_⟩
      rcases e3 with e3 | e3
      · rw [e3]
        exact ⟨n, hp, hlevel, fun i => ⟨(hch i).1, by have := (hch i).2; omega⟩⟩
      · rw [e3]
        refine ⟨_, rfl, ?_, ?_⟩
        · rw [insertEntryInNonLeaf_level, hn']
          exact hlevel
        · intro i
          rcases insertEntryInNonLeaf_children s.leafOccupancy (s.pages s.rootPageNum).asNonLeaf
            (splitLeafNodes s.leafOccupancy (s.pages child).asLeaf zeroLeaf s.nextPageNo
              ⟨rid, key⟩).2.2 i with h | ⟨j, h⟩
          · rw [h, splitLeafNodes_pageNo]
            omega
          · rw [h, hn']
            exact ⟨(hch j).1, by have := (hch j).2; omega⟩

/-- On a level-1 root `lookupLeaf` runs its level-1 branch and hands back the
pair it was given; `insertEntry` then makes no new root. -/
theorem insertEntry_noPromotion (fuel : Nat) (s : BTreeIndex) (key : Int) (rid : RecordId)
    (hfuel : 1 ≤ fuel) (hleaf : s.is_root_leaf = false)
    (hint : s.attributeType = Datatype.INTEGER)
    (hlevel : (s.pages s.rootPageNum).asNonLeaf.level = 1) :
    lookupLeaf fuel s s.rootPageNum ⟨rid, key⟩ ⟨0, key⟩ =
        some ((s.readPage s.rootPageNum).lookupLeafLevelOne s.rootPageNum
          ((s.pages s.rootPageNum).asNonLeaf.pageNoArray
            (childSlot s.nodeOccupancy (s.pages s.rootPageNum).asNonLeaf key)) ⟨rid, key⟩,
          ⟨0, key⟩) ∧
      s.insertEntry fuel key rid =
        some ((((s.readPage s.rootPageNum).lookupLeafLevelOne s.rootPageNum
          ((s.pages s.rootPageNum).asNonLeaf.pageNoArray
            (childSlot s.nodeOccupancy (s.pages s.rootPageNum).asNonLeaf key))
              ⟨rid, key⟩).readPage s.rootPageNum).unPinPage s.rootPageNum true,
          Outcome.returned ()) := by
  obtain ⟨f, hf⟩ : ∃ f, fuel = f + 1 := ⟨fuel - 1, by omega⟩
  subst hf
  have h := lookupLeaf_level1 f s s.rootPageNum ⟨rid, key⟩ ⟨0, key⟩ hlevel
  refine ⟨h, ?_⟩
  have hr : ((s.readPage s.rootPageNum).lookupLeafLevelOne s.rootPageNum
      ((s.pages s.rootPageNum).asNonLeaf.pageNoArray
        (childSlot s.nodeOccupancy (s.pages s.rootPageNum).asNonLeaf key))
          ⟨rid, key⟩).rootPageNum = s.rootPageNum := by
    unfold lookupLeafLevelOne
    simp only [unPinPage, readPage, writeLeaf, writeNonLeaf, splitLeafNode, allocPage]
    split
    · rfl
    · split <;> rfl
  unfold insertEntry
  simp only [hleaf, hint, h]
  simp [hr]

theorem Shallow_insertEntry (s : BTreeIndex) (key : Int) (rid : RecordId) (fuel : Nat)
    (hfuel : 1 ≤ fuel) (hs : Shallow s) :
    ∃ s', s.insertEntry fuel key rid = some (s', Outcome.returned ()) ∧ Shallow s' := by
  by_cases hleaf : s.is_root_leaf = true
  · exact ⟨_, insertEntry_rootLeaf fuel s key rid hleaf hs.int,
      Shallow_insertLeafAtNode s ⟨rid, key⟩ hs hleaf⟩
  · have hleaf' : s.is_root_leaf = false := by simpa using hleaf
    obtain ⟨f, hf⟩ : ∃ f, fuel = f + 1 := ⟨fuel - 1, by omega⟩
    subst hf
    obtain ⟨_, n, hp, hlevel, _⟩ := hs.nodeRoot hleaf'
    have hlevel' : (s.pages s.rootPageNum).asNonLeaf.level = 1 := by rw [hp]; exact hlevel
    obtain ⟨s', h1, h2⟩ := insertEntry_levelOneRoot f s key rid hleaf' hs.int hlevel'
    refine ⟨s', h1, Shallow_congr _ s' h2 ?_⟩
    have hs1 : Shallow (s.readPage s.rootPageNum) := Shallow_congr s _ rfl hs
    exact Shallow_lookupLeafLevelOne (s.readPage s.rootPageNum) key rid hs1 hleaf'

theorem Shallow_insertAll (fuel : Nat) (hfuel : 1 ≤ fuel) (entries : List (Int × RecordId)) :
    ∀ s : BTreeIndex, Shallow s → ∃ s', insertAll fuel s entries = some s' ∧ Shallow s' := by
  induction entries with
  | nil =>
    intro s hs
    exact ⟨s, rfl, hs⟩
  | cons e rest ih =>
    intro s hs
    obtain ⟨key, rid⟩ := e
    obtain ⟨s1, h1, h2⟩ := Shallow_insertEntry s key rid fuel hfuel hs
    obtain ⟨s2, h3, h4⟩ := ih s1 h2
    exact ⟨s2, by simp [insertAll, h1, h3], h4⟩

theorem TwoLevels_of_shallow (s : BTreeIndex) (hs : Shallow s) : TwoLevels s := by
  by_cases hleaf : s.is_root_leaf = true
  · obtain ⟨h1, _, _, h4⟩ := hs.leafRoot hleaf
    exact Or.inl ⟨hleaf, h1, h4⟩
  · have hleaf' : s.is_root_leaf = false := by simpa using hleaf
    obtain ⟨_, n, hp, hlevel, _⟩ := hs.nodeRoot hleaf'
    exact Or.inr ⟨hleaf', n, hp, hlevel⟩

end BTreeIndex

/-! ## Properties -/

namespace BTreeIndex

/-- C1 (code defect): on a freshly created Integer index, after `insertEntry(k, r)`
the call `startScan(k, GTE, k, LTE)` does not succeed: it raises
`BadOpcodesException`, for every key, record id and fan-out, so no `scanNext`
can hand back `r`. -/
theorem insert_then_startScan_raises_BadOpcodes (this : BTreeIndex) (relationName : String)
    (attrByteOffset : Int) (L N fuel : Nat) (k : Int) (r : RecordId) (lowAddr highAddr : Nat) :
    ∃ s0 s1 s2, fresh this relationName attrByteOffset Datatype.INTEGER L N = some s0 ∧
      s0.insertEntry fuel k r = some (s1, Outcome.returned ()) ∧
      startScan L N fuel s1 ⟨lowAddr, k⟩ Operator.GTE ⟨highAddr, k⟩ Operator.LTE =
        some (s2, Outcome.raised Exc.BadOpcodesException) := by
  obtain ⟨s0, h0, hleaf, hint⟩ :=
    fresh_isSome this relationName attrByteOffset Datatype.INTEGER L N
  exact ⟨s0, _, _, h0, insertEntry_rootLeaf fuel s0 k r hleaf hint, startScan_eq _ _ _ _ _ _ _ _⟩

/-- C2 (code defect): with fan-outs `L = N = 3`, inserting the keys 0, 1, ..., 10 in
ascending order into a fresh Integer index leaves the sibling chain from page 2
ending at page id 0 but reading the keys 0..7, 10, 8, 9, which is not in
non-decreasing order. -/
theorem leaf_chain_order_violated :
    ∃ ks, ((fresh zeroObject "rel" 0 Datatype.INTEGER 3 3).bind
        (fun s => insertAll 1 s (ascending 0 11))).bind chainKeys = some ks ∧
      ¬ ks.Sorted (fun a b => a ≤ b) :=
  ⟨[0, 1, 2, 3, 4, 5, 6, 7, 10, 8, 9], by decide, by decide⟩

/-- C3: for fan-outs `3 ≤ L ≤ N` and every sequence of `insertEntry` calls with
rids of non-zero page number on a freshly created Integer index, every call
returns, and afterwards following `rightSibPageNo` from page 2 reaches page id 0
and the populated slots of the leaves met hold exactly the inserted pairs, as a
multiset (a permutation of the list of inserted pairs): none is lost, none
appears twice. -/
theorem leaf_chain_complete (L N : Nat) (hL : 3 ≤ L) (_hLN : L ≤ N) (this : BTreeIndex)
    (relationName : String) (attrByteOffset : Int) (entries : List (Int × RecordId))
    (hrid : ∀ e ∈ entries, e.2.page_number ≠ 0) (fuel : Nat) (hfuel : 1 ≤ fuel) :
    ∃ s0 s found, fresh this relationName attrByteOffset Datatype.INTEGER L N = some s0 ∧
      insertAll fuel s0 entries = some s ∧
      s.chainEntries = some found ∧ found.Perm entries := by
  obtain ⟨s0, h0, hinv0⟩ := Inv_fresh this relationName attrByteOffset L N
  obtain ⟨s, h1, hinv⟩ := Inv_insertAll L N fuel hL hfuel entries s0 [] hinv0 hrid
  obtain ⟨found, h2, h3⟩ := Inv_chainEntries L N s _ hinv
  refine ⟨s0, s, found, h0, h1, h2, h3.trans ?_⟩
  simp

/-- C3, witness: fan-outs 3 and the keys 0, 1, ..., 10 inserted in ascending
order. -/
theorem leaf_chain_complete_witness :
    ∃ s0 s found, fresh zeroObject "rel" 0 Datatype.INTEGER 3 3 = some s0 ∧
      insertAll 1 s0 (ascending 0 11) = some s ∧
      s.chainEntries = some found ∧ found.Perm (ascending 0 11) :=
  leaf_chain_complete 3 3 (by decide) (by decide) zeroObject "rel" 0 (ascending 0 11)
    (by decide) 1 (by decide)

/-- C4 (code defect): `startScan` raises `BadOpcodesException` on every call,
whatever the operators are, also for `lowOp` in GT, GTE and `highOp` in LT, LTE. -/
theorem startScan_always_raises_BadOpcodes (L N fuel : Nat) (s : BTreeIndex)
    (lowValParm : VoidPtr) (lowOpParm : Operator) (highValParm : VoidPtr)
    (highOpParm : Operator) :
    (startScan L N fuel s lowValParm lowOpParm highValParm highOpParm).map Prod.snd =
      some (Outcome.raised Exc.BadOpcodesException) := by
  rw [startScan_eq]; rfl

/-- C5 (code defect): `startScan` never raises `BadScanrangeException`, whatever
the bounds and operators are, so not for `highVal < lowVal` either. -/
theorem startScan_never_raises_BadScanrange (L N fuel : Nat) (s : BTreeIndex)
    (lowValParm : VoidPtr) (lowOpParm : Operator) (highValParm : VoidPtr)
    (highOpParm : Operator) :
    (startScan L N fuel s lowValParm lowOpParm highValParm highOpParm).map Prod.snd ≠
      some (Outcome.raised Exc.BadScanrangeException) := by
  rw [startScan_eq]; simp

/-- C6: with a scan active, current leaf `leaf` and `nextEntry = e < L`: under
`highOp = LT`, `scanNext` returns `leaf.rids[e]` and sets `nextEntry` to `e + 1`
when `leaf.keys[e] < highVal`, and raises `IndexScanCompletedException` when
`leaf.keys[e] ≥ highVal`; under `highOp = LTE` the same with `≤` and `>`. -/
theorem scanNext_step (L : Nat) (s : BTreeIndex) (leaf : LeafNodeInt) (e : Nat)
    (hactive : s.scanExecuting = true)
    (hleaf : (s.pages s.currentPageData).asLeaf = leaf)
    (hnext : s.nextEntry = (e : Int)) (_he : e < L) :
    (s.highOp = Operator.LT →
      (leaf.keyArray e < s.highValInt →
        (scanNext L s).2 = Outcome.returned (leaf.ridArray e) ∧
        (scanNext L s).1.nextEntry = (e : Int) + 1) ∧
      (leaf.keyArray e ≥ s.highValInt →
        (scanNext L s).2 = Outcome.raised Exc.IndexScanCompletedException)) ∧
    (s.highOp = Operator.LTE →
      (leaf.keyArray e ≤ s.highValInt →
        (scanNext L s).2 = Outcome.returned (leaf.ridArray e) ∧
        (scanNext L s).1.nextEntry = (e : Int) + 1) ∧
      (leaf.keyArray e > s.highValInt →
        (scanNext L s).2 = Outcome.raised Exc.IndexScanCompletedException)) := by
  subst hleaf
  have hadv : ∀ t : BTreeIndex, ∀ p, (scanNextAdvance L t p).nextEntry = t.nextEntry := by
    intro t p
    unfold scanNextAdvance
    split <;> rfl
  refine ⟨fun hop => ⟨fun hk => ?_, fun hk => ?_⟩, fun hop => ⟨fun hk => ?_, fun hk => ?_⟩⟩
  · simp [scanNext, hactive, hop, hnext, hk, hadv]
  · simp [scanNext, hactive, hop, hnext, not_lt.mpr hk]
  · simp [scanNext, hactive, hop, hnext, hk, hadv]
  · simp [scanNext, hactive, hop, hnext, not_le.mpr hk]

/-- C6, witness: the cursor `cursorExample` (slot 0 holds key 0, bound `LT 10`)
gets rid `(1, 0)` and moves to slot 1. -/
theorem scanNext_step_witness :
    cursorExample.scanExecuting = true ∧
      (scanNext 3 cursorExample).2 = Outcome.returned ⟨1, 0⟩ ∧
      (scanNext 3 cursorExample).1.nextEntry = 1 :=
  ⟨rfl, ((scanNext_step 3 cursorExample _ 0 rfl rfl rfl (by decide)).1 rfl).1 (by decide)⟩

/-- C7: while no scan is active, `scanNext` and `endScan` raise
`ScanNotInitializedException` and leave the state as it is; while a scan is
active, `endScan` returns normally and leaves the flag false, so that a second
`endScan` raises `ScanNotInitializedException`. -/
theorem scan_not_initialized (L : Nat) (s : BTreeIndex) :
    (s.scanExecuting = false →
      scanNext L s = (s, Outcome.raised Exc.ScanNotInitializedException) ∧
      endScan s = (s, Outcome.raised Exc.ScanNotInitializedException)) ∧
    (s.scanExecuting = true →
      (endScan s).2 = Outcome.returned () ∧ (endScan s).1.scanExecuting = false ∧
      (endScan (endScan s).1).2 = Outcome.raised Exc.ScanNotInitializedException) := by
  constructor
  · intro h
    simp [scanNext, endScan, h]
  · intro h
    simp [endScan, h]

/-- C7, witness: `zeroObject` has no scan active, `cursorExample` has one. -/
theorem scan_not_initialized_witness :
    (scanNext 3 zeroObject).2 = Outcome.raised Exc.ScanNotInitializedException ∧
      (endScan cursorExample).2 = Outcome.returned () ∧
      (endScan (endScan cursorExample).1).2 = Outcome.raised Exc.ScanNotInitializedException :=
  ⟨congrArg Prod.snd ((scan_not_initialized 3 zeroObject).1 rfl).1,
    ((scan_not_initialized 3 cursorExample).2 rfl).1,
    ((scan_not_initialized 3 cursorExample).2 rfl).2.2⟩

/-- C8, counterexample: on a freshly created Double index, `insertEntry(5, (1, 0))`
returns normally; it does not surface an error. -/
theorem double_index_insert_returns_normally :
    ((fresh zeroObject "rel" 0 Datatype.DOUBLE 3 3).bind
      (fun s => s.insertEntry 1 5 ⟨1, 0⟩)).map Prod.snd = some (Outcome.returned ()) := by
  decide

/-- C8, amended: on an index whose attribute type is not Integer, `insertEntry`
returns normally, raises nothing, leaves every page unchanged and only writes
the line "NON INTEGER TYPE INDEX NOT SUPPORTED." to standard output. -/
theorem insertEntry_nonInteger (fuel : Nat) (s : BTreeIndex) (key : Int) (rid : RecordId)
    (h : s.attributeType ≠ Datatype.INTEGER) :
    ∃ s', s.insertEntry fuel key rid = some (s', Outcome.returned ()) ∧
      s'.pages = s.pages ∧
      s' = s.cout "NON INTEGER TYPE INDEX NOT SUPPORTED." := by
  refine ⟨_, ?_, ?_, rfl⟩
  · unfold insertEntry
    by_cases hl : s.is_root_leaf = true <;> simp [hl, h]
  · rfl

/-- C8, witness: the amended statement at the Double index `doubleExample`. -/
theorem insertEntry_nonInteger_witness :
    ∃ s', doubleExample.insertEntry 1 5 ⟨1, 0⟩ = some (s', Outcome.returned ()) ∧
      s'.pages = doubleExample.pages ∧
      s' = doubleExample.cout "NON INTEGER TYPE INDEX NOT SUPPORTED." :=
  insertEntry_nonInteger 1 doubleExample 5 ⟨1, 0⟩ (by decide)

/-- C9 (code defect): when the constructor opens an existing index file, the
root-is-leaf flag is true whatever `rootPageNo` the meta page holds, also when
that is not 2. -/
theorem reopen_flag_always_true (fuel : Nat) (this : BTreeIndex) (relationName : String)
    (attrByteOffset : Int) (attrType : Datatype) (L N : Nat) (file : BlobFile)
    (relation : List (Int × RecordId)) :
    ∃ s name, BTreeIndex.new fuel this relationName attrByteOffset attrType L N (some file)
        relation = some (s, name) ∧
      s.rootPageNum = (file.pages file.firstPageNo).asMeta.rootPageNo ∧
      s.is_root_leaf = true := by
  by_cases h : (file.pages file.firstPageNo).asMeta.rootPageNo = 2
  · refine ⟨_, _, rfl, ?_, ?_⟩ <;>
      simp [unPinPage, readPage, openFile, cout, rootLeafIfPageTwo, h]
  · refine ⟨_, _, rfl, ?_, ?_⟩ <;>
      simp [unPinPage, readPage, openFile, cout, rootLeafIfPageTwo, h]

/-- C10: when `insertEntry` is called on an Integer index whose root is a full leaf
(fan-out `L ≥ 3`; root and header are pages of the file), afterwards the root is
the newly allocated non-leaf page `nextPageNo + 1` with `level = 1`,
`children[0]` the old root page, `children[1]` the new right leaf (page
`nextPageNo`), `keys[0]` the promoted key that `splitLeafNode` handed back, which
is the first key of the new right leaf, every other child slot 0; the
root-is-leaf flag is false, and the cached `rootPageNum` and the meta page's
`rootPageNo` are the new root's page id. -/
theorem insertEntry_root_split (fuel : Nat) (s : BTreeIndex) (key : Int) (rid : RecordId)
    (_hL : 3 ≤ s.leafOccupancy)
    (hleaf : s.is_root_leaf = true) (hint : s.attributeType = Datatype.INTEGER)
    (hfull : ((s.pages s.rootPageNum).asLeaf.ridArray (s.leafOccupancy - 1)).page_number ≠ 0)
    (hroot : s.rootPageNum < s.nextPageNo) (hhdr : s.headerPageNum < s.nextPageNo) :
    ∃ s' newRoot newLeaf,
      s.insertEntry fuel key rid = some (s', Outcome.returned ()) ∧
      s'.pages (s.nextPageNo + 1) = Page.nonLeaf newRoot ∧
      s'.pages s.nextPageNo = Page.leaf newLeaf ∧
      newRoot.level = 1 ∧
      newRoot.pageNoArray 0 = s.rootPageNum ∧
      newRoot.pageNoArray 1 = s.nextPageNo ∧
      newRoot.keyArray 0 = (splitLeafNodes s.leafOccupancy (s.pages s.rootPageNum).asLeaf
        zeroLeaf s.nextPageNo ⟨rid, key⟩).2.2.key ∧
      newRoot.keyArray 0 = newLeaf.keyArray 0 ∧
      (∀ i, 2 ≤ i → newRoot.pageNoArray i = 0) ∧
      s'.is_root_leaf = false ∧
      s'.rootPageNum = s.nextPageNo + 1 ∧
      (s'.pages s'.headerPageNum).asMeta.rootPageNo = s.nextPageNo + 1 := by
  have h1 : s.rootPageNum ≠ s.nextPageNo := Nat.ne_of_lt hroot
  have h2 : s.headerPageNum ≠ s.nextPageNo := Nat.ne_of_lt hhdr
  have h3 : s.headerPageNum ≠ s.nextPageNo + 1 := by omega
  rw [insertEntry_rootLeaf fuel s key rid hleaf hint]
  refine ⟨_, (((s.insertLeafAtNode ⟨rid, key⟩).pages (s.nextPageNo + 1)).asNonLeaf),
    (((s.insertLeafAtNode ⟨rid, key⟩).pages s.nextPageNo).asLeaf), rfl, ?_⟩
  have h4 : s.nextPageNo ≠ s.nextPageNo + 1 := by omega
  have h5 : ∀ i, 2 ≤ i → i ≠ 0 ∧ i ≠ 1 := by intro i hi; omega
  simp +contextual [splitLeafNodes_pageNo, splitLeafNodes_key, insertLeafAtNode, splitLeafNode,
    makeNewRootNode, allocPage, readPage, unPinPage, writeLeaf, writeNonLeaf, writeMeta, hfull,
    setAt_ne, h1, h2, h3, h4, h1.symm, h2.symm, h3.symm, h4.symm, zeroNonLeaf, h5]

/-- C10, witness: the fourth insert (key 3) into a fresh index with fan-outs 3
that holds the keys 0, 1, 2. -/
theorem insertEntry_root_split_witness :
    fullRootExample.is_root_leaf = true ∧
    ∃ s' newRoot newLeaf,
      fullRootExample.insertEntry 1 3 ⟨1, 3⟩ = some (s', Outcome.returned ()) ∧
      s'.pages (fullRootExample.nextPageNo + 1) = Page.nonLeaf newRoot ∧
      s'.pages fullRootExample.nextPageNo = Page.leaf newLeaf ∧
      newRoot.level = 1 ∧
      newRoot.pageNoArray 0 = fullRootExample.rootPageNum ∧
      newRoot.pageNoArray 1 = fullRootExample.nextPageNo ∧
      newRoot.keyArray 0 = (splitLeafNodes fullRootExample.leafOccupancy
        (fullRootExample.pages fullRootExample.rootPageNum).asLeaf
        zeroLeaf fullRootExample.nextPageNo ⟨⟨1, 3⟩, 3⟩).2.2.key ∧
      newRoot.keyArray 0 = newLeaf.keyArray 0 ∧
      (∀ i, 2 ≤ i → newRoot.pageNoArray i = 0) ∧
      s'.is_root_leaf = false ∧
      s'.rootPageNum = fullRootExample.nextPageNo + 1 ∧
      (s'.pages s'.headerPageNum).asMeta.rootPageNo = fullRootExample.nextPageNo + 1 :=
  ⟨by decide, insertEntry_root_split 1 fullRootExample 3 ⟨1, 3⟩ (by decide) (by decide)
    (by decide) (by decide) (by decide) (by decide)⟩

/-- C11: for every leaf fan-out `L ≥ 3` and every full leaf (all `L` slots
populated) on a page `p` of the file, whatever the new entry: the pair that
`splitLeafNode` hands back carries the key of slot `L/2+1` of the leaf before the
split, and this is the key of slot 0 of the new right leaf as it stands after the
entry has been put in; the page of the pair is the page just allocated. The
order of the keys is not needed for this. -/
theorem splitLeafNode_promoted_key (s : BTreeIndex) (p : Nat) (entry : RIDKeyPair)
    (hL : 3 ≤ s.leafOccupancy) (hp : p < s.nextPageNo)
    (hfull : PopulatedUpTo s.leafOccupancy (s.pages p).asLeaf s.leafOccupancy) :
    (s.splitLeafNode p entry).2.key =
        (s.pages p).asLeaf.keyArray (s.leafOccupancy / 2 + 1) ∧
      (s.splitLeafNode p entry).2.key =
        ((s.splitLeafNode p entry).1.pages (s.splitLeafNode p entry).2.pageNo).asLeaf.keyArray 0 ∧
      (s.splitLeafNode p entry).2.pageNo = s.nextPageNo := by
  obtain ⟨_, e2, e3, _, _⟩ := splitLeafNode_effect s p entry hp
  have hrid : ((s.pages p).asLeaf.ridArray (s.leafOccupancy / 2 + 1)).page_number ≠ 0 :=
    (hfull.2 _ (by omega)).2 (by omega)
  have hno : (s.splitLeafNode p entry).2.pageNo = s.nextPageNo := by
    rw [e3, splitLeafNodes_pageNo]
  refine ⟨?_, ?_, hno⟩
  · rw [e3]
    exact splitLeafNodes_promoted _ _ _ _ _ hL hrid
  · rw [hno, e2, e3]
    exact splitLeafNodes_key _ _ _ _ _

/-- C11, witness: the full root leaf with the keys 0, 1, 2 (fan-outs 3) and the new
entry with key 3. -/
theorem splitLeafNode_promoted_key_witness :
    (fullRootExample.splitLeafNode 2 ⟨⟨1, 3⟩, 3⟩).2.key =
        (fullRootExample.pages 2).asLeaf.keyArray (fullRootExample.leafOccupancy / 2 + 1) ∧
      (fullRootExample.splitLeafNode 2 ⟨⟨1, 3⟩, 3⟩).2.key =
        ((fullRootExample.splitLeafNode 2 ⟨⟨1, 3⟩, 3⟩).1.pages
          (fullRootExample.splitLeafNode 2 ⟨⟨1, 3⟩, 3⟩).2.pageNo).asLeaf.keyArray 0 ∧
      (fullRootExample.splitLeafNode 2 ⟨⟨1, 3⟩, 3⟩).2.pageNo = fullRootExample.nextPageNo :=
  splitLeafNode_promoted_key fullRootExample 2 ⟨⟨1, 3⟩, 3⟩ (by decide) (by decide) (by decide)

/-- C12: pin balance of `insertEntry`. The buffer pool is a pin count per page:
`readPage` and `allocPage` add one pin, `unPinPage` takes one away and counts in
`badUnpins` every call on a page without a pin. Whenever `insertEntry` returns,
from any state and on any of its paths (root leaf, level-1 node, recursion; with
or without a split or a new root), every page has the pin count it had before the
call and `badUnpins` has not moved. In every state reached by inserts into a
fresh index the call does return, for any fuel of at least 1. -/
theorem insertEntry_pin_balance (fuel : Nat) (s : BTreeIndex) (key : Int) (rid : RecordId) :
    (∀ r, s.insertEntry fuel key rid = some r →
        r.1.pinCnt = s.pinCnt ∧ r.1.badUnpins = s.badUnpins) ∧
      (∀ L N es, Inv L N s es → 1 ≤ fuel →
        ∃ s', s.insertEntry fuel key rid = some (s', Outcome.returned ())) := by
  constructor
  · intro r hr
    have h0 : Pins s s.pinCnt 0 s.badUnpins := ⟨fun x => by simp, rfl⟩
    obtain ⟨hp, hb⟩ := Pins_insertEntry fuel s key rid r s.pinCnt 0 s.badUnpins hr h0
    exact ⟨funext (fun x => by simpa using hp x), hb⟩
  · intro L N es hinv hfuel
    by_cases hleaf : s.is_root_leaf = true
    · exact ⟨_, insertEntry_rootLeaf fuel s key rid hleaf hinv.int⟩
    · have hleaf' : s.is_root_leaf = false := by simpa using hleaf
      obtain ⟨f, hf⟩ : ∃ f, fuel = f + 1 := ⟨fuel - 1, by omega⟩
      subst hf
      obtain ⟨chain, _, _, _, hrn⟩ := hinv.tree
      obtain ⟨s', h1, _⟩ :=
        insertEntry_levelOneRoot f s key rid hleaf' hinv.int (hrn hleaf').2.2.1
      exact ⟨s', h1⟩

/-- C12, witness: an index whose root is a level-0 node over a level-1 node over
one leaf, so that `insertEntry` goes through the recursion of `lookupLeaf`; the
call returns, the entry is in the leaf, and the pins are as before. -/
theorem insertEntry_pin_balance_witness :
    (deepExample.pages deepExample.rootPageNum).asNonLeaf.level = 0 ∧
      ∃ r, deepExample.insertEntry 2 5 ⟨1, 5⟩ = some r ∧
        populated 3 (r.1.pages 2).asLeaf = [(0, ⟨1, 0⟩), (1, ⟨1, 1⟩), (5, ⟨1, 5⟩)] ∧
        r.1.pinCnt = deepExample.pinCnt ∧ r.1.badUnpins = deepExample.badUnpins := by
  refine ⟨by decide, ?_⟩
  obtain ⟨r, hr⟩ := Option.isSome_iff_exists.1
    (show (deepExample.insertEntry 2 5 ⟨1, 5⟩).isSome = true by decide)
  have hpop : ((deepExample.insertEntry 2 5 ⟨1, 5⟩).map
      (fun r => populated 3 (r.1.pages 2).asLeaf)) =
      some [(0, ⟨1, 0⟩), (1, ⟨1, 1⟩), (5, ⟨1, 5⟩)] := by decide
  rw [hr] at hpop
  exact ⟨r, hr, Option.some.inj hpop, (insertEntry_pin_balance 2 deepExample 5 ⟨1, 5⟩).1 r hr⟩

/-- C13, evaluation of the code: `scanNext` hands out the rid of an unused slot.
In the index with the keys 0, 1, 2, 3 (fan-outs 3) page 2 holds two entries; its
third slot is unused (rid page number 0) and still carries the key 2 from before
the split. With the cursor on that slot and the upper bound `LTE 10`, `scanNext`
returns the rid `(0, 2)`. -/
theorem scanNext_returns_unused_slot :
    sparseCursorExample.scanExecuting = true ∧
    populated 3 (sparseCursorExample.pages sparseCursorExample.currentPageData).asLeaf =
      [(0, ⟨1, 0⟩), (1, ⟨1, 1⟩)] ∧
    sparseCursorExample.nextEntry = 2 ∧
    ((sparseCursorExample.pages sparseCursorExample.currentPageData).asLeaf.ridArray
      2).page_number = 0 ∧
    (scanNext 3 sparseCursorExample).2 = Outcome.returned ⟨0, 2⟩ := by
  decide

/-- C14, evaluation of the code: the move of the cursor to the next leaf. Page 2 is
full (keys 0, 1, 1), its right sibling is page 3 (keys 2, 3), the cursor stands
on the last slot of page 2. `scanNext` returns that slot's rid; afterwards the
current page is not page 3 but the page 5 just allocated, whose leaf view is
empty, and `nextEntry` is 3, not 0. -/
theorem scanNext_advance_allocates :
    lastSlotCursorExample.scanExecuting = true ∧
    populated 3 (lastSlotCursorExample.pages 2).asLeaf =
      [(0, ⟨1, 0⟩), (1, ⟨1, 9⟩), (1, ⟨1, 1⟩)] ∧
    (lastSlotCursorExample.pages 2).asLeaf.rightSibPageNo = 3 ∧
    populated 3 (lastSlotCursorExample.pages 3).asLeaf = [(2, ⟨1, 2⟩), (3, ⟨1, 3⟩)] ∧
    (scanNext 3 lastSlotCursorExample).2 = Outcome.returned ⟨1, 1⟩ ∧
    (scanNext 3 lastSlotCursorExample).1.currentPageNum = 5 ∧
    (scanNext 3 lastSlotCursorExample).1.currentPageData = 5 ∧
    populated 3 ((scanNext 3 lastSlotCursorExample).1.pages 5).asLeaf = [] ∧
    (scanNext 3 lastSlotCursorExample).1.nextEntry = 3 := by
  decide

/-- C15: for every leaf with room (rid page number 0 in its last slot) whose
populated slots are its first `k` slots with keys in non-decreasing order, and
every entry with a non-zero rid page number: after `insertEntryInLeaf` the
populated slots are the first `k + 1`; they hold the old entries with the new one
put in at index `i`, where `i` is the first index whose old key is `≥ key` (`i = k`
when there is none); the keys are again in non-decreasing order and the slots
after index `k` are unused. -/
theorem insertEntryInLeaf_sorted_insert (L k : Nat) (leaf : LeafNodeInt) (entry : RIDKeyPair)
    (hL : 1 ≤ L) (hroom : (leaf.ridArray (L - 1)).page_number = 0)
    (hpop : PopulatedUpTo L leaf k) (hsorted : KeysAscending leaf k)
    (hrid : entry.rid.page_number ≠ 0) :
    ∃ i, i ≤ k ∧ (∀ j, j < i → leaf.keyArray j < entry.key) ∧
      (i < k → entry.key ≤ leaf.keyArray i) ∧
      PopulatedUpTo L (insertEntryInLeaf L leaf entry) (k + 1) ∧
      populated L (insertEntryInLeaf L leaf entry) =
        (populated L leaf).take i ++ (entry.key, entry.rid) :: (populated L leaf).drop i ∧
      KeysAscending (insertEntryInLeaf L leaf entry) (k + 1) ∧
      ∀ j, k < j → j < L → ((insertEntryInLeaf L leaf entry).ridArray j).page_number = 0 := by
  have hk : k < L := populatedUpTo_notFull L k leaf hpop hL hroom
  obtain ⟨h1, h2, h3⟩ := leafSlot_first L k leaf entry.key hpop hk
  obtain ⟨i1, i2, i3⟩ := insertEntryInLeaf_exact L k leaf entry hpop hk hsorted hrid
  refine ⟨leafSlot L leaf entry.key, h1, h2, h3, i1, i2, i3, ?_⟩
  intro j hj hjL
  by_contra hne
  have := (i1.2 j hjL).1 hne
  omega

/-- C15, witness: the leaf with the keys 0, 1 (fan-out 3) and a new entry with
key 1. -/
theorem insertEntryInLeaf_sorted_insert_witness :
    ∃ i, i ≤ 2 ∧ (∀ j, j < i → ((ascendingExample 2).pages 2).asLeaf.keyArray j < 1) ∧
      (i < 2 → (1 : Int) ≤ ((ascendingExample 2).pages 2).asLeaf.keyArray i) ∧
      PopulatedUpTo 3 (insertEntryInLeaf 3 ((ascendingExample 2).pages 2).asLeaf ⟨⟨1, 9⟩, 1⟩) 3 ∧
      populated 3 (insertEntryInLeaf 3 ((ascendingExample 2).pages 2).asLeaf ⟨⟨1, 9⟩, 1⟩) =
        (populated 3 ((ascendingExample 2).pages 2).asLeaf).take i ++
          (1, ⟨1, 9⟩) :: (populated 3 ((ascendingExample 2).pages 2).asLeaf).drop i ∧
      KeysAscending (insertEntryInLeaf 3 ((ascendingExample 2).pages 2).asLeaf ⟨⟨1, 9⟩, 1⟩) 3 ∧
      ∀ j, 2 < j → j < 3 →
        ((insertEntryInLeaf 3 ((ascendingExample 2).pages 2).asLeaf ⟨⟨1, 9⟩, 1⟩).ridArray
          j).page_number = 0 :=
  insertEntryInLeaf_sorted_insert 3 2 ((ascendingExample 2).pages 2).asLeaf ⟨⟨1, 9⟩, 1⟩
    (by decide) (by decide) (by decide) (by decide) (by decide)

/-- C16: for every leaf fan-out `L ≥ 3`, every full leaf with keys in
non-decreasing order on a page `p` of the file and every new entry with a non-zero
rid page number, after `splitLeafNode` (the page it allocates is all zero): the
old entries are those of slots `[0, L/2+1)` followed by those of slots
`[L/2+1, L)`; the left leaf holds the former and the right leaf the latter, one of
the two with the new entry put in; together the two leaves hold the old entries
and the new one, each once; in each leaf the populated slots come first, at least
one of them, with keys in non-decreasing order; the right leaf has the old leaf's
former right sibling, and the old leaf's right sibling is the new page. -/
theorem splitLeafNode_halves (s : BTreeIndex) (p : Nat) (entry : RIDKeyPair)
    (hL : 3 ≤ s.leafOccupancy) (hp : p < s.nextPageNo)
    (hfull : PopulatedUpTo s.leafOccupancy (s.pages p).asLeaf s.leafOccupancy)
    (hsorted : KeysAscending (s.pages p).asLeaf s.leafOccupancy)
    (hrid : entry.rid.page_number ≠ 0) :
    (s.splitLeafNode p entry).2.pageNo = s.nextPageNo ∧
      lowerEntries s.leafOccupancy (s.pages p).asLeaf ++
          upperEntries s.leafOccupancy (s.pages p).asLeaf =
        populated s.leafOccupancy (s.pages p).asLeaf ∧
      ((InsertedInto (entry.key, entry.rid) (lowerEntries s.leafOccupancy (s.pages p).asLeaf)
            (populated s.leafOccupancy ((s.splitLeafNode p entry).1.pages p).asLeaf) ∧
          populated s.leafOccupancy ((s.splitLeafNode p entry).1.pages s.nextPageNo).asLeaf =
            upperEntries s.leafOccupancy (s.pages p).asLeaf) ∨
        (populated s.leafOccupancy ((s.splitLeafNode p entry).1.pages p).asLeaf =
            lowerEntries s.leafOccupancy (s.pages p).asLeaf ∧
          InsertedInto (entry.key, entry.rid) (upperEntries s.leafOccupancy (s.pages p).asLeaf)
            (populated s.leafOccupancy
              ((s.splitLeafNode p entry).1.pages s.nextPageNo).asLeaf))) ∧
      (populated s.leafOccupancy ((s.splitLeafNode p entry).1.pages p).asLeaf ++
          populated s.leafOccupancy ((s.splitLeafNode p entry).1.pages s.nextPageNo).asLeaf).Perm
        ((entry.key, entry.rid) :: populated s.leafOccupancy (s.pages p).asLeaf) ∧
      (∃ k1 k2, 1 ≤ k1 ∧ 1 ≤ k2 ∧
        PopulatedUpTo s.leafOccupancy ((s.splitLeafNode p entry).1.pages p).asLeaf k1 ∧
        KeysAscending ((s.splitLeafNode p entry).1.pages p).asLeaf k1 ∧
        PopulatedUpTo s.leafOccupancy
          ((s.splitLeafNode p entry).1.pages s.nextPageNo).asLeaf k2 ∧
        KeysAscending ((s.splitLeafNode p entry).1.pages s.nextPageNo).asLeaf k2) ∧
      ((s.splitLeafNode p entry).1.pages s.nextPageNo).asLeaf.rightSibPageNo =
        (s.pages p).asLeaf.rightSibPageNo ∧
      ((s.splitLeafNode p entry).1.pages p).asLeaf.rightSibPageNo = s.nextPageNo := by
  obtain ⟨e1, e2, e3, _, _⟩ := splitLeafNode_effect s p entry hp
  obtain ⟨hcases, hpre⟩ :=
    splitLeafNodes_exact s.leafOccupancy (s.pages p).asLeaf s.nextPageNo entry hL hfull hsorted
      hrid
  obtain ⟨s1, s2, _, _, hperm⟩ :=
    splitLeafNodes_spec s.leafOccupancy (s.pages p).asLeaf s.nextPageNo entry hL hfull hrid
  rw [e1, e2, e3]
  refine ⟨splitLeafNodes_pageNo _ _ _ _ _, lower_append_upper _ _ hfull (by omega), ?_, hperm,
    hpre, s2, s1⟩
  rcases hcases with ⟨_, h1, h2⟩ | ⟨_, h1, h2⟩
  · exact Or.inl ⟨h1, h2⟩
  · exact Or.inr ⟨h1, h2⟩

/-- C16, witness: the full root leaf with the keys 0, 1, 2 (fan-outs 3) and the new
entry with key 3; the left leaf keeps the keys 0, 1, the right leaf holds 2, 3. -/
theorem splitLeafNode_halves_witness :
    (fullRootExample.splitLeafNode 2 ⟨⟨1, 3⟩, 3⟩).2.pageNo = 3 ∧
      populated 3 ((fullRootExample.splitLeafNode 2 ⟨⟨1, 3⟩, 3⟩).1.pages 2).asLeaf =
        [(0, ⟨1, 0⟩), (1, ⟨1, 1⟩)] ∧
      populated 3 ((fullRootExample.splitLeafNode 2 ⟨⟨1, 3⟩, 3⟩).1.pages 3).asLeaf =
        [(2, ⟨1, 2⟩), (3, ⟨1, 3⟩)] := by
  have h := splitLeafNode_halves fullRootExample 2 ⟨⟨1, 3⟩, 3⟩ (by decide) (by decide)
    (by decide) (by decide) (by decide)
  exact ⟨h.1, by decide, by decide⟩

/-- C17, counterexample: a full leaf with three equal keys 1 (fan-out 3) and a new
entry with key 1. The promoted key is 1 and the left leaf keeps two entries with
key 1, which are not strictly below it. -/
theorem splitLeafNode_left_key_equals_promoted :
    PopulatedUpTo 3 (equalKeysExample.pages 2).asLeaf 3 ∧
      KeysAscending (equalKeysExample.pages 2).asLeaf 3 ∧
      populated 3 (equalKeysExample.pages 2).asLeaf = [(1, ⟨1, 2⟩), (1, ⟨1, 1⟩), (1, ⟨1, 0⟩)] ∧
      (equalKeysExample.splitLeafNode 2 ⟨⟨1, 3⟩, 1⟩).2.key = 1 ∧
      populated 3 ((equalKeysExample.splitLeafNode 2 ⟨⟨1, 3⟩, 1⟩).1.pages 2).asLeaf =
        [(1, ⟨1, 2⟩), (1, ⟨1, 1⟩)] ∧
      ¬ ∀ x ∈ populated 3 ((equalKeysExample.splitLeafNode 2 ⟨⟨1, 3⟩, 1⟩).1.pages 2).asLeaf,
        x.1 < (equalKeysExample.splitLeafNode 2 ⟨⟨1, 3⟩, 1⟩).2.key := by
  decide

/-- C17, amended: for every leaf fan-out `L ≥ 3`, every full leaf with keys in
non-decreasing order on a page `p` of the file and every new entry with a non-zero
rid page number, after `splitLeafNode` has handed back the promoted key: every
populated key of the left leaf is at most the promoted key, and strictly below it
when the keys of slots `L/2` and `L/2+1` differed before the split; every
populated key of the right leaf is at least the promoted key. -/
theorem splitLeafNode_separator (s : BTreeIndex) (p : Nat) (entry : RIDKeyPair)
    (hL : 3 ≤ s.leafOccupancy) (hp : p < s.nextPageNo)
    (hfull : PopulatedUpTo s.leafOccupancy (s.pages p).asLeaf s.leafOccupancy)
    (hsorted : KeysAscending (s.pages p).asLeaf s.leafOccupancy)
    (hrid : entry.rid.page_number ≠ 0) :
    (∀ x ∈ populated s.leafOccupancy ((s.splitLeafNode p entry).1.pages p).asLeaf,
        x.1 ≤ (s.splitLeafNode p entry).2.key) ∧
      ((s.pages p).asLeaf.keyArray (s.leafOccupancy / 2) <
          (s.pages p).asLeaf.keyArray (s.leafOccupancy / 2 + 1) →
        ∀ x ∈ populated s.leafOccupancy ((s.splitLeafNode p entry).1.pages p).asLeaf,
          x.1 < (s.splitLeafNode p entry).2.key) ∧
      (∀ x ∈ populated s.leafOccupancy
          ((s.splitLeafNode p entry).1.pages (s.splitLeafNode p entry).2.pageNo).asLeaf,
        (s.splitLeafNode p entry).2.key ≤ x.1) := by
  obtain ⟨e1, e2, e3, _, _⟩ := splitLeafNode_effect s p entry hp
  have hrid0 : ((s.pages p).asLeaf.ridArray (s.leafOccupancy / 2 + 1)).page_number ≠ 0 :=
    (hfull.2 _ (by omega)).2 (by omega)
  have hno : (s.splitLeafNode p entry).2.pageNo = s.nextPageNo := by
    rw [e3, splitLeafNodes_pageNo]
  have hkey : (s.splitLeafNode p entry).2.key =
      (s.pages p).asLeaf.keyArray (s.leafOccupancy / 2 + 1) := by
    rw [e3]
    exact splitLeafNodes_promoted _ _ _ _ _ hL hrid0
  rw [hno, hkey, e1, e2]
  exact separator_of_split s.leafOccupancy (s.pages p).asLeaf s.nextPageNo entry hL hfull
    hsorted hrid

/-- C17, witness: the full root leaf with the keys 0, 1, 2 (fan-outs 3) and the new
entry with key 3; the keys of the left leaf are strictly below the promoted
key 2. -/
theorem splitLeafNode_separator_witness :
    (∀ x ∈ populated 3 ((fullRootExample.splitLeafNode 2 ⟨⟨1, 3⟩, 3⟩).1.pages 2).asLeaf,
        x.1 < (fullRootExample.splitLeafNode 2 ⟨⟨1, 3⟩, 3⟩).2.key) ∧
      (fullRootExample.splitLeafNode 2 ⟨⟨1, 3⟩, 3⟩).2.key = 2 :=
  ⟨(splitLeafNode_separator fullRootExample 2 ⟨⟨1, 3⟩, 3⟩ (by decide) (by decide) (by decide)
      (by decide) (by decide)).2.1 (by decide), by decide⟩

/-- C18, evaluation of the code: `insertEntryInNonLeaf` with leaf fan-out 3 and node
fan-out 5 on a node with the keys 10, 20, 30, 40 and the children 2, 3, 4, 5, 6
(its last child slot is free), inserting key 5 with child 7. The loops run up to
`leafOccupancy`: afterwards the key 30 and the child 5 are gone. -/
theorem insertEntryInNonLeaf_loses_child :
    childSlots 5 wideNodeExample = [2, 3, 4, 5, 6, 0] ∧
    keySlots 5 wideNodeExample = [10, 20, 30, 40, 0] ∧
    childSlots 5 (insertEntryInNonLeaf 3 wideNodeExample ⟨7, 5⟩) = [2, 7, 3, 4, 6, 0] ∧
    keySlots 5 (insertEntryInNonLeaf 3 wideNodeExample ⟨7, 5⟩) = [5, 10, 20, 40, 0] := by
  decide

/-- C19, evaluation of the code: `lookupLeaf` on a full level-1 node whose target
leaf is full. After the keys 0..8 (fan-outs 3) the root, page 4, has the children
2, 3, 5, 6 and page 6 is full. For the entry with key 9 `lookupLeaf` splits the
leaf (new leaf page 7) and allocates nothing else; it hands back page number 0,
and the root still has the children 2, 3, 5, 6, so page 7 is the child of no
node. -/
theorem lookupLeaf_drops_promotion :
    (ascendingExample 9).rootPageNum = 4 ∧
    ((ascendingExample 9).pages 4).asNonLeaf.level = 1 ∧
    childSlots 3 ((ascendingExample 9).pages 4).asNonLeaf = [2, 3, 5, 6] ∧
    populated 3 ((ascendingExample 9).pages 6).asLeaf = [(6, ⟨1, 6⟩), (7, ⟨1, 7⟩), (8, ⟨1, 8⟩)] ∧
    (ascendingExample 9).nextPageNo = 7 ∧
    (lookupLeaf 1 (ascendingExample 9) (ascendingExample 9).rootPageNum ⟨⟨1, 9⟩, 9⟩
      ⟨0, 9⟩).map (fun r => r.2.pageNo) = some 0 ∧
    (lookupLeaf 1 (ascendingExample 9) (ascendingExample 9).rootPageNum ⟨⟨1, 9⟩, 9⟩
      ⟨0, 9⟩).map (fun r => r.1.nextPageNo) = some 8 ∧
    (lookupLeaf 1 (ascendingExample 9) (ascendingExample 9).rootPageNum ⟨⟨1, 9⟩, 9⟩
      ⟨0, 9⟩).map (fun r => childSlots 3 (r.1.pages 4).asNonLeaf) = some [2, 3, 5, 6] ∧
    (lookupLeaf 1 (ascendingExample 9) (ascendingExample 9).rootPageNum ⟨⟨1, 9⟩, 9⟩
      ⟨0, 9⟩).map (fun r => populated 3 (r.1.pages 6).asLeaf) =
        some [(6, ⟨1, 6⟩), (7, ⟨1, 7⟩)] ∧
    (lookupLeaf 1 (ascendingExample 9) (ascendingExample 9).rootPageNum ⟨⟨1, 9⟩, 9⟩
      ⟨0, 9⟩).map (fun r => populated 3 (r.1.pages 7).asLeaf) =
        some [(8, ⟨1, 8⟩), (9, ⟨1, 9⟩)] := by
  decide

/-- C20, evaluation of the code: the split of a full non-leaf node with fan-out 3,
keys 10, 20, 30 and children 2, 3, 4, 5, for the new key 40 with child 8. The
child 4 is afterwards in the lower node and in the new node, whose first key is
the promoted key 30. -/
theorem splitNonLeafNodes_copies_children :
    childSlots 3 fullNodeExample = [2, 3, 4, 5] ∧
    keySlots 3 fullNodeExample = [10, 20, 30] ∧
    populatedChildren 3 (splitNonLeafNodes 3 3 fullNodeExample zeroNonLeaf 9 ⟨8, 40⟩).1 =
      [2, 3, 4] ∧
    populatedChildren 3 (splitNonLeafNodes 3 3 fullNodeExample zeroNonLeaf 9 ⟨8, 40⟩).2.1 =
      [4, 5, 8] ∧
    (splitNonLeafNodes 3 3 fullNodeExample zeroNonLeaf 9 ⟨8, 40⟩).2.2 = ⟨9, 30⟩ := by
  decide

/-- C21: for every sequence of `insertEntry` calls on a freshly created Integer
index, whatever the fan-outs and the entries, every call returns and the state
reached has at most two levels: its root is the initial leaf, page 2, or a
non-leaf node with level 1. In such a state the next `insertEntry` works as
follows. While the root is the leaf it is `insertLeafAtNode`. Afterwards
`lookupLeaf` runs its level-1 branch at the root, which holds no call of
`splitNonLeafNode`, and hands back the pair `(0, key)` it was given, page number
0; `insertEntry` then only pins and unpins the root, so `makeNewRootNode` is not
called with `setlevel = false`. -/
theorem tree_never_exceeds_two_levels (L N : Nat) (this : BTreeIndex) (relationName : String)
    (attrByteOffset : Int) (entries : List (Int × RecordId)) (fuel : Nat) (hfuel : 1 ≤ fuel) :
    ∃ s0 s, fresh this relationName attrByteOffset Datatype.INTEGER L N = some s0 ∧
      insertAll fuel s0 entries = some s ∧ TwoLevels s ∧
      ∀ key rid,
        (s.is_root_leaf = true →
          s.insertEntry fuel key rid =
            some (s.insertLeafAtNode ⟨rid, key⟩, Outcome.returned ())) ∧
        (s.is_root_leaf = false →
          lookupLeaf fuel s s.rootPageNum ⟨rid, key⟩ ⟨0, key⟩ =
              some ((s.readPage s.rootPageNum).lookupLeafLevelOne s.rootPageNum
                ((s.pages s.rootPageNum).asNonLeaf.pageNoArray
                  (childSlot s.nodeOccupancy (s.pages s.rootPageNum).asNonLeaf key))
                ⟨rid, key⟩, ⟨0, key⟩) ∧
            s.insertEntry fuel key rid =
              some ((((s.readPage s.rootPageNum).lookupLeafLevelOne s.rootPageNum
                ((s.pages s.rootPageNum).asNonLeaf.pageNoArray
                  (childSlot s.nodeOccupancy (s.pages s.rootPageNum).asNonLeaf key))
                ⟨rid, key⟩).readPage s.rootPageNum).unPinPage s.rootPageNum true,
                Outcome.returned ())) := by
  obtain ⟨s0, h0, hs0⟩ := Shallow_fresh this relationName attrByteOffset L N
  obtain ⟨s, h1, hs⟩ := Shallow_insertAll fuel hfuel entries s0 hs0
  refine ⟨s0, s, h0, h1, TwoLevels_of_shallow s hs, fun key rid => ⟨?_, ?_⟩⟩
  · intro hleaf
    exact insertEntry_rootLeaf fuel s key rid hleaf hs.int
  · intro hleaf
    obtain ⟨_, n, hp, hlevel, _⟩ := hs.nodeRoot hleaf
    exact insertEntry_noPromotion fuel s key rid hfuel hleaf hs.int (by rw [hp]; exact hlevel)

/-- C21, witness: fan-outs 3 and the keys 0, 1, ..., 11 in ascending order, twelve
inserts of which five meet a full leaf. -/
theorem tree_never_exceeds_two_levels_witness :
    ∃ s0 s, fresh zeroObject "rel" 0 Datatype.INTEGER 3 3 = some s0 ∧
      insertAll 1 s0 (ascending 0 12) = some s ∧ TwoLevels s :=
  have ⟨s0, s, h0, h1, h2, _⟩ :=
    tree_never_exceeds_two_levels 3 3 zeroObject "rel" 0 (ascending 0 12) 1 (by decide)
  ⟨s0, s, h0, h1, h2⟩

/-- C22, evaluation of the code: `startScan` sets the scan-active flag before it
checks its arguments. In every state without an active scan every call of
`startScan` raises `BadOpcodesException` and leaves the flag true: a following
`scanNext` does not raise `ScanNotInitializedException`, and a following
`endScan` returns normally, unpins `currentPageNum`, which no scan has pinned,
and only then is the flag false. -/
theorem startScan_failure_leaves_scan_active (L N fuel : Nat) (s : BTreeIndex)
    (lowValParm : VoidPtr) (lowOpParm : Operator) (highValParm : VoidPtr)
    (highOpParm : Operator) (hidle : s.scanExecuting = false) :
    ∃ s', startScan L N fuel s lowValParm lowOpParm highValParm highOpParm =
        some (s', Outcome.raised Exc.BadOpcodesException) ∧
      s'.scanExecuting = true ∧
      (scanNext L s').2 ≠ Outcome.raised Exc.ScanNotInitializedException ∧
      (endScan s').2 = Outcome.returned () ∧
      (endScan s').1.pinCnt = setAt s.pinCnt s.currentPageNum (s.pinCnt s.currentPageNum - 1) ∧
      (endScan s').1.badUnpins =
        (if s.pinCnt s.currentPageNum = 0 then s.badUnpins + 1 else s.badUnpins) := by
  refine ⟨_, startScan_eq L N fuel s lowValParm lowOpParm highValParm highOpParm, ?_, ?_, ?_, ?_,
    ?_⟩
  · rfl
  · simp only [hidle, Bool.false_eq_true, if_false, scanNext]
    split
    · rename_i h
      exact absurd h (by simp)
    · split
      · simp
      · split <;> simp
  · simp [hidle, endScan]
  · simp [hidle, endScan, unPinPage]
  · simp [hidle, endScan, unPinPage]

/-- C22, witness: an index without an active scan and without a pinned page, and
`startScan(5, LT, 10, GT)`, whose operators are not valid. The call raises
`BadOpcodesException`, yet the flag is true afterwards and the following
`endScan` returns normally after an `unPinPage` on a page that has no pin. -/
theorem startScan_failure_leaves_scan_active_witness :
    zeroObject.scanExecuting = false ∧
      ∃ s', startScan 3 3 1 zeroObject ⟨0, 5⟩ Operator.LT ⟨1, 10⟩ Operator.GT =
          some (s', Outcome.raised Exc.BadOpcodesException) ∧
        s'.scanExecuting = true ∧ (endScan s').2 = Outcome.returned () ∧
        (endScan s').1.badUnpins = 1 :=
  have ⟨s', h1, h2, _, h4, _, h6⟩ :=
    startScan_failure_leaves_scan_active 3 3 1 zeroObject ⟨0, 5⟩ Operator.LT ⟨1, 10⟩ Operator.GT
      rfl
  ⟨rfl, s', h1, h2, h4, h6⟩

end BTreeIndex

end badgerdb
